import Mathlib

/-!
Verification development for the configuration-as-code engine.

Shallow embedding of

* `pkg/api/api.go` (the `API` catalog entry, `CreateURL`, `HasParent`, `IsStandardAPI`, `Resolve`),
* `pkg/delete/delete.go` (`Configs`, `All`),
* `pkg/deploy/internal/classic/validation.go` (`Validator.Validate`),
* `internal/featureflags/temporary.go` (the flag constructors),
* `cmd/monaco/delete/delete.go` (`Delete`, `deleteConfigs`, `deleteConfigForEnvironment`),
* `cmd/monaco/integrationtest/v2/integration_test_utils.go` (`extractConfigName`, `wait`, the
  per-config loop of `AssertAllConfigsAvailability`),
* `cmd/monaco/download/downloaders.go` (`getDownloader`, `Classic`, `Settings`),

together with the properties the specification states about them.

Conventions of the embedding.

* A Go `string` is a Lean `String`; the functions of package `strings` work on its list of
  characters.  The placeholder `{SCOPE}` is ASCII, so on well-formed UTF-8 text replacing it
  character-wise and byte-wise is the same.
* A Go `map[string]T` that is only read by key is a function `String → Option T`; a map that is
  iterated (`for k, v := range m`) is the list of its key/value pairs in the order of the
  iteration, which Go leaves unspecified.
* A Go `error` result is an `Option`: `none` is `nil`.
* Calls into collaborators that perform I/O (the four delete adapters) are recorded in a trace
  and their results are given by an oracle.
* A Go panic ends the function that runs: the outcome of `Configs` and of `All` has a field
  `panic`, which is `none` for a run that returns.
-/

namespace strings

/-- Go `strings.HasPrefix` on character lists. -/
def HasPrefix : List Char → List Char → Bool
  | _, [] => true
  | [], _ :: _ => false
  | c :: cs, d :: ds => c == d && HasPrefix cs ds

/-- Go `strings.Index`: the position of the first occurrence of `substr` in `s`,
`none` standing for `-1`. -/
def Index : List Char → List Char → Option Nat
  | [], substr => if HasPrefix [] substr then some 0 else none
  | c :: cs, substr =>
    if HasPrefix (c :: cs) substr then some 0 else (Index cs substr).map (· + 1)

/-- Go `strings.Contains`. -/
def Contains (s substr : List Char) : Bool := (Index s substr).isSome

/-- Loop of Go `strings.Count` for a non-empty `substr`:
`for { i := Index(s, substr); if i == -1 { return n }; n++; s = s[i+len(substr):] }`.
Every round drops at least one character, so `fuel = len(s)` rounds suffice. -/
def countLoop (substr : List Char) : Nat → List Char → Nat
  | 0, _ => 0
  | fuel + 1, s =>
    match Index s substr with
    | none => 0
    | some i => countLoop substr fuel (s.drop (i + substr.length)) + 1

/-- Go `strings.Count`: the number of non-overlapping instances of `substr` in `s`
(one more than the number of characters when `substr` is empty). -/
def Count (s substr : List Char) : Nat :=
  if substr.length = 0 then s.length + 1 else countLoop substr s.length s

/-- Loop of Go `strings.Replace` for a non-empty `old`, on the rest `s[start:]` of the text:
`j := start + Index(s[start:], old); b.WriteString(s[start:j]); b.WriteString(new);
start = j + len(old)`, `n` times, then `b.WriteString(s[start:])`. -/
def replaceLoop (old new : List Char) : Nat → List Char → List Char
  | 0, s => s
  | n + 1, s =>
    match Index s old with
    | none => s
    | some j => s.take j ++ new ++ replaceLoop old new n (s.drop (j + old.length))

/-- Go `strings.Replace(s, old, new, -1)`, which is `strings.ReplaceAll(s, old, new)`. -/
def ReplaceAllChars (s old new : List Char) : List Char :=
  if old = new then s
  else if Count s old = 0 then s
  else if old.length = 0 then new ++ s.flatMap (fun c => c :: new)
  else replaceLoop old new (Count s old) s

/-- Go `strings.ReplaceAll`. -/
def ReplaceAll (s old new : String) : String :=
  String.mk (ReplaceAllChars s.data old.data new.data)

/-- The text `s` with every occurrence of `old` replaced by `new`, the occurrences being found
by one scan from left to right that resumes after each occurrence (so they do not overlap).
The counter is the number of characters of the current occurrence still to be skipped. -/
def replaceScan (old new : List Char) : Nat → List Char → List Char
  | _, [] => []
  | k + 1, _ :: cs => replaceScan old new k cs
  | 0, c :: cs =>
    if HasPrefix (c :: cs) old then new ++ replaceScan old new (old.length - 1) cs
    else c :: replaceScan old new 0 cs

/-- Every non-overlapping occurrence of `old` in `s`, from left to right, replaced by `new`. -/
def replaceEveryOccurrence (s old new : String) : String :=
  String.mk (replaceScan old.data new.data 0 s.data)

end strings

namespace featureflags

/-- Feature flag: an environment variable name and a default. -/
structure FeatureFlag where
  envName : String
  defaultEnabled : Bool
deriving DecidableEq

end featureflags

/-- Go `any` values that occur as configuration properties. -/
inductive AnyValue where
  | null
  | str (s : String)
  | int (i : Int)
  | bool (b : Bool)
deriving DecidableEq

namespace api

/-- Go constant `StandardApiPropertyNameOfGetAllResponse`. -/
def StandardApiPropertyNameOfGetAllResponse : String := "values"

/-- The placeholder of sub-path APIs, the literal second argument of `ReplaceAll` in `Resolve`. -/
def scopePlaceholder : String := "\x7bSCOPE\x7d"

/-- Go struct `API`: the definition of a config endpoint. -/
structure API where
  ID : String
  URLPath : String
  PropertyNameOfGetAllResponse : String
  SingleConfiguration : Bool
  NonUniqueName : Bool
  DeprecatedBy : String
  SkipDownload : Bool
  TweakResponseFunc : Option (List (String × AnyValue) → List (String × AnyValue))
  Parent : String
  RequireAllFF : List featureflags.FeatureFlag
  PropertyNameOfIdentifier : String

/-- The zero value of `API`, which indexing a Go map yields for a missing key. -/
def API.zero : API :=
  { ID := "", URLPath := "", PropertyNameOfGetAllResponse := "", SingleConfiguration := false,
    NonUniqueName := false, DeprecatedBy := "", SkipDownload := false, TweakResponseFunc := none,
    Parent := "", RequireAllFF := [], PropertyNameOfIdentifier := "" }

/-- Go `func (a API) CreateURL(environmentURL string) string`. -/
def API.CreateURL (a : API) (environmentURL : String) : String :=
  environmentURL ++ a.URLPath

/-- Go `func (a API) HasParent() bool`. -/
def API.HasParent (a : API) : Bool :=
  decide (a.Parent.length > 0)

/-- Go `func (a API) IsStandardAPI() bool`. -/
def API.IsStandardAPI (a : API) : Bool :=
  decide (a.PropertyNameOfGetAllResponse = StandardApiPropertyNameOfGetAllResponse)

/-- Go `func (a API) Resolve(value string) API`. -/
def API.Resolve (a : API) (value : String) : API :=
  let newA := a
  { newA with URLPath := strings.ReplaceAll a.URLPath scopePlaceholder value }

/-- Go `func (a API) String() string`. -/
def API.String (a : API) : String := a.ID

/-- Go type `APIs`, a `map[string]API` read by key. -/
abbrev APIs := String → Option API

/-- Modelled from the spec: the constant `api.DashboardShareSettings` is declared in a file of
package `api` that is not part of the sources at hand; the spec gives the type id
`dashboard-share-settings`. -/
def DashboardShareSettings : String := "dashboard-share-settings"

end api

namespace coordinate

/-- Modelled from the spec: the struct `coordinate.Coordinate` is declared in a package that is
not part of the sources at hand; the spec gives the triple `(project, type, configId)`. -/
structure Coordinate where
  Project : String
  Type_ : String
  ConfigId : String
deriving DecidableEq

end coordinate

namespace pointer

/-- Modelled from the spec: the struct `pointer.DeletePointer` is declared in a package that is
not part of the sources at hand; the spec gives `{type, name?, configId?, project?, scope?}`,
an absent text being empty. -/
structure DeletePointer where
  Type_ : String
  Name : String
  ConfigId : String
  Project : String
  Scope : String
deriving DecidableEq

end pointer

namespace config

/-- Go `type AutomationResource string`. -/
abbrev AutomationResource := String

/-- Modelled from the spec: the implementations of the interface `config.Type` are declared in a
package that is not part of the sources at hand; the spec gives the four families classic API,
settings schema, automation resource and bucket.  `ClassicApiType` has the field `Api` that
`Validate` reads. -/
inductive ConfigType where
  | ClassicApiType (Api : String)
  | SettingsType (SchemaId : String) (SchemaVersion : String)
  | AutomationType (Resource : AutomationResource)
  | BucketType
deriving DecidableEq

/-- Modelled from the spec: the parameter variants value, environment variable, reference and
compound of the data model. -/
inductive Parameter where
  | Value (literal : AnyValue)
  | EnvVar (name : String) (default : Option String)
  | Reference (target : coordinate.Coordinate) (property : String)
  | Compound (template : String) (references : List (coordinate.Coordinate × String))
deriving DecidableEq

/-- Modelled from the spec: the struct `config.Config` is declared in a package that is not part
of the sources at hand; the spec gives `{coordinate, type, parameters, template, environment,
group, skip, originalFile}`. -/
structure Config where
  Coordinate : coordinate.Coordinate
  Type_ : ConfigType
  Parameters : List (String × Parameter)
  Template : String
  Environment : String
  Group : String
  Skip : Bool
  OriginalFile : String
deriving DecidableEq

end config

namespace dtclient

/-- A handle for a value of the interface `dtclient.Client`. -/
structure Client where
  handle : String
deriving DecidableEq

end dtclient

namespace automation

/-- A handle for a non-nil value of the interface `automation.Client` of the delete package. -/
structure Client where
  handle : String
deriving DecidableEq

end automation

namespace bucket

/-- A handle for a non-nil value of the interface `bucket.Client` of the delete package. -/
structure Client where
  handle : String
deriving DecidableEq

end bucket

namespace delete

/-- The value of a struct field of interface type that is to hold a client: the nil interface
(the field was left unset), an interface that wraps a nil pointer, or a client (an interface
that wraps a pointer that is not nil).  Go `reflect.ValueOf(field).IsNil()` panics on the first
(`reflect.ValueOf` of a nil interface is the zero Value), is true on the second and false on
the third. -/
inductive ClientField (α : Type) where
  | unset
  | nilPointer
  | client (c : α)
deriving DecidableEq

/-- The field is the nil interface. -/
def ClientField.isUnset {α : Type} : ClientField α → Bool
  | .unset => true
  | _ => false

/-- The field wraps a nil pointer. -/
def ClientField.isNilPointer {α : Type} : ClientField α → Bool
  | .nilPointer => true
  | _ => false

/-- The field holds a client. -/
def ClientField.isClient {α : Type} : ClientField α → Bool
  | .client _ => true
  | _ => false

/-- The message of the panic of `reflect.Value.IsNil` on the zero Value. -/
def reflectPanic : String := "reflect: call of reflect.Value.IsNil on zero Value"

/-- Go struct `ClientSet`.  The fields `Automation` and `Buckets` are the ones that `Configs` and
`All` test with `reflect.ValueOf(...).IsNil()`. -/
structure ClientSet where
  Classic : dtclient.Client
  Settings : dtclient.Client
  Automation : ClientField automation.Client
  Buckets : ClientField bucket.Client

/-- Go `type DeleteEntries = map[configurationType][]pointer.DeletePointer`, as the list of its
key/value pairs in the order in which `range` visits them. -/
abbrev DeleteEntries := List (String × List pointer.DeletePointer)

/-- The four delete adapters `classic.Delete`, `automation.Delete`, `bucket.Delete` and
`setting.Delete`.  They talk to the environment: each gets the state `ω` of the world and
returns its error result and the new state. -/
structure Adapters (ω : Type) where
  classicDelete : ω → dtclient.Client → api.API → List pointer.DeletePointer → String
    → Option String × ω
  automationDelete : ω → automation.Client → config.AutomationResource
    → List pointer.DeletePointer → Option String × ω
  bucketDelete : ω → bucket.Client → List pointer.DeletePointer → Option String × ω
  settingDelete : ω → dtclient.Client → List pointer.DeletePointer → Option String × ω

/-- A call of one of the four adapters, with its arguments. -/
inductive Call where
  | classicDelete (client : dtclient.Client) (targetApi : api.API)
      (entries : List pointer.DeletePointer) (entryType : String)
  | automationDelete (client : automation.Client) (targetAutomation : config.AutomationResource)
      (entries : List pointer.DeletePointer)
  | bucketDelete (client : bucket.Client) (entries : List pointer.DeletePointer)
  | settingDelete (client : dtclient.Client) (entries : List pointer.DeletePointer)

/-- The four adapters. -/
inductive AdapterKind where
  | classic
  | automation
  | bucket
  | setting
deriving DecidableEq

/-- The adapter a call goes to. -/
def Call.kind : Call → AdapterKind
  | .classicDelete _ _ _ _ => .classic
  | .automationDelete _ _ _ => .automation
  | .bucketDelete _ _ => .bucket
  | .settingDelete _ _ => .setting

/-- The delete pointers a call passes to its adapter. -/
def Call.entries : Call → List pointer.DeletePointer
  | .classicDelete _ _ es _ => es
  | .automationDelete _ _ es => es
  | .bucketDelete _ es => es
  | .settingDelete _ es => es

/-- One event of the trace of `Configs`: the group (entry type) of the loop round, the adapter
call made for it and the error the call returned. -/
structure Dispatch where
  entryType : String
  call : Call
  err : Option String

/-- The variables of the loop of `Configs`: the counter `deleteErrors`, the adapter calls
made so far and the state of the world; `panic` is the message of a panic that has ended the
function. -/
structure LoopState (ω : Type) where
  deleteErrors : Nat
  trace : List Dispatch
  world : ω
  panic : Option String

/-- The tail of the loop body of `Configs` after an adapter call:
`if err != nil { ...; deleteErrors += 1 }`, the call being appended to the trace. -/
def afterCall {ω : Type} (st : LoopState ω) (entryType : String) (call : Call)
    (res : Option String × ω) : LoopState ω :=
  { deleteErrors := if res.1.isSome then st.deleteErrors + 1 else st.deleteErrors
    trace := st.trace ++ [{ entryType := entryType, call := call, err := res.1 }]
    world := res.2
    panic := st.panic }

/-- The body of `for entryType, entries := range entriesToDelete` in `Configs`.
A `continue` leaves the loop variables as they are.  After a panic no round runs any more;
`reflect.ValueOf(client).IsNil()` panics on an unset client field, is true on a nil pointer
(the group is skipped) and false on a client. -/
def configsBody {ω : Type} (ad : Adapters ω) (clients : ClientSet) (apis : api.APIs)
    (automationResources : String → Option config.AutomationResource)
    (st : LoopState ω) (group : String × List pointer.DeletePointer) : LoopState ω :=
  if st.panic.isSome then st
  else
    let entryType := group.1
    let entries := group.2
    if entryType = api.DashboardShareSettings then st
    else
      match apis entryType with
      | some targetApi =>
        afterCall st entryType (.classicDelete clients.Classic targetApi entries entryType)
          (ad.classicDelete st.world clients.Classic targetApi entries entryType)
      | none =>
        match automationResources entryType with
        | some targetAutomation =>
          match clients.Automation with
          | .unset => { st with panic := some reflectPanic }
          | .nilPointer => st
          | .client client =>
            afterCall st entryType (.automationDelete client targetAutomation entries)
              (ad.automationDelete st.world client targetAutomation entries)
        | none =>
          if entryType = "bucket" then
            match clients.Buckets with
            | .unset => { st with panic := some reflectPanic }
            | .nilPointer => st
            | .client client =>
              afterCall st entryType (.bucketDelete client entries)
                (ad.bucketDelete st.world client entries)
          else
            afterCall st entryType (.settingDelete clients.Settings entries)
              (ad.settingDelete st.world clients.Settings entries)

/-- The loop of `Configs` from given loop variables. -/
def configsLoop {ω : Type} (ad : Adapters ω) (clients : ClientSet) (apis : api.APIs)
    (automationResources : String → Option config.AutomationResource)
    (st : LoopState ω) (entriesToDelete : DeleteEntries) : LoopState ω :=
  entriesToDelete.foldl (configsBody ad clients apis automationResources) st

/-- Go `fmt.Errorf("encountered %d errors", deleteErrors)`. -/
def encounteredErrors (deleteErrors : Nat) : String :=
  "encountered " ++ toString deleteErrors ++ " errors"

/-- The result of `Configs`: `panic` is the message of the panic when the function panics and
`none` when it returns; `err` is the returned error (`none` when nothing is returned); with them
the adapter calls made and the state in which the world is left. -/
structure Outcome (ω : Type) where
  panic : Option String
  err : Option String
  trace : List Dispatch
  world : ω

/-- Go `func Configs(ctx, clients, apis, automationResources, entriesToDelete) error`. -/
def Configs {ω : Type} (ad : Adapters ω) (world : ω) (clients : ClientSet) (apis : api.APIs)
    (automationResources : String → Option config.AutomationResource)
    (entriesToDelete : DeleteEntries) : Outcome ω :=
  let st := configsLoop ad clients apis automationResources
    { deleteErrors := 0, trace := [], world := world, panic := none } entriesToDelete
  { panic := st.panic
    err :=
      if st.panic.isSome then none
      else if st.deleteErrors > 0 then some (encounteredErrors st.deleteErrors) else none
    trace := st.trace
    world := st.world }

/-- The adapter calls made for the group of type `entryType`. -/
def callsFor (trace : List Dispatch) (entryType : String) : List Call :=
  (trace.filter (fun d => decide (d.entryType = entryType))).map (fun d => d.call)

/-- The number of adapter calls that returned an error. -/
def failedCalls (trace : List Dispatch) : Nat :=
  (trace.filter (fun d => d.err.isSome)).length

/-- A group that `Configs` skips because the client of its family is a nil pointer: the type
is not a key of the API catalog and is a key of the automation resources while the automation
client is a nil pointer, or it is a key of neither and equals `bucket` while the bucket client
is a nil pointer. -/
def skippedForMissingClient (clients : ClientSet) (apis : api.APIs)
    (automationResources : String → Option config.AutomationResource) (entryType : String) :
    Bool :=
  (apis entryType).isNone &&
    (((automationResources entryType).isSome && clients.Automation.isNilPointer) ||
     ((automationResources entryType).isNone && decide (entryType = "bucket")
        && clients.Buckets.isNilPointer))

/-- A group at which `Configs` panics: the type is not `dashboard-share-settings` and not a key
of the API catalog, and it is a key of the automation resources while the automation client
field is unset, or it is no such key and equals `bucket` while the bucket client field is
unset. -/
def panicsAt (clients : ClientSet) (apis : api.APIs)
    (automationResources : String → Option config.AutomationResource)
    (group : String × List pointer.DeletePointer) : Bool :=
  if group.1 = api.DashboardShareSettings then false
  else
    match apis group.1 with
    | some _ => false
    | none =>
      match automationResources group.1 with
      | some _ => clients.Automation.isUnset
      | none => if group.1 = "bucket" then clients.Buckets.isUnset else false

/-- The groups that `Configs` gets to: those before the first group at which it panics. -/
def reachedEntries (clients : ClientSet) (apis : api.APIs)
    (automationResources : String → Option config.AutomationResource)
    (entries : DeleteEntries) : DeleteEntries :=
  entries.takeWhile (fun g => !panicsAt clients apis automationResources g)

/-- The adapter call that the precedence of the families assigns to a group: classic for a
key of the API catalog, else automation for a key of the automation resources, else bucket
for the type `bucket`, else settings; `none` for a group for which no call is made. -/
def plannedCall (clients : ClientSet) (apis : api.APIs)
    (automationResources : String → Option config.AutomationResource)
    (group : String × List pointer.DeletePointer) : Option Call :=
  if group.1 = api.DashboardShareSettings then none
  else
    match apis group.1 with
    | some targetApi => some (.classicDelete clients.Classic targetApi group.2 group.1)
    | none =>
      match automationResources group.1 with
      | some targetAutomation =>
        match clients.Automation with
        | .client client => some (.automationDelete client targetAutomation group.2)
        | _ => none
      | none =>
        if group.1 = "bucket" then
          match clients.Buckets with
          | .client client => some (.bucketDelete client group.2)
          | _ => none
        else some (.settingDelete clients.Settings group.2)

/-- The result of a call: the adapter of the call applied to its arguments. -/
def runCall {ω : Type} (ad : Adapters ω) (world : ω) : Call → Option String × ω
  | .classicDelete client targetApi entries entryType =>
    ad.classicDelete world client targetApi entries entryType
  | .automationDelete client targetAutomation entries =>
    ad.automationDelete world client targetAutomation entries
  | .bucketDelete client entries => ad.bucketDelete world client entries
  | .settingDelete client entries => ad.settingDelete world client entries

/-- The family of an entry type by the precedence of `Configs`: classic for a key of the API
catalog, else automation for a key of the automation resources, else bucket for the type
`bucket`, else settings. -/
def familyOf (apis : api.APIs)
    (automationResources : String → Option config.AutomationResource) (entryType : String) :
    AdapterKind :=
  if (apis entryType).isSome then .classic
  else if (automationResources entryType).isSome then .automation
  else if entryType = "bucket" then .bucket
  else .setting

/-- The pairs (entry type, adapter, entries) of a trace, in the order of the calls. -/
def callSequence (trace : List Dispatch) :
    List (String × AdapterKind × List pointer.DeletePointer) :=
  trace.map (fun d => (d.entryType, d.call.kind, d.call.entries))

/-- The adapters of a list of calls applied one after the other, each to the state in which
the one before has left the world: the errors they return, and the state in which the world
is left. -/
def applyCalls {ω : Type} (ad : Adapters ω) : ω → List Call → List (Option String) × ω
  | world, [] => ([], world)
  | world, call :: rest =>
    ((runCall ad world call).1 :: (applyCalls ad (runCall ad world call).2 rest).1,
      (applyCalls ad (runCall ad world call).2 rest).2)

end delete

namespace classic

/-- The error results of `Validate`: an error passed on from `config.GetNameForConfig`, or
`fmt.Errorf("duplicated config name found: configurations %s and %s define the same 'name' %q",
c.Coordinate, c2.Coordinate, nameDetails)` with its three arguments. -/
inductive ValidationError where
  | nameError (err : String)
  | duplicatedName (c : coordinate.Coordinate) (c2 : coordinate.Coordinate)
      (nameDetails : String)
deriving DecidableEq

/-- Go `map[classicEndpoint][]config.Config`. -/
abbrev EndpointMap := String → Option (List config.Config)

/-- Go struct `Validator`; `none` is a nil map, also as a value of the outer map. -/
structure Validator where
  uniqueNames : Option (String → Option EndpointMap)

/-- The zero `Validator`. -/
def Validator.zero : Validator := { uniqueNames := none }

/-- Go `m[k] = v` on a map read by key. -/
def mapSet {β : Type} (m : String → Option β) (k : String) (v : β) : String → Option β :=
  fun k2 => if k2 = k then some v else m k2

/-- Go `v.uniqueNames[env][endpoint]`: indexing a nil map or a missing key yields the zero
value, here the nil slice. -/
def Validator.recorded (v : Validator) (env endpoint : String) : List config.Config :=
  match v.uniqueNames with
  | none => []
  | some names =>
    match names env with
    | none => []
    | some byEndpoint => (byEndpoint endpoint).getD []

/-- The text `nameDetails` of `Validate`:
`if s, ok := n1.(string); ok { nameDetails = fmt.Sprintf(": %s", s) }`. -/
def nameDetails : AnyValue → String
  | .str s => ": " ++ s
  | _ => ""

/-- The loop `for _, c2 := range v.uniqueNames[c.Environment][a.Api]` of `Validate`; `some` is
the error the loop returns, `none` that it ran to its end.  `cmp.Equal` on names is equality of
values. -/
def validateLoop (GetNameForConfig : config.Config → Except String AnyValue)
    (c : config.Config) : List config.Config → Option ValidationError
  | [] => none
  | c2 :: rest =>
    match GetNameForConfig c with
    | .error err => some (.nameError err)
    | .ok n1 =>
      match GetNameForConfig c2 with
      | .error err => some (.nameError err)
      | .ok n2 =>
        if n1 = n2 then some (.duplicatedName c.Coordinate c2.Coordinate (nameDetails n1))
        else validateLoop GetNameForConfig c rest

/-- Go `func (v *Validator) Validate(c config.Config) error`: the validator after the call and
the returned error.  The package variable `apis = api.NewAPIs()` and the function
`config.GetNameForConfig` are declared outside the sources at hand and are parameters. -/
def Validator.Validate (apis : api.APIs)
    (GetNameForConfig : config.Config → Except String AnyValue)
    (v : Validator) (c : config.Config) : Validator × Option ValidationError :=
  let names : String → Option EndpointMap :=
    match v.uniqueNames with
    | none => fun _ => none
    | some m => m
  match c.Type_ with
  | .ClassicApiType Api =>
    if ((apis Api).getD api.API.zero).NonUniqueName then ({ uniqueNames := some names }, none)
    else
      let names : String → Option EndpointMap :=
        match names c.Environment with
        | none => mapSet names c.Environment (fun _ => none)
        | some _ => names
      let byEndpoint : EndpointMap := (names c.Environment).getD (fun _ => none)
      match validateLoop GetNameForConfig c ((byEndpoint Api).getD []) with
      | some err => ({ uniqueNames := some names }, some err)
      | none =>
        ({ uniqueNames :=
            some (mapSet names c.Environment
              (mapSet byEndpoint Api ((byEndpoint Api).getD [] ++ [c]))) }, none)
  | _ => ({ uniqueNames := some names }, none)

/-- A sequence of `Validate` calls, whatever they return. -/
def Validator.validateAll (apis : api.APIs)
    (GetNameForConfig : config.Config → Except String AnyValue)
    (v : Validator) (cs : List config.Config) : Validator :=
  cs.foldl (fun v c => (v.Validate apis GetNameForConfig c).1) v

end classic

namespace api

/-- Every opening brace of the text begins an occurrence of `pattern`. -/
def openBraceOnlyInPattern (pattern : List Char) : List Char → Bool
  | [] => true
  | c :: cs =>
    (c != '\x7b' || strings.HasPrefix (c :: cs) pattern) && openBraceOnlyInPattern pattern cs

end api

namespace featureflags

/-- Go `func Entities() FeatureFlag`. -/
def Entities : FeatureFlag :=
  { envName := "MONACO_FEAT_ENTITIES", defaultEnabled := false }

/-- Go `func VerifyEnvironmentType() FeatureFlag`. -/
def VerifyEnvironmentType : FeatureFlag :=
  { envName := "MONACO_FEAT_VERIFY_ENV_TYPE", defaultEnabled := true }

/-- Go `func ManagementZoneSettingsNumericIDs() FeatureFlag`. -/
def ManagementZoneSettingsNumericIDs : FeatureFlag :=
  { envName := "MONACO_FEAT_USE_MZ_NUMERIC_ID", defaultEnabled := true }

/-- Go `func ConsistentUUIDGeneration() FeatureFlag`. -/
def ConsistentUUIDGeneration : FeatureFlag :=
  { envName := "MONACO_FEAT_CONSISTENT_UUID_GENERATION", defaultEnabled := true }

/-- Go `func DependencyGraphBasedSort() FeatureFlag`. -/
def DependencyGraphBasedSort : FeatureFlag :=
  { envName := "MONACO_FEAT_GRAPH_SORT", defaultEnabled := true }

/-- Go `func DependencyGraphBasedDeploy() FeatureFlag`. -/
def DependencyGraphBasedDeploy : FeatureFlag :=
  { envName := "MONACO_FEAT_GRAPH_DEPLOY", defaultEnabled := true }

/-- Go `func DependencyGraphBasedDeployParallel() FeatureFlag`. -/
def DependencyGraphBasedDeployParallel : FeatureFlag :=
  { envName := "MONACO_FEAT_GRAPH_DEPLOY_PARALLEL", defaultEnabled := true }

/-- Go `func Buckets() FeatureFlag`. -/
def Buckets : FeatureFlag :=
  { envName := "MONACO_FEAT_BUCKETS", defaultEnabled := false }

/-- Go `func UnescapeOnConvert() FeatureFlag`. -/
def UnescapeOnConvert : FeatureFlag :=
  { envName := "MONACO_FEAT_UNESCAPE_ON_CONVERT", defaultEnabled := true }

/-- The flag constructors of `temporary.go`, in the order of the file. -/
def temporaryFlags : List FeatureFlag :=
  [Entities, VerifyEnvironmentType, ManagementZoneSettingsNumericIDs, ConsistentUUIDGeneration,
    DependencyGraphBasedSort, DependencyGraphBasedDeploy, DependencyGraphBasedDeployParallel,
    Buckets, UnescapeOnConvert]

/-- The number of flag constructors whose `envName` is the given variable. -/
def constructorsNamed (envName : String) : Nat :=
  (temporaryFlags.filter (fun f => decide (f.envName = envName))).length

/-- The feature-flag environment variables that the spec lists. -/
def specFlagVariables : List String :=
  ["MONACO_FEAT_GRAPH_DEPLOY", "MONACO_FEAT_GRAPH_DEPLOY_PARALLEL", "MONACO_FEAT_BUCKETS",
    "MONACO_FEAT_ENTITIES", "MONACO_FEAT_VERIFY_ENV_TYPE", "MONACO_FEAT_USE_MZ_NUMERIC_ID",
    "MONACO_FEAT_UNESCAPE_ON_CONVERT", "MONACO_FEAT_CONSISTENT_UUID_GENERATION"]

end featureflags

namespace delete

/-- The four delete-all adapters `classic.DeleteAll`, `setting.DeleteAll`,
`automation.DeleteAll` and `bucket.DeleteAll`, each with the state of the world. -/
structure AllAdapters (ω : Type) where
  classicDeleteAll : ω → dtclient.Client → api.APIs → Option String × ω
  settingDeleteAll : ω → dtclient.Client → Option String × ω
  automationDeleteAll : ω → automation.Client → Option String × ω
  bucketDeleteAll : ω → bucket.Client → Option String × ω

/-- One event of the trace of `All`: the family whose delete-all adapter was called and the
error it returned. -/
structure Attempt where
  family : AdapterKind
  err : Option String
deriving DecidableEq

/-- The variables of `All`: the counter `errs`, the adapters called so far and the state of
the world; `panic` is the message of a panic that has ended the function. -/
structure AllState (ω : Type) where
  errs : Nat
  trace : List Attempt
  world : ω
  panic : Option String

/-- One `if err := ...DeleteAll(...); err != nil { ...; errs++ }` of `All`, the call being
appended to the trace. -/
def afterDeleteAll {ω : Type} (st : AllState ω) (family : AdapterKind)
    (res : Option String × ω) : AllState ω :=
  { errs := if res.1.isSome then st.errs + 1 else st.errs
    trace := st.trace ++ [{ family := family, err := res.1 }]
    world := res.2
    panic := st.panic }

/-- Go `fmt.Errorf("failed to delete all configurations for %d types", errs)`. -/
def failedToDeleteAll (errs : Nat) : String :=
  "failed to delete all configurations for " ++ toString errs ++ " types"

/-- The result of `All`: `panic` is the message of the panic when the function panics and
`none` when it returns; `err` is the returned error (`none` when nothing is returned); with them
the adapters called and the state in which the world is left. -/
structure AllOutcome (ω : Type) where
  panic : Option String
  err : Option String
  trace : List Attempt
  world : ω

/-- Go `func All(ctx, clients, apis) error`.  `reflect.ValueOf(client).IsNil()` panics on an
unset client field, is true on a nil pointer (the family is skipped) and false on a client;
after a panic nothing more is run. -/
def All {ω : Type} (ad : AllAdapters ω) (world : ω) (clients : ClientSet) (apis : api.APIs) :
    AllOutcome ω :=
  let st0 : AllState ω := { errs := 0, trace := [], world := world, panic := none }
  let st1 := afterDeleteAll st0 .classic (ad.classicDeleteAll st0.world clients.Classic apis)
  let st2 := afterDeleteAll st1 .setting (ad.settingDeleteAll st1.world clients.Settings)
  let st3 :=
    match clients.Automation with
    | .unset => { st2 with panic := some reflectPanic }
    | .nilPointer => st2
    | .client client =>
      afterDeleteAll st2 .automation (ad.automationDeleteAll st2.world client)
  let st4 :=
    if st3.panic.isSome then st3
    else
      match clients.Buckets with
      | .unset => { st3 with panic := some reflectPanic }
      | .nilPointer => st3
      | .client client => afterDeleteAll st3 .bucket (ad.bucketDeleteAll st3.world client)
  { panic := st4.panic
    err :=
      if st4.panic.isSome then none
      else if st4.errs > 0 then some (failedToDeleteAll st4.errs) else none
    trace := st4.trace
    world := st4.world }

/-- The families that `All` attempts for a client set, in the order of the code: classic and
settings, then automation when its client field holds a client, then bucket when its client
field holds a client and the automation client field is not unset. -/
def attemptedFamilies (clients : ClientSet) : List AdapterKind :=
  [.classic, .setting]
    ++ (if clients.Automation.isClient then [.automation] else [])
    ++ (if !clients.Automation.isUnset && clients.Buckets.isClient then [.bucket] else [])

/-- The delete-all adapter of a family applied to its client of the client set; for the
automation and the bucket family without a client nothing is applied. -/
def runDeleteAll {ω : Type} (ad : AllAdapters ω) (clients : ClientSet) (apis : api.APIs)
    (world : ω) : AdapterKind → Option String × ω
  | .classic => ad.classicDeleteAll world clients.Classic apis
  | .setting => ad.settingDeleteAll world clients.Settings
  | .automation =>
    match clients.Automation with
    | .client client => ad.automationDeleteAll world client
    | _ => (none, world)
  | .bucket =>
    match clients.Buckets with
    | .client client => ad.bucketDeleteAll world client
    | _ => (none, world)

/-- The delete-all adapters of a list of families applied one after the other, each to the
state in which the one before has left the world: the errors they return, and the state in
which the world is left. -/
def applyFamilies {ω : Type} (ad : AllAdapters ω) (clients : ClientSet) (apis : api.APIs) :
    ω → List AdapterKind → List (Option String) × ω
  | world, [] => ([], world)
  | world, family :: rest =>
    ((runDeleteAll ad clients apis world family).1
        :: (applyFamilies ad clients apis (runDeleteAll ad clients apis world family).2 rest).1,
      (applyFamilies ad clients apis (runDeleteAll ad clients apis world family).2 rest).2)

end delete

namespace manifest

/-- Modelled from the spec: the auth of an environment, `{token?, oauth?}`; the struct is
declared in a package that is not part of the sources at hand. -/
structure Auth where
  Token : Option String
  OAuth : Option String
deriving DecidableEq

/-- The URL of an environment, read as `env.URL.Value`. -/
structure URLDefinition where
  Value : String
deriving DecidableEq

/-- Modelled from the spec: the struct `manifest.EnvironmentDefinition` is declared in a
package that is not part of the sources at hand; the spec gives `{name, group, url, auth}`. -/
structure EnvironmentDefinition where
  Name : String
  Group : String
  URL : URLDefinition
  Auth : Auth
deriving DecidableEq

/-- Modelled from the spec: the manifest yields the environments by name and the projects.
`Environments` is a Go map, given as the list of its pairs in the order in which
`maps.Values` visits them. -/
structure Manifest where
  Environments : List (String × EnvironmentDefinition)
  Projects : List (String × List config.Config)

/-- Go struct literal `manifest.LoaderContext` of `Delete`, without the file system. -/
structure LoaderContext where
  ManifestPath : String
  Environments : List String
  Groups : List String
deriving DecidableEq

end manifest

namespace config

/-- Modelled from the spec: the constants `config.Workflow`, `config.BusinessCalendar` and
`config.SchedulingRule` are declared outside the sources at hand; the spec names the
automation resources workflow, calendar and scheduling rule. -/
def Workflow : AutomationResource := "workflow"

/-- Modelled from the spec: see `config.Workflow`. -/
def BusinessCalendar : AutomationResource := "business-calendar"

/-- Modelled from the spec: see `config.Workflow`. -/
def SchedulingRule : AutomationResource := "scheduling-rule"

/-- Modelled from the spec: the constant `config.NameParameter` is declared outside the sources
at hand; the spec reserves the parameter name `name`. -/
def NameParameter : String := "name"

end config

namespace dynatrace

/-- The client set that `dynatrace.CreateClientSet` returns, with the results of its methods
`Classic()`, `Settings()` and `Automation()`; `none` is the nil pointer that `Automation()`
returns without OAuth. -/
structure ClientSet where
  classic : dtclient.Client
  settings : dtclient.Client
  automation : Option automation.Client

end dynatrace

namespace cmd.delete

/-- The collaborators of the delete command that are declared outside the sources at hand.
`Abs` is `filepath.Abs(filepath.Clean(path))`; an error list `none` is a nil slice.  `Configs`
is the `delete.Configs` that the command calls, which returns a list of errors; it and
`CreateClientSet` talk to the environment and get the state `ω` of the world. -/
structure Collaborators (ω Fs : Type) where
  Abs : String → String × Option String
  NewAPIs : api.APIs
  LoadManifest : Fs → manifest.LoaderContext → manifest.Manifest × Option (List String)
  LoadEntriesToDelete : Fs → (String → Bool) → String
    → List (String × List pointer.DeletePointer) × Option (List String)
  CreateClientSet : ω → String → manifest.Auth → (dynatrace.ClientSet × Option String) × ω
  Configs : ω → delete.ClientSet → api.APIs
    → (String → Option config.AutomationResource)
    → List (String × List pointer.DeletePointer) → List String × ω

/-- One event of the trace of `deleteConfigs`: an environment for which
`deleteConfigForEnvironment` ran, and the errors it returned. -/
structure EnvironmentRun where
  env : manifest.EnvironmentDefinition
  errors : List String
deriving DecidableEq

/-- Go `fmt.Errorf` of `deleteConfigForEnvironment` for a failed `CreateClientSet`. -/
def clientSetError (envName err : String) : String :=
  "It was not possible to create a client for env `" ++ envName
    ++ "` due to the following error: " ++ err

/-- Go `func deleteConfigForEnvironment(env, apis, entriesToDelete) []error`: the returned
errors and the state in which the world is left.  The literal of the client set names the
fields `Classic`, `Settings` and `Automation`; `Buckets` is left unset, and `Automation()`
returns a pointer, which is nil without OAuth. -/
def deleteConfigForEnvironment {ω Fs : Type} (co : Collaborators ω Fs) (world : ω)
    (env : manifest.EnvironmentDefinition) (apis : api.APIs)
    (entriesToDelete : List (String × List pointer.DeletePointer)) : List String × ω :=
  let created := co.CreateClientSet world env.URL.Value env.Auth
  match created.1.2 with
  | some err => ([clientSetError env.Name err], created.2)
  | none =>
    let clientSet := created.1.1
    co.Configs created.2
      { Classic := clientSet.classic, Settings := clientSet.settings,
        Automation :=
          match clientSet.automation with
          | none => .nilPointer
          | some client => .client client
        Buckets := .unset }
      apis
      (fun t =>
        if t = config.Workflow then some config.Workflow
        else if t = config.BusinessCalendar then some config.BusinessCalendar
        else if t = config.SchedulingRule then some config.SchedulingRule
        else none)
      entriesToDelete

/-- The variables of the loop of `deleteConfigs`: the result `errors`, the environments
processed so far and the state of the world. -/
structure DeleteState (ω : Type) where
  errors : List String
  trace : List EnvironmentRun
  world : ω

/-- The body of `for _, env := range environments` in `deleteConfigs`; a nil slice is the
empty list. -/
def deleteConfigsBody {ω Fs : Type} (co : Collaborators ω Fs) (apis : api.APIs)
    (entriesToDelete : List (String × List pointer.DeletePointer))
    (st : DeleteState ω) (env : manifest.EnvironmentDefinition) : DeleteState ω :=
  let res := deleteConfigForEnvironment co st.world env apis entriesToDelete
  let deleteErrors := res.1
  { errors := if deleteErrors ≠ [] then st.errors ++ deleteErrors else st.errors
    trace := st.trace ++ [{ env := env, errors := deleteErrors }]
    world := res.2 }

/-- What the loop of `deleteConfigs` keeps true: the errors are the error lists of the
environments processed, one after the other, and each of these lists is what
`deleteConfigForEnvironment` returned for its environment. -/
def Collected {ω Fs : Type} (co : Collaborators ω Fs) (apis : api.APIs)
    (entriesToDelete : List (String × List pointer.DeletePointer)) (st : DeleteState ω) :
    Prop :=
  st.errors = (st.trace.map (fun r => r.errors)).flatten ∧
  ∀ r ∈ st.trace, ∃ w : ω,
    r.errors = (deleteConfigForEnvironment co w r.env apis entriesToDelete).1

/-- Go `func deleteConfigs(environments, apis, entriesToDelete) (errors []error)`, with the
trace of the environments processed and the state in which the world is left. -/
def deleteConfigs {ω Fs : Type} (co : Collaborators ω Fs) (world : ω)
    (environments : List manifest.EnvironmentDefinition) (apis : api.APIs)
    (entriesToDelete : List (String × List pointer.DeletePointer)) : DeleteState ω :=
  environments.foldl (deleteConfigsBody co apis entriesToDelete)
    { errors := [], trace := [], world := world }

/-- Go `%s` of a slice of errors: the messages between brackets, separated by blanks. -/
def formatErrors (errs : List String) : String :=
  "[" ++ " ".intercalate errs ++ "]"

/-- Go `fmt.Errorf("encountered %v errors during delete", len(deleteErrors))`. -/
def encounteredDuringDelete (n : Nat) : String :=
  "encountered " ++ toString n ++ " errors during delete"

/-- Go `apis.GetNames()`: the keys of the catalog. -/
def GetNames (apis : api.APIs) : String → Bool :=
  fun t => (apis t).isSome

/-- Go `func Delete(fs, deploymentManifestPath, deleteFile, environmentNames,
environmentGroups) error`: the returned error and the state in which the world is left. -/
def Delete {ω Fs : Type} (co : Collaborators ω Fs) (world : ω) (fs : Fs)
    (deploymentManifestPath : String) (deleteFile : String)
    (environmentNames : List String) (environmentGroups : List String) : Option String × ω :=
  let abs := co.Abs deploymentManifestPath
  let deploymentManifestPath := abs.1
  match abs.2 with
  | some manifestErr =>
    (some ("error while finding absolute path for `" ++ deploymentManifestPath ++ "`: "
      ++ manifestErr), world)
  | none =>
    let apis := co.NewAPIs
    let loaded := co.LoadManifest fs
      { ManifestPath := deploymentManifestPath, Environments := environmentNames,
        Groups := environmentGroups }
    match loaded.2 with
    | some _ => (some "error while loading manifest", world)
    | none =>
      let parsed := co.LoadEntriesToDelete fs (GetNames apis) deleteFile
      match parsed.2 with
      | some errs =>
        (some ("encountered errors while parsing delete.yaml: " ++ formatErrors errs), world)
      | none =>
        let st := deleteConfigs co world (loaded.1.Environments.map Prod.snd) apis parsed.1
        let deleteErrors := st.errors
        if deleteErrors.length > 0 then
          (some (encounteredDuringDelete deleteErrors.length), st.world)
        else (none, st.world)

end cmd.delete

namespace v2

/-- Go `func extractConfigName(conf *config.Config, properties parameter.Properties)
(string, error)`; the properties are a `map[string]any` read by key. -/
def extractConfigName (_conf : config.Config) (properties : String → Option AnyValue) :
    String × Option String :=
  match properties config.NameParameter with
  | none => ("", some "missing `name` for config")
  | some val =>
    match val with
    | .str name => (name, none)
    | _ => ("", some "`name` in config is not of type string")

end v2

namespace download.classic

/-- Modelled from the spec: the constant `concurrentRequestsEnvKey` is declared in a file
that is not part of the sources at hand; the spec names the variable
`MONACO_CONCURRENT_REQUESTS`. -/
def concurrentRequestsEnvKey : String := "MONACO_CONCURRENT_REQUESTS"

/-- Modelled from the spec: the constant `defaultConcurrentDownloads` is declared in a file
that is not part of the sources at hand; the spec gives the default 5. -/
def defaultConcurrentDownloads : Nat := 5

/-- The number that a text of decimal digits denotes, read from the left on top of `acc`;
`none` when a character is not a digit. -/
def parseDigits (acc : Nat) : List Char → Option Nat
  | [] => some acc
  | c :: cs => if c.isDigit then parseDigits (acc * 10 + (c.toNat - 48)) cs else none

/-- The number that a non-empty text of decimal digits denotes. -/
def parseDecimal (text : List Char) : Option Nat :=
  if text = [] then none else parseDigits 0 text

/-- Modelled from the spec: the function `concurrentRequestLimitFromEnv` is declared in a file
that is not part of the sources at hand, only its test is; the spec says that
`MONACO_CONCURRENT_REQUESTS` holds a positive integer and that there is a default.  The
environment is a function from variable names to values, `none` for an unset variable. -/
def concurrentRequestLimitFromEnv (env : String → Option String) : Nat :=
  match env concurrentRequestsEnvKey with
  | none => defaultConcurrentDownloads
  | some text =>
    match parseDecimal text.data with
    | some n => if n > 0 then n else defaultConcurrentDownloads
    | none => defaultConcurrentDownloads

end download.classic

namespace v2

/-- The largest Go `int` of a 64-bit platform, `math.MaxInt`. -/
def MaxInt64 : Int := 9223372036854775807

/-- Go `i++` on an `int` whose largest value is `maxInt`: the increment wraps around to the
smallest value `-(maxInt + 1)`. -/
def intSucc (maxInt : Int) (i : Int) : Int :=
  if i = maxInt then -(maxInt + 1) else i + 1

/-- What `wait` does, in order: an evaluation of the condition with its result, or a
`time.Sleep(2 * time.Second)`. -/
inductive WaitEvent where
  | evaluated (result : Bool)
  | slept
deriving DecidableEq

/-- The loop `for i := 0; i <= maxPollCount; i++ { if condition() { return nil };
time.Sleep(...) }` of `wait` from the counter `i`, the events so far and the state of the
world in which the condition is evaluated.  The first component of the result tells whether
the loop was left by `return nil`; `none` is a loop that has not ended within `fuel` rounds. -/
def waitLoop {ω : Type} (maxInt : Int) (maxPollCount : Int) (condition : ω → Bool × ω) :
    Nat → Int → List WaitEvent → ω → Option (Bool × List WaitEvent × ω)
  | 0, _, _, _ => none
  | fuel + 1, i, trace, world =>
    if i ≤ maxPollCount then
      if (condition world).1 then
        some (true, trace ++ [.evaluated true], (condition world).2)
      else
        waitLoop maxInt maxPollCount condition fuel (intSucc maxInt i)
          (trace ++ [.evaluated false, .slept]) (condition world).2
    else some (false, trace, world)

/-- Go `errors.New("Waiting for '" + description + "' timed out!")`. -/
def timedOut (description : String) : String :=
  "Waiting for \x27" ++ description ++ "\x27 timed out!"

/-- The result of `wait`: the returned error, with the evaluations and sleeps made and the
state in which the world is left. -/
structure WaitOutcome (ω : Type) where
  err : Option String
  trace : List WaitEvent
  world : ω

/-- Go `func wait(description string, maxPollCount int, condition func() bool) error`, run for
at most `fuel` rounds of its loop; `none` when the loop has not ended by then.  The condition
is a closure: it reads and changes the state `ω` of the world. -/
def wait {ω : Type} (maxInt : Int) (description : String) (maxPollCount : Int)
    (condition : ω → Bool × ω) (world : ω) (fuel : Nat) : Option (WaitOutcome ω) :=
  match waitLoop maxInt maxPollCount condition fuel 0 [] world with
  | none => none
  | some (true, trace, world2) => some { err := none, trace := trace, world := world2 }
  | some (false, trace, world2) =>
    some { err := some (timedOut description), trace := trace, world := world2 }

/-- The number of evaluations of the condition in a trace of `wait`. -/
def evaluations (trace : List WaitEvent) : Nat :=
  (trace.filter (fun e => decide (e ≠ .slept))).length

/-- The events of `k` rounds in which the condition was false: each an evaluation to false
followed by a sleep. -/
def falseRounds : Nat → List WaitEvent
  | 0 => []
  | k + 1 => [.evaluated false, .slept] ++ falseRounds k

/-- Polling at most `rounds` times: the condition is evaluated until it is true, with a sleep
after each false evaluation.  The first component tells whether it became true. -/
def poll {ω : Type} (condition : ω → Bool × ω) : Nat → ω → Bool × List WaitEvent × ω
  | 0, world => (false, [], world)
  | rounds + 1, world =>
    if (condition world).1 then (true, [.evaluated true], (condition world).2)
    else
      ((poll condition rounds (condition world).2).1,
        [.evaluated false, .slept] ++ (poll condition rounds (condition world).2).2.1,
        (poll condition rounds (condition world).2).2.2)

end v2

namespace parameter

/-- Go `parameter.Properties`, a `map[string]interface{}` read by key. -/
abbrev Properties := String → Option AnyValue

/-- Go struct `parameter.ResolvedEntity`, with the fields that the struct literals of
`AssertAllConfigsAvailability` set. -/
structure ResolvedEntity where
  EntityName : String
  Coordinate : coordinate.Coordinate
  Properties : Properties
  Skip : Bool

end parameter

namespace topologysort

/-- Go struct `topologysort.ParameterWithName`, declared outside the sources at hand: a
parameter with its name. -/
structure ParameterWithName where
  Name : String
  Parameter : config.Parameter
deriving DecidableEq

end topologysort

namespace config

/-- Modelled from the spec: the constant `config.IdParameter` is declared outside the sources
at hand; the spec reserves the parameter name `id`. -/
def IdParameter : String := "id"

end config

namespace v2

/-- The collaborators of the per-config loop of `AssertAllConfigsAvailability`.
`SortParameters` and `ResolveParameterValues` are declared outside the sources at hand and
return a result and a list of errors.  `AssertConfig` is the remote availability check: it
talks to the environment, so it gets the state `ω` of the world, and it returns the failed
checks and whether it has stopped the test. -/
structure Collaborators (ω : Type) where
  SortParameters : String → String → coordinate.Coordinate → List (String × config.Parameter)
    → List topologysort.ParameterWithName × List String
  ResolveParameterValues : config.Config
    → (coordinate.Coordinate → Option parameter.ResolvedEntity)
    → List topologysort.ParameterWithName → parameter.Properties × List String
  AssertConfig : ω → manifest.EnvironmentDefinition → Bool → config.Config → String → String
    → (List String × Bool) × ω

/-- What the per-config loop does for a config, in order. -/
inductive Step where
  | SortParameters (coord : coordinate.Coordinate)
  | ResolveParameterValues (coord : coordinate.Coordinate)
  | extractConfigName (coord : coordinate.Coordinate)
  | AssertConfig (coord : coordinate.Coordinate) (name : String)
deriving DecidableEq

/-- The coordinate of the config for which a step is done. -/
def Step.coord : Step → coordinate.Coordinate
  | .SortParameters c => c
  | .ResolveParameterValues c => c
  | .extractConfigName c => c
  | .AssertConfig c _ => c

/-- The variables of the per-config loop: the entity table, the parameters collected so far,
the steps done, the failures reported to the test, whether the test has been stopped
(`t.Fatal`, `assert.NilError`), and the state of the world. -/
structure CheckState (ω : Type) where
  entities : coordinate.Coordinate → Option parameter.ResolvedEntity
  parameters : List topologysort.ParameterWithName
  steps : List Step
  failures : List String
  fatal : Bool
  world : ω

/-- Go `entities[coord] = entity`. -/
def setEntity (entities : coordinate.Coordinate → Option parameter.ResolvedEntity)
    (coord : coordinate.Coordinate) (entity : parameter.ResolvedEntity) :
    coordinate.Coordinate → Option parameter.ResolvedEntity :=
  fun c => if c = coord then some entity else entities c

/-- The body of `for _, theConfig := range configs` in `AssertAllConfigsAvailability`.
`test.FailTestOnAnyError` and `assert.NilError` stop the test when there is an error; once the
test is stopped nothing more is done. -/
def assertConfigsBody {ω : Type} (co : Collaborators ω) (env : manifest.EnvironmentDefinition)
    (available : Bool) (projectsToValidate : String → Bool)
    (st : CheckState ω) (theConfig : config.Config) : CheckState ω :=
  if st.fatal then st
  else
    let coord := theConfig.Coordinate
    if theConfig.Skip then
      { st with
        entities := setEntity st.entities coord
          { EntityName := coord.ConfigId, Coordinate := coord, Properties := fun _ => none,
            Skip := true } }
    else
      let sorted := co.SortParameters theConfig.Group theConfig.Environment
        theConfig.Coordinate theConfig.Parameters
      let st1 := { st with steps := st.steps ++ [Step.SortParameters coord] }
      if sorted.2 ≠ [] then
        { st1 with
          failures := st1.failures ++ ["sorting of parameter values failed"], fatal := true }
      else
        let parameters := st.parameters ++ sorted.1
        let resolved := co.ResolveParameterValues theConfig st.entities parameters
        let st2 := { st1 with
          parameters := parameters, steps := st1.steps ++ [Step.ResolveParameterValues coord] }
        if resolved.2 ≠ [] then
          { st2 with
            failures := st2.failures ++ ["resolving of parameter values failed"],
            fatal := true }
        else
          let properties := classic.mapSet resolved.1 config.IdParameter
            (.str "NO REAL ID NEEDED FOR CHECKING AVAILABILITY")
          let named := extractConfigName theConfig properties
          let st3 := { st2 with steps := st2.steps ++ [Step.extractConfigName coord] }
          match named.2 with
          | some err => { st3 with failures := st3.failures ++ [err], fatal := true }
          | none =>
            let st4 := { st3 with
              entities := setEntity st3.entities coord
                { EntityName := named.1, Coordinate := coord, Properties := properties,
                  Skip := false } }
            if projectsToValidate coord.Project then
              let checked := co.AssertConfig st4.world env available theConfig coord.Type_
                named.1
              { st4 with
                steps := st4.steps ++ [Step.AssertConfig coord named.1],
                failures := st4.failures ++ checked.1.1,
                fatal := checked.1.2,
                world := checked.2 }
            else st4

/-- The per-config loop of `AssertAllConfigsAvailability` for one environment, from the empty
entity table `make(map[coordinate.Coordinate]parameter.ResolvedEntity)` and the nil slice
`parameters`. -/
def assertConfigsLoop {ω : Type} (co : Collaborators ω) (env : manifest.EnvironmentDefinition)
    (available : Bool) (projectsToValidate : String → Bool) (world : ω)
    (configs : List config.Config) : CheckState ω :=
  configs.foldl (assertConfigsBody co env available projectsToValidate)
    { entities := fun _ => none, parameters := [], steps := [], failures := [],
      fatal := false, world := world }

end v2

namespace cmd.download

/-- Modelled from the spec: the type arguments of `getDownloader`, the implementations of the
interface `v2.Type`, which are declared outside the sources at hand; the spec gives the
families classic API, settings schema, automation resource and bucket. -/
inductive TypeArgument where
  | ClassicApiType
  | SettingsType
  | AutomationType
  | BucketType
deriving DecidableEq

/-- An element of Go `type downloaders []interface{}`: a value, with the type arguments `T`
for which the type assertion `downloader.(download.Downloader[T])` succeeds. -/
structure Element where
  name : String
  implements : TypeArgument → Bool

/-- Go `type downloaders []interface{}`. -/
abbrev downloaders := List Element

/-- Go `func getDownloader[T v2.Type](d downloaders) download.Downloader[T]`; an error is the
panic with its message. -/
def getDownloader (T : TypeArgument) : downloaders → Except String Element
  | [] => .error "No downloader implementation found"
  | downloader :: rest =>
    if downloader.implements T then .ok downloader else getDownloader T rest

/-- Go `func (d downloaders) Classic() download.Downloader[v2.ClassicApiType]`. -/
def downloaders.Classic (d : downloaders) : Except String Element :=
  getDownloader .ClassicApiType d

/-- Go `func (d downloaders) Settings() download.Downloader[v2.SettingsType]`. -/
def downloaders.Settings (d : downloaders) : Except String Element :=
  getDownloader .SettingsType d

end cmd.download

/-! Example inputs. -/

namespace examples

/-- A sub-path API entry as the catalog holds them: key user actions under a mobile
application, with no parent recorded. -/
def keyUserActionsMobile : api.API :=
  { ID := "key-user-actions-mobile"
    URLPath := "/api/config/v1/applications/mobile/\x7bSCOPE\x7d/keyUserActions"
    PropertyNameOfGetAllResponse := "keyUserActions"
    SingleConfiguration := false
    NonUniqueName := false
    DeprecatedBy := ""
    SkipDownload := false
    TweakResponseFunc := none
    Parent := ""
    RequireAllFF := []
    PropertyNameOfIdentifier := "" }

/-- A classic API entry without sub-path. -/
def dashboard : api.API :=
  { ID := "dashboard"
    URLPath := "/api/config/v1/dashboards"
    PropertyNameOfGetAllResponse := "dashboards"
    SingleConfiguration := false
    NonUniqueName := true
    DeprecatedBy := ""
    SkipDownload := false
    TweakResponseFunc := none
    Parent := ""
    RequireAllFF := []
    PropertyNameOfIdentifier := "" }

/-- A classic API entry whose configs are identified by name. -/
def alertingProfile : api.API :=
  { ID := "alerting-profile"
    URLPath := "/api/config/v1/alertingProfiles"
    PropertyNameOfGetAllResponse := "values"
    SingleConfiguration := false
    NonUniqueName := false
    DeprecatedBy := ""
    SkipDownload := false
    TweakResponseFunc := none
    Parent := ""
    RequireAllFF := []
    PropertyNameOfIdentifier := "" }

/-- The classic API entry of the dashboard share settings. -/
def dashboardShareSettings : api.API :=
  { ID := "dashboard-share-settings"
    URLPath := "/api/config/v1/dashboards/\x7bSCOPE\x7d/shareSettings"
    PropertyNameOfGetAllResponse := ""
    SingleConfiguration := true
    NonUniqueName := false
    DeprecatedBy := ""
    SkipDownload := false
    TweakResponseFunc := none
    Parent := "dashboard"
    RequireAllFF := []
    PropertyNameOfIdentifier := "" }

/-- A small API catalog; it also lists `workflow`, which is an automation resource too. -/
def catalog : api.APIs := fun t =>
  if t = "dashboard" then some dashboard
  else if t = "alerting-profile" then some alertingProfile
  else if t = "dashboard-share-settings" then some dashboardShareSettings
  else if t = "workflow" then some alertingProfile
  else none

/-- The automation resources that the delete command passes to `Configs`. -/
def automationResources : String → Option config.AutomationResource := fun t =>
  if t = "workflow" then some "workflow"
  else if t = "business-calendar" then some "business-calendar"
  else if t = "scheduling-rule" then some "scheduling-rule"
  else none

/-- A delete pointer with a type and a name. -/
def ptr (t name : String) : pointer.DeletePointer :=
  { Type_ := t, Name := name, ConfigId := "", Project := "", Scope := "" }

/-- Adapters over a world that counts the calls made: deleting fails when one of the pointers
is named `broken`. -/
def adapters : delete.Adapters Nat :=
  { classicDelete := fun w _ _ es _ =>
      (if es.any (fun e => decide (e.Name = "broken")) then some "delete failed" else none, w + 1)
    automationDelete := fun w _ _ es =>
      (if es.any (fun e => decide (e.Name = "broken")) then some "delete failed" else none, w + 1)
    bucketDelete := fun w _ es =>
      (if es.any (fun e => decide (e.Name = "broken")) then some "delete failed" else none, w + 1)
    settingDelete := fun w _ es =>
      (if es.any (fun e => decide (e.Name = "broken")) then some "delete failed" else none, w + 1) }

/-- A client set with all four clients. -/
def allClients : delete.ClientSet :=
  { Classic := { handle := "classic" }, Settings := { handle := "settings" }
    Automation := .client { handle := "automation" }
    Buckets := .client { handle := "buckets" } }

/-- A client set without OAuth: the automation and the bucket client are nil pointers. -/
def tokenOnlyClients : delete.ClientSet :=
  { Classic := { handle := "classic" }, Settings := { handle := "settings" }
    Automation := .nilPointer, Buckets := .nilPointer }

/-- The client set that `deleteConfigForEnvironment` builds without OAuth: the automation
client is a nil pointer and the bucket client field is left unset. -/
def commandClients : delete.ClientSet :=
  { Classic := { handle := "classic" }, Settings := { handle := "settings" }
    Automation := .nilPointer, Buckets := .unset }

/-- The client set of the literal `ClientSet{Classic: c, Settings: s}`: the automation and
the bucket client field are left unset. -/
def unsetClients : delete.ClientSet :=
  { Classic := { handle := "classic" }, Settings := { handle := "settings" }
    Automation := .unset, Buckets := .unset }

/-- The entries of a delete file, in one iteration order of the map. -/
def entries : delete.DeleteEntries :=
  [ ("dashboard", [ptr "dashboard" "broken", ptr "dashboard" "also broken"]),
    ("workflow", [ptr "workflow" "wf"]),
    ("business-calendar", [ptr "business-calendar" "cal"]),
    ("dashboard-share-settings", [ptr "dashboard-share-settings" "broken"]),
    ("bucket", [ptr "bucket" "b"]),
    ("builtin:tags", [ptr "builtin:tags" "broken"]) ]

/-- Entries of automation and bucket groups only. -/
def platformEntries : delete.DeleteEntries :=
  [ ("business-calendar", [ptr "business-calendar" "broken"]),
    ("bucket", [ptr "bucket" "broken"]) ]

/-- Two groups of one delete file. -/
def twoGroups : delete.DeleteEntries :=
  [ ("builtin:tags", [ptr "builtin:tags" "t"]), ("dashboard", [ptr "dashboard" "d"]) ]

/-- An entry whose URL path has braces around the placeholder. -/
def bracedPlaceholder : api.API :=
  { keyUserActionsMobile with
    ID := "braced"
    URLPath := "/api/config/v1/\x7b\x7bSCOPE\x7d\x7d/items" }

/-- An entry whose URL path has the placeholder inside the text of a placeholder. -/
def nestedPlaceholder : api.API :=
  { keyUserActionsMobile with
    ID := "nested"
    URLPath := "/api/config/v1/\x7bSCO\x7bSCOPE\x7dPE\x7d/items" }

/-- Properties with a name that is a string. -/
def namedProperties : String → Option AnyValue := fun k =>
  if k = "name" then some (.str "Ops") else if k = "id" then some (.str "42") else none

/-- Properties with a name that is a number. -/
def numberNamedProperties : String → Option AnyValue := fun k =>
  if k = "name" then some (.int 7) else none

/-- Properties without a name. -/
def unnamedProperties : String → Option AnyValue := fun k =>
  if k = "id" then some (.str "42") else none

/-- Delete-all adapters over a world that counts the calls made: the classic and the settings
family succeed, the automation and the bucket family fail. -/
def allAdapters : delete.AllAdapters Nat :=
  { classicDeleteAll := fun w _ _ => (none, w + 1)
    settingDeleteAll := fun w _ => (none, w + 1)
    automationDeleteAll := fun w _ => (some "automation failed", w + 1)
    bucketDeleteAll := fun w _ => (some "bucket failed", w + 1) }

/-- An environment with a URL and a token. -/
def devEnvironment : manifest.EnvironmentDefinition :=
  { Name := "dev", Group := "default", URL := { Value := "https://dev.example.com" }
    Auth := { Token := some "token", OAuth := none } }

/-- An environment without URL, for which no client can be created. -/
def brokenEnvironment : manifest.EnvironmentDefinition :=
  { Name := "broken", Group := "default", URL := { Value := "" }
    Auth := { Token := some "token", OAuth := none } }

/-- A second environment with a URL and a token. -/
def prodEnvironment : manifest.EnvironmentDefinition :=
  { Name := "prod", Group := "default", URL := { Value := "https://prod.example.com" }
    Auth := { Token := some "token", OAuth := none } }

/-- Collaborators of the delete command over a world that counts the calls made: the manifest
has three environments, the delete file has the example entries, a client set cannot be
created for an empty URL, and deleting is `delete.Configs` with the example adapters, run with
a nil pointer as bucket client. -/
def collaborators : cmd.delete.Collaborators Nat Unit :=
  { Abs := fun path => ("/work/" ++ path, none)
    NewAPIs := catalog
    LoadManifest := fun _ _ =>
      ({ Environments := [("dev", devEnvironment), ("broken", brokenEnvironment),
          ("prod", prodEnvironment)], Projects := [] }, none)
    LoadEntriesToDelete := fun _ _ _ => (entries, none)
    CreateClientSet := fun w url _ =>
      (({ classic := { handle := "classic" }, settings := { handle := "settings" },
          automation := none },
        if url = "" then some "no URL" else none), w + 1)
    Configs := fun w clients apis resources es =>
      ((delete.Configs adapters w { clients with Buckets := .nilPointer } apis resources
          es).err.toList,
        (delete.Configs adapters w { clients with Buckets := .nilPointer } apis resources
          es).world) }

/-- An environment in which the variable of the request limit is set to `51`. -/
def limitEnvironment : String → Option String := fun k =>
  if k = "MONACO_CONCURRENT_REQUESTS" then some "51" else none

/-- A condition that is never true, as for an object that does not become available. -/
def neverTrue : Unit → Bool × Unit := fun w => (false, w)

/-- A condition over a world that counts its evaluations: it is true from the third
evaluation on. -/
def trueAtThird : Nat → Bool × Nat := fun w => (decide (2 ≤ w), w + 1)

/-- Collaborators of the availability check over a world that counts the remote checks:
sorting and resolving fail for every config, and the remote check reports a failure. -/
def failingChecks : v2.Collaborators Nat :=
  { SortParameters := fun _ _ _ _ => ([], ["cannot sort"])
    ResolveParameterValues := fun _ _ _ => (fun _ => none, ["cannot resolve"])
    AssertConfig := fun w _ _ _ _ _ => ((["object is not available"], false), w + 1) }

/-- A downloader for classic APIs. -/
def classicDownloader : cmd.download.Element :=
  { name := "classic", implements := fun T => decide (T = .ClassicApiType) }

/-- A downloader for settings. -/
def settingsDownloader : cmd.download.Element :=
  { name := "settings", implements := fun T => decide (T = .SettingsType) }

/-- A second downloader for settings. -/
def otherSettingsDownloader : cmd.download.Element :=
  { name := "settings-2", implements := fun T => decide (T = .SettingsType) }

/-- An alerting profile for the environment `prod` that has no `name` parameter. -/
def unnamedProfile : config.Config :=
  { Coordinate := { Project := "infra", Type_ := "alerting-profile", ConfigId := "unnamed" }
    Type_ := .ClassicApiType "alerting-profile"
    Parameters := []
    Template := ""
    Environment := "prod"
    Group := "default"
    Skip := false
    OriginalFile := "" }

/-- Adapters over a world that logs the adapters that ran: each call appends a line with the
name of its adapter, and fails, with an error that names the adapter, when one of the pointers
is named `broken`. -/
def loggingAdapters : delete.Adapters (List String) :=
  { classicDelete := fun w _ a es t =>
      (if es.any (fun e => decide (e.Name = "broken")) then some "classic.Delete failed"
        else none,
        w ++ ["classic.Delete " ++ a.ID ++ " " ++ t])
    automationDelete := fun w _ r es =>
      (if es.any (fun e => decide (e.Name = "broken")) then some "automation.Delete failed"
        else none,
        w ++ ["automation.Delete " ++ r])
    bucketDelete := fun w _ es =>
      (if es.any (fun e => decide (e.Name = "broken")) then some "bucket.Delete failed"
        else none,
        w ++ ["bucket.Delete"])
    settingDelete := fun w _ es =>
      (if es.any (fun e => decide (e.Name = "broken")) then some "setting.Delete failed"
        else none,
        w ++ ["setting.Delete"]) }

/-- A name function for the examples: the literal of the value parameter `name`. -/
def nameOf (c : config.Config) : Except String AnyValue :=
  match c.Parameters.lookup "name" with
  | some (.Value literal) => .ok literal
  | some _ => .error "the name parameter is not a value"
  | none => .error "configuration has no name parameter"

/-- A config of the project `infra` with the given type, id, environment and name. -/
def mkConfig (t : config.ConfigType) (typeId configId env name : String) : config.Config :=
  { Coordinate := { Project := "infra", Type_ := typeId, ConfigId := configId }
    Type_ := t
    Parameters := [("name", .Value (.str name))]
    Template := ""
    Environment := env
    Group := "default"
    Skip := false
    OriginalFile := "" }

/-- An alerting profile named `Ops` for the environment `dev`. -/
def profileA : config.Config :=
  mkConfig (.ClassicApiType "alerting-profile") "alerting-profile" "profile-a" "dev" "Ops"

/-- A second alerting profile named `Ops` for the environment `dev`. -/
def profileB : config.Config :=
  mkConfig (.ClassicApiType "alerting-profile") "alerting-profile" "profile-b" "dev" "Ops"

/-- An alerting profile named `Dev` for the environment `dev`. -/
def profileC : config.Config :=
  mkConfig (.ClassicApiType "alerting-profile") "alerting-profile" "profile-c" "dev" "Dev"

/-- A dashboard named `Ops` for the environment `dev`; dashboards have `NonUniqueName`. -/
def dashboardA : config.Config :=
  mkConfig (.ClassicApiType "dashboard") "dashboard" "dashboard-a" "dev" "Ops"

/-- An alerting profile named `Ops` for the environment `prod`. -/
def prodProfile : config.Config :=
  mkConfig (.ClassicApiType "alerting-profile") "alerting-profile" "profile-p" "prod" "Ops"

/-- An alerting profile named `Dev` for the environment `prod`. -/
def prodDevProfile : config.Config :=
  mkConfig (.ClassicApiType "alerting-profile") "alerting-profile" "profile-q" "prod" "Dev"

/-- A settings object named `Ops` for the environment `dev`. -/
def settingA : config.Config :=
  mkConfig (.SettingsType "builtin:tags" "1.0") "builtin:tags" "tags-a" "dev" "Ops"

end examples

/-! Lemmas on `strings`. -/

namespace strings

theorem hasPrefix_nil_right (s : List Char) : HasPrefix s [] = true := by
  cases s <;> rfl

theorem hasPrefix_iff (s old : List Char) : HasPrefix s old = true ↔ ∃ t, s = old ++ t := by
  induction old generalizing s with
  | nil => simp [hasPrefix_nil_right]
  | cons d ds ih =>
    cases s with
    | nil => simp [HasPrefix]
    | cons c cs =>
      simp only [HasPrefix, Bool.and_eq_true, beq_iff_eq, ih, List.cons_append, List.cons.injEq]
      constructor
      · rintro ⟨h, t, ht⟩
        exact ⟨t, h, ht⟩
      · rintro ⟨t, h, ht⟩
        exact ⟨h, t, ht⟩

theorem hasPrefix_append_self (old s : List Char) : HasPrefix (old ++ s) old = true :=
  (hasPrefix_iff _ _).2 ⟨s, rfl⟩

theorem hasPrefix_of_append (x s old : List Char) (hlen : old.length ≤ x.length)
    (h : HasPrefix (x ++ s) old = true) : HasPrefix x old = true := by
  induction old generalizing x with
  | nil => exact hasPrefix_nil_right x
  | cons d ds ih =>
    cases x with
    | nil => simp at hlen
    | cons c cs =>
      simp only [List.cons_append, HasPrefix, Bool.and_eq_true, beq_iff_eq] at h ⊢
      simp only [List.length_cons, Nat.add_le_add_iff_right] at hlen
      exact ⟨h.1, ih cs hlen h.2⟩

theorem index_nil_left {old : List Char} (h : old ≠ []) : Index [] old = none := by
  cases old with
  | nil => exact absurd rfl h
  | cons d ds => rfl

theorem index_cons (c : Char) (cs substr : List Char) :
    Index (c :: cs) substr
      = if HasPrefix (c :: cs) substr = true then some 0 else (Index cs substr).map (· + 1) := rfl

theorem index_drop {s old : List Char} {j : Nat} (h : Index s old = some j) :
    s.drop j = old ++ s.drop (j + old.length) := by
  induction s generalizing j with
  | nil =>
    simp only [Index] at h
    split at h
    · rename_i hp
      obtain ⟨t, ht⟩ := (hasPrefix_iff _ _).1 hp
      have hold : old = [] := by
        cases old with
        | nil => rfl
        | cons d ds => simp at ht
      cases h
      simp [hold]
    · cases h
  | cons c cs ih =>
    simp only [Index] at h
    split at h
    · rename_i hp
      cases h
      obtain ⟨t, ht⟩ := (hasPrefix_iff _ _).1 hp
      rw [ht]
      simp
    · cases hi : Index cs old with
      | none => simp [hi] at h
      | some j0 =>
        simp only [hi, Option.map_some', Option.some.injEq] at h
        subst h
        have := ih hi
        simpa [Nat.add_right_comm] using this

theorem index_lt_length {s old : List Char} {j : Nat} (hold : old ≠ [])
    (h : Index s old = some j) : j + old.length ≤ s.length := by
  have h1 := congrArg List.length (index_drop h)
  simp only [List.length_drop, List.length_append] at h1
  have h2 : 0 < old.length := List.length_pos.2 hold
  omega

theorem replaceScan_drop (old new : List Char) (k : Nat) (s : List Char) :
    replaceScan old new k s = replaceScan old new 0 (s.drop k) := by
  induction k generalizing s with
  | zero => rfl
  | succ k ih =>
    cases s with
    | nil => rfl
    | cons c cs => simpa [replaceScan] using ih cs

theorem replaceScan_of_index_none {old : List Char} (new : List Char) {s : List Char}
    (h : Index s old = none) : replaceScan old new 0 s = s := by
  induction s with
  | nil => rfl
  | cons c cs ih =>
    simp only [Index] at h
    split at h
    · cases h
    · rename_i hp
      have hi : Index cs old = none := by
        cases hc : Index cs old with
        | none => rfl
        | some j => simp [hc] at h
      simp [replaceScan, hp, ih hi]

theorem replaceScan_of_index_some {old : List Char} (new : List Char) {s : List Char} {j : Nat}
    (hold : old ≠ []) (h : Index s old = some j) :
    replaceScan old new 0 s
      = s.take j ++ new ++ replaceScan old new 0 (s.drop (j + old.length)) := by
  induction s generalizing j with
  | nil => simp [index_nil_left hold] at h
  | cons c cs ih =>
    simp only [Index] at h
    split at h
    · rename_i hp
      cases h
      have hpos : 0 < old.length := List.length_pos.2 hold
      have hlen : old.length = (old.length - 1) + 1 := by omega
      simp only [replaceScan, hp, if_true, List.take_zero, List.nil_append, Nat.zero_add]
      rw [replaceScan_drop]
      conv_rhs => rw [hlen, List.drop_succ_cons]
    · rename_i hp
      cases hi : Index cs old with
      | none => simp [hi] at h
      | some j0 =>
        simp only [hi, Option.map_some', Option.some.injEq] at h
        subst h
        have := ih hi
        simp only [replaceScan, hp, Bool.false_eq_true, if_false, this, List.take_succ_cons,
          List.cons_append, List.append_assoc]
        rw [Nat.add_right_comm, List.drop_succ_cons]

theorem replaceLoop_countLoop {old : List Char} (new : List Char) (hold : old ≠ [])
    (fuel : Nat) (s : List Char) (hfuel : s.length ≤ fuel) :
    replaceLoop old new (countLoop old fuel s) s = replaceScan old new 0 s := by
  induction fuel generalizing s with
  | zero =>
    have : s = [] := List.length_eq_zero.1 (Nat.le_zero.1 hfuel)
    subst this
    rfl
  | succ fuel ih =>
    cases hi : Index s old with
    | none => simp [countLoop, hi, replaceLoop, replaceScan_of_index_none new hi]
    | some j =>
      have hj := index_lt_length hold hi
      have hpos : 0 < old.length := List.length_pos.2 hold
      have hdrop : (s.drop (j + old.length)).length ≤ fuel := by
        simp only [List.length_drop]
        omega
      simp only [countLoop, hi, replaceLoop]
      rw [ih _ hdrop, replaceScan_of_index_some new hold hi]

theorem replaceLoop_same (old : List Char) (n : Nat) (s : List Char) :
    replaceLoop old old n s = s := by
  induction n generalizing s with
  | zero => rfl
  | succ n ih =>
    cases hi : Index s old with
    | none => simp [replaceLoop, hi]
    | some j =>
      simp only [replaceLoop, hi, ih, List.append_assoc]
      rw [← index_drop hi, List.take_append_drop]

/-- Go's `strings.ReplaceAll` with a non-empty pattern computes the left-to-right scan. -/
theorem replaceAllChars_eq_scan (s old new : List Char) (hold : old ≠ []) :
    ReplaceAllChars s old new = replaceScan old new 0 s := by
  have hlen : old.length ≠ 0 := fun h => hold (List.length_eq_zero.1 h)
  have hcount : Count s old = countLoop old s.length s := by simp [Count, hlen]
  unfold ReplaceAllChars
  split
  · rename_i heq
    rw [← replaceLoop_countLoop new hold s.length s (le_refl _), ← heq, replaceLoop_same]
  · split
    · rename_i h0
      rw [← replaceLoop_countLoop new hold s.length s (le_refl _), ← hcount, h0]
      rfl
    · rw [hcount]
      exact replaceLoop_countLoop new hold s.length s (le_refl _)

theorem index_append_right {p old : List Char} (s : List Char) (hold : old ≠ [])
    (h : Index (p ++ old) old = some p.length) : Index (p ++ old ++ s) old = some p.length := by
  induction p with
  | nil =>
    cases old with
    | nil => exact absurd rfl hold
    | cons d ds =>
      have := hasPrefix_append_self (d :: ds) s
      simp only [List.nil_append, List.cons_append] at this ⊢
      simp [Index, this]
  | cons c p ih =>
    have e1 : (c :: p) ++ old = c :: (p ++ old) := rfl
    have e2 : (c :: p) ++ old ++ s = c :: (p ++ old ++ s) := rfl
    rw [e1] at h
    rw [e2]
    rw [index_cons] at h ⊢
    split at h
    · simp at h
    · rename_i hp
      have hp2 : ¬ HasPrefix (c :: (p ++ old ++ s)) old = true := by
        intro hc
        apply hp
        have hlen : old.length ≤ (c :: (p ++ old)).length := by
          simp only [List.length_cons, List.length_append]
          omega
        exact hasPrefix_of_append (c :: (p ++ old)) s old hlen hc
      rw [if_neg hp2]
      cases hi : Index (p ++ old) old with
      | none => simp [hi] at h
      | some j =>
        simp only [hi, Option.map_some', Option.some.injEq, List.length_cons,
          Nat.add_right_cancel_iff] at h
        subst h
        rw [ih hi]
        rfl

/-- One occurrence of the pattern, at the end of `p ++ old`, and none in `s`:
the scan yields `p ++ new ++ s`. -/
theorem replaceScan_single {p old s : List Char} (new : List Char) (hold : old ≠ [])
    (hp : Index (p ++ old) old = some p.length) (hs : Index s old = none) :
    replaceScan old new 0 (p ++ old ++ s) = p ++ new ++ s := by
  rw [replaceScan_of_index_some new hold (index_append_right s hold hp)]
  have h1 : (p ++ old ++ s).take p.length = p := by
    rw [List.append_assoc, List.take_left]
  have h2 : (p ++ old ++ s).drop (p.length + old.length) = s := by
    rw [← List.length_append, List.drop_left]
  rw [h1, h2, replaceScan_of_index_none new hs]

end strings

/-! `API.Resolve`. -/

namespace api

theorem scopePlaceholder_ne_nil : scopePlaceholder.data ≠ [] := by decide

theorem resolve_urlPath_data (a : API) (v : String) :
    (a.Resolve v).URLPath.data = strings.replaceScan scopePlaceholder.data v.data 0 a.URLPath.data := by
  show strings.ReplaceAllChars a.URLPath.data scopePlaceholder.data v.data = _
  exact strings.replaceAllChars_eq_scan _ _ _ scopePlaceholder_ne_nil

/-- C8: for every API entry `a` and text `v`, the URL path of `a.Resolve(v)` is the URL path of
`a` with every occurrence of the placeholder `{SCOPE}`, found by a left-to-right scan without
overlaps, replaced by `v`.  In particular, when the URL path of `a` is `p ++ {SCOPE} ++ s`, the
placeholder occurs in `p ++ {SCOPE}` only at the end and does not occur in `s`, the resolved path
is `p ++ v ++ s` and `CreateURL(e)` of the resolved entry is `e ++ p ++ v ++ s`. -/
theorem resolve_replaces_every_scope (a : API) (v : String) :
    (a.Resolve v).URLPath = strings.replaceEveryOccurrence a.URLPath scopePlaceholder v ∧
    ∀ p s : String, a.URLPath = p ++ scopePlaceholder ++ s →
      strings.Index (p ++ scopePlaceholder).data scopePlaceholder.data = some p.length →
      strings.Contains s.data scopePlaceholder.data = false →
      (a.Resolve v).URLPath = p ++ v ++ s ∧
      ∀ e : String, (a.Resolve v).CreateURL e = e ++ p ++ v ++ s := by
  constructor
  · apply String.ext
    rw [resolve_urlPath_data]
    rfl
  · intro p s hpath hp hs
    have hs2 : strings.Index s.data scopePlaceholder.data = none := by
      simpa [strings.Contains] using hs
    have hres : (a.Resolve v).URLPath = p ++ v ++ s := by
      apply String.ext
      rw [resolve_urlPath_data, hpath]
      simp only [String.data_append] at hp ⊢
      exact strings.replaceScan_single v.data scopePlaceholder_ne_nil hp hs2
    refine ⟨hres, fun e => ?_⟩
    show e ++ (a.Resolve v).URLPath = _
    rw [hres]
    apply String.ext
    simp [String.data_append]

/-- Witness of C8: the key-user-actions entry resolved for the application `APP-1`. -/
theorem resolve_replaces_every_scope_witness :
    examples.keyUserActionsMobile.URLPath
        = "/api/config/v1/applications/mobile/" ++ scopePlaceholder ++ "/keyUserActions" ∧
      strings.Index ("/api/config/v1/applications/mobile/" ++ scopePlaceholder).data
        scopePlaceholder.data = some "/api/config/v1/applications/mobile/".length ∧
      strings.Contains "/keyUserActions".data scopePlaceholder.data = false ∧
      (examples.keyUserActionsMobile.Resolve "APP-1").URLPath
        = "/api/config/v1/applications/mobile/" ++ "APP-1" ++ "/keyUserActions" ∧
      ∀ e : String, (examples.keyUserActionsMobile.Resolve "APP-1").CreateURL e
        = e ++ "/api/config/v1/applications/mobile/" ++ "APP-1" ++ "/keyUserActions" :=
  ⟨by decide, by decide, by decide,
    (resolve_replaces_every_scope examples.keyUserActionsMobile "APP-1").2
      "/api/config/v1/applications/mobile/" "/keyUserActions"
      (by decide) (by decide) (by decide)⟩

/-- C9: `Resolve` returns an entry that differs from its receiver in the URL path only: the
fields `ID`, `PropertyNameOfGetAllResponse`, `SingleConfiguration`, `NonUniqueName`,
`DeprecatedBy`, `SkipDownload`, `TweakResponseFunc`, `Parent`, `RequireAllFF` and
`PropertyNameOfIdentifier` of `a.Resolve(v)` are those of `a`; the receiver is a value and is
not changed. -/
theorem resolve_changes_urlPath_only (a : API) (v : String) :
    (a.Resolve v).ID = a.ID ∧
    (a.Resolve v).PropertyNameOfGetAllResponse = a.PropertyNameOfGetAllResponse ∧
    (a.Resolve v).SingleConfiguration = a.SingleConfiguration ∧
    (a.Resolve v).NonUniqueName = a.NonUniqueName ∧
    (a.Resolve v).DeprecatedBy = a.DeprecatedBy ∧
    (a.Resolve v).SkipDownload = a.SkipDownload ∧
    (a.Resolve v).TweakResponseFunc = a.TweakResponseFunc ∧
    (a.Resolve v).Parent = a.Parent ∧
    (a.Resolve v).RequireAllFF = a.RequireAllFF ∧
    (a.Resolve v).PropertyNameOfIdentifier = a.PropertyNameOfIdentifier ∧
    a.Resolve v = { a with URLPath := strings.ReplaceAll a.URLPath scopePlaceholder v } :=
  ⟨rfl, rfl, rfl, rfl, rfl, rfl, rfl, rfl, rfl, rfl, rfl⟩

/-- C10, the code at the failing input: the key-user-actions entry has a URL path that contains
`{SCOPE}` and is resolved with the non-empty value `APP-1`, and the returned entry has no
parent; `Resolve` never writes the field `Parent`. -/
theorem resolve_does_not_fill_parent :
    strings.Contains examples.keyUserActionsMobile.URLPath.data scopePlaceholder.data = true ∧
    ("APP-1" : String) ≠ "" ∧
    (examples.keyUserActionsMobile.Resolve "APP-1").Parent = "" ∧
    (examples.keyUserActionsMobile.Resolve "APP-1").HasParent = false ∧
    ∀ (a : API) (v : String), (a.Resolve v).HasParent = a.HasParent :=
  ⟨by decide, by decide, rfl, by decide, fun _ _ => rfl⟩

end api

/-! `delete.Configs`. -/

namespace delete

section loop

variable {ω : Type} (ad : Adapters ω) (clients : ClientSet) (apis : api.APIs)
  (automationResources : String → Option config.AutomationResource)

/-- The loop body by the planned call of the group: nothing after a panic, a panic at a group
that meets an unset client field, and otherwise the planned call, when there is one, applied to
the world and recorded. -/
theorem configsBody_eq (st : LoopState ω) (g : String × List pointer.DeletePointer) :
    configsBody ad clients apis automationResources st g
      = if st.panic.isSome then st
        else if panicsAt clients apis automationResources g then
          { st with panic := some reflectPanic }
        else
          match plannedCall clients apis automationResources g with
          | none => st
          | some call => afterCall st g.1 call (runCall ad st.world call) := by
  unfold configsBody plannedCall panicsAt
  by_cases hp : st.panic.isSome = true
  · simp [hp]
  · simp only [hp, if_false]
    by_cases h : g.1 = api.DashboardShareSettings
    · simp [h]
    · simp only [h, if_false]
      cases h1 : apis g.1 with
      | some a => simp [runCall]
      | none =>
        cases h2 : automationResources g.1 with
        | some r =>
          cases h3 : clients.Automation <;> simp [runCall, ClientField.isUnset]
        | none =>
          by_cases h4 : g.1 = "bucket"
          · cases h5 : clients.Buckets <;> simp [h4, runCall, ClientField.isUnset]
          · simp [h4, runCall]

theorem configsLoop_nil (st : LoopState ω) :
    configsLoop ad clients apis automationResources st [] = st := rfl

theorem configsLoop_cons (st : LoopState ω) (g : String × List pointer.DeletePointer)
    (es : DeleteEntries) :
    configsLoop ad clients apis automationResources st (g :: es)
      = configsLoop ad clients apis automationResources
          (configsBody ad clients apis automationResources st g) es := rfl

/-- A group for which no call is planned and at which the function does not panic leaves the
loop variables as they are. -/
theorem configsBody_of_no_call (st : LoopState ω) (g : String × List pointer.DeletePointer)
    (h : plannedCall clients apis automationResources g = none)
    (hnp : panicsAt clients apis automationResources g = false) :
    configsBody ad clients apis automationResources st g = st := by
  rw [configsBody_eq, h, hnp]
  simp

/-- A round of the loop either makes no call, and leaves counter, trace and world as they
are, or makes the planned call of the group. -/
theorem configsBody_cases (st : LoopState ω) (g : String × List pointer.DeletePointer) :
    ((configsBody ad clients apis automationResources st g).trace = st.trace ∧
      (configsBody ad clients apis automationResources st g).world = st.world ∧
      (configsBody ad clients apis automationResources st g).deleteErrors = st.deleteErrors) ∨
    (∃ call, plannedCall clients apis automationResources g = some call ∧
      configsBody ad clients apis automationResources st g
        = afterCall st g.1 call (runCall ad st.world call)) := by
  rw [configsBody_eq]
  by_cases hp : st.panic.isSome = true
  · simp [hp]
  · cases hpa : panicsAt clients apis automationResources g with
    | true => simp [hp]
    | false =>
      cases hpl : plannedCall clients apis automationResources g with
      | none => simp [hp]
      | some call =>
        right
        exact ⟨call, rfl, by simp [hp]⟩

/-- After a panic the loop does nothing. -/
theorem configsLoop_of_panicked (st : LoopState ω) (es : DeleteEntries)
    (h : st.panic.isSome = true) :
    configsLoop ad clients apis automationResources st es = st := by
  induction es with
  | nil => rfl
  | cons g es ih =>
    rw [configsLoop_cons, configsBody_eq, if_pos h]
    exact ih

/-- Groups for which no call is planned and at which the function does not panic can be
dropped from the loop. -/
theorem configsLoop_filter (keep : String → Bool)
    (hkeep : ∀ g : String × List pointer.DeletePointer, keep g.1 = false →
      plannedCall clients apis automationResources g = none ∧
      panicsAt clients apis automationResources g = false)
    (st : LoopState ω) (es : DeleteEntries) :
    configsLoop ad clients apis automationResources st es
      = configsLoop ad clients apis automationResources st (es.filter (fun g => keep g.1)) := by
  induction es generalizing st with
  | nil => rfl
  | cons g es ih =>
    cases hk : keep g.1 with
    | false =>
      rw [configsLoop_cons, configsBody_of_no_call ad clients apis automationResources st g
        (hkeep g hk).1 (hkeep g hk).2, List.filter_cons_of_neg (by simp [hk])]
      exact ih st
    | true =>
      rw [List.filter_cons_of_pos (by simp [hk]), configsLoop_cons, configsLoop_cons]
      exact ih _

/-- The function returns exactly when it was not in a panic before and meets no group at which
it panics. -/
theorem configsLoop_panic_none_iff (st : LoopState ω) (es : DeleteEntries) :
    (configsLoop ad clients apis automationResources st es).panic = none ↔
      st.panic = none ∧ ∀ g ∈ es, panicsAt clients apis automationResources g = false := by
  induction es generalizing st with
  | nil => simp [configsLoop_nil]
  | cons g es ih =>
    rw [configsLoop_cons, ih, configsBody_eq]
    cases hst : st.panic with
    | some m => simp [hst]
    | none =>
      cases hpa : panicsAt clients apis automationResources g with
      | true => simp [hpa]
      | false =>
        cases hpl : plannedCall clients apis automationResources g with
        | none => simp [hst, hpa]
        | some call => simp [hst, hpa, afterCall]

/-- The loop appends one event for each group with a planned call that it gets to, in the
order of the groups. -/
theorem configsLoop_trace (st : LoopState ω) (es : DeleteEntries) (hst : st.panic = none) :
    (configsLoop ad clients apis automationResources st es).trace.map
        (fun d => (d.entryType, d.call))
      = st.trace.map (fun d => (d.entryType, d.call))
        ++ (reachedEntries clients apis automationResources es).filterMap (fun g =>
            (plannedCall clients apis automationResources g).map (fun call => (g.1, call))) := by
  induction es generalizing st with
  | nil => simp [configsLoop_nil, reachedEntries]
  | cons g es ih =>
    rw [configsLoop_cons, configsBody_eq]
    cases hpa : panicsAt clients apis automationResources g with
    | true =>
      rw [configsLoop_of_panicked]
      · simp [hst, reachedEntries, List.takeWhile_cons, hpa]
      · simp [hst]
    | false =>
      have hreach : reachedEntries clients apis automationResources (g :: es)
          = g :: reachedEntries clients apis automationResources es := by
        simp [reachedEntries, List.takeWhile_cons, hpa]
      cases hp : plannedCall clients apis automationResources g with
      | none =>
        simp only [hst, Option.isSome_none, Bool.false_eq_true, if_false]
        rw [ih st hst, hreach]
        simp [List.filterMap_cons, hp]
      | some call =>
        simp only [hst, Option.isSome_none, Bool.false_eq_true, if_false]
        rw [ih _ (by simpa [afterCall] using hst), hreach]
        simp [List.filterMap_cons, hp, afterCall]

/-- Without a group at which the function panics, every group is reached. -/
theorem reachedEntries_eq_self (es : DeleteEntries)
    (h : ∀ g ∈ es, panicsAt clients apis automationResources g = false) :
    reachedEntries clients apis automationResources es = es := by
  unfold reachedEntries
  induction es with
  | nil => rfl
  | cons g es ih =>
    rw [List.takeWhile_cons]
    simp only [h g (List.mem_cons_self _ _), Bool.not_false, if_true]
    rw [ih (fun x hx => h x (List.mem_cons_of_mem _ hx))]

/-- The counter `deleteErrors` counts the calls of the trace that returned an error. -/
theorem configsLoop_deleteErrors (st : LoopState ω) (es : DeleteEntries)
    (hst : st.deleteErrors = failedCalls st.trace) :
    (configsLoop ad clients apis automationResources st es).deleteErrors
      = failedCalls (configsLoop ad clients apis automationResources st es).trace := by
  induction es generalizing st with
  | nil => simpa [configsLoop_nil] using hst
  | cons g es ih =>
    rw [configsLoop_cons]
    apply ih
    rcases configsBody_cases ad clients apis automationResources st g with
      ⟨h1, _, h3⟩ | ⟨call, _, hb⟩
    · rw [h1, h3]
      exact hst
    · rw [hb]
      simp only [afterCall, failedCalls, List.filter_append, List.length_append]
      cases hr : (runCall ad st.world call).1 with
      | none => simpa [failedCalls] using hst
      | some e => simpa [failedCalls] using hst

/-- Every event that the loop adds to the trace is the planned call of a group of the list. -/
theorem configsLoop_trace_mem (st : LoopState ω) (es : DeleteEntries) (d : Dispatch)
    (hd : d ∈ (configsLoop ad clients apis automationResources st es).trace) :
    d ∈ st.trace ∨ ∃ g ∈ es, g.1 = d.entryType ∧
      plannedCall clients apis automationResources g = some d.call := by
  induction es generalizing st with
  | nil => exact Or.inl hd
  | cons g es ih =>
    rw [configsLoop_cons] at hd
    rcases ih _ hd with h | ⟨g2, hg2, h2⟩
    · rcases configsBody_cases ad clients apis automationResources st g with
        ⟨ht, _, _⟩ | ⟨call, hpl, hb⟩
      · rw [ht] at h
        exact Or.inl h
      · rw [hb] at h
        simp only [afterCall, List.mem_append, List.mem_singleton] at h
        rcases h with h | rfl
        · exact Or.inl h
        · exact Or.inr ⟨g, List.mem_cons_self _ _, rfl, hpl⟩
    · exact Or.inr ⟨g2, List.mem_cons_of_mem _ hg2, h2⟩

theorem applyCalls_append (world : ω) (calls : List Call) (call : Call) :
    applyCalls ad world (calls ++ [call])
      = ((applyCalls ad world calls).1 ++ [(runCall ad (applyCalls ad world calls).2 call).1],
          (runCall ad (applyCalls ad world calls).2 call).2) := by
  induction calls generalizing world with
  | nil => rfl
  | cons c cs ih =>
    show ((runCall ad world c).1 :: (applyCalls ad (runCall ad world c).2 (cs ++ [call])).1,
        (applyCalls ad (runCall ad world c).2 (cs ++ [call])).2) = _
    rw [ih]
    rfl

/-- The errors of the trace and the state of the world are those of the adapters of the calls
of the trace, applied one after the other from the first state of the world. -/
theorem configsLoop_applyCalls (world : ω) (st : LoopState ω) (es : DeleteEntries)
    (hst : applyCalls ad world (st.trace.map (fun d => d.call))
      = (st.trace.map (fun d => d.err), st.world)) :
    applyCalls ad world
        ((configsLoop ad clients apis automationResources st es).trace.map (fun d => d.call))
      = ((configsLoop ad clients apis automationResources st es).trace.map (fun d => d.err),
          (configsLoop ad clients apis automationResources st es).world) := by
  induction es generalizing st with
  | nil => exact hst
  | cons g es ih =>
    rw [configsLoop_cons]
    apply ih
    rcases configsBody_cases ad clients apis automationResources st g with
      ⟨h1, h2, _⟩ | ⟨call, _, hb⟩
    · rw [h1, h2]
      exact hst
    · rw [hb]
      simp only [afterCall, List.map_append, List.map_cons, List.map_nil]
      rw [applyCalls_append, hst]

end loop

section configs

variable {ω : Type} (ad : Adapters ω) (world : ω) (clients : ClientSet) (apis : api.APIs)
  (automationResources : String → Option config.AutomationResource)

theorem configs_trace (entries : DeleteEntries) :
    (Configs ad world clients apis automationResources entries).trace
      = (configsLoop ad clients apis automationResources
          { deleteErrors := 0, trace := [], world := world, panic := none } entries).trace := rfl

theorem configs_world (entries : DeleteEntries) :
    (Configs ad world clients apis automationResources entries).world
      = (configsLoop ad clients apis automationResources
          { deleteErrors := 0, trace := [], world := world, panic := none } entries).world := rfl

theorem configs_panic (entries : DeleteEntries) :
    (Configs ad world clients apis automationResources entries).panic
      = (configsLoop ad clients apis automationResources
          { deleteErrors := 0, trace := [], world := world, panic := none } entries).panic := rfl

/-- The function `Configs` returns exactly when it meets no group at which it panics. -/
theorem configs_returns_iff (entries : DeleteEntries) :
    (Configs ad world clients apis automationResources entries).panic = none ↔
      ∀ g ∈ entries, panicsAt clients apis automationResources g = false := by
  rw [configs_panic, configsLoop_panic_none_iff]
  simp

/-- The calls of a run of `Configs` that returns, with their groups, are the planned calls of
the groups in the order of the iteration. -/
theorem configs_trace_planned (entries : DeleteEntries)
    (hreturn : (Configs ad world clients apis automationResources entries).panic = none) :
    (Configs ad world clients apis automationResources entries).trace.map
        (fun d => (d.entryType, d.call))
      = entries.filterMap (fun g =>
          (plannedCall clients apis automationResources g).map (fun call => (g.1, call))) := by
  rw [configs_trace, configsLoop_trace _ _ _ _ _ _ rfl,
    reachedEntries_eq_self clients apis automationResources entries
      ((configs_returns_iff ad world clients apis automationResources entries).1 hreturn)]
  rfl

/-- Every call of `Configs` is the planned call of a group of the entries. -/
theorem configs_trace_mem (entries : DeleteEntries) (d : Dispatch)
    (hd : d ∈ (Configs ad world clients apis automationResources entries).trace) :
    ∃ g ∈ entries, g.1 = d.entryType ∧
      plannedCall clients apis automationResources g = some d.call := by
  rw [configs_trace] at hd
  rcases configsLoop_trace_mem ad clients apis automationResources _ entries d hd with h | h
  · simp at h
  · exact h

/-- Dropping groups without a planned call, at which the function does not panic, does not
change the outcome of `Configs`. -/
theorem configs_filter (keep : String → Bool)
    (hkeep : ∀ g : String × List pointer.DeletePointer, keep g.1 = false →
      plannedCall clients apis automationResources g = none ∧
      panicsAt clients apis automationResources g = false)
    (entries : DeleteEntries) :
    Configs ad world clients apis automationResources entries
      = Configs ad world clients apis automationResources
          (entries.filter (fun g => keep g.1)) := by
  unfold Configs
  rw [configsLoop_filter ad clients apis automationResources keep hkeep]

/-- The errors of the trace of `Configs` and the state in which it leaves the world are those
of the adapters of the calls of the trace, applied one after the other from the first state of
the world. -/
theorem configs_applyCalls (entries : DeleteEntries) :
    applyCalls ad world
        ((Configs ad world clients apis automationResources entries).trace.map (fun d => d.call))
      = ((Configs ad world clients apis automationResources entries).trace.map (fun d => d.err),
          (Configs ad world clients apis automationResources entries).world) := by
  rw [configs_trace, configs_world]
  exact configsLoop_applyCalls ad clients apis automationResources world _ entries rfl

theorem plannedCall_dashboardShareSettings (g : String × List pointer.DeletePointer)
    (h : g.1 = api.DashboardShareSettings) :
    plannedCall clients apis automationResources g = none ∧
    panicsAt clients apis automationResources g = false := by
  simp [plannedCall, panicsAt, h]

theorem plannedCall_of_skipped (g : String × List pointer.DeletePointer)
    (h : skippedForMissingClient clients apis automationResources g.1 = true) :
    plannedCall clients apis automationResources g = none ∧
    panicsAt clients apis automationResources g = false := by
  simp only [skippedForMissingClient, Bool.and_eq_true, Bool.or_eq_true, Option.isNone_iff_eq_none,
    Option.isSome_iff_exists, decide_eq_true_eq] at h
  obtain ⟨h1, h2⟩ := h
  unfold plannedCall panicsAt
  by_cases h0 : g.1 = api.DashboardShareSettings
  · simp [h0]
  · simp only [h0, if_false, h1]
    rcases h2 with ⟨⟨r, hr⟩, hc⟩ | ⟨⟨hr, hb⟩, hc⟩
    · cases h3 : clients.Automation <;>
        simp [hr, h3, ClientField.isNilPointer, ClientField.isUnset] at hc ⊢
    · simp only [hr]
      cases h3 : clients.Buckets <;>
        simp [hb, h3, ClientField.isNilPointer, ClientField.isUnset] at hc ⊢

/-- With distinct entry types, the calls made for a group of the entries by a run that returns
are its planned call. -/
theorem callsFor_of_mem (entries : DeleteEntries) (hnodup : (entries.map Prod.fst).Nodup)
    (hreturn : (Configs ad world clients apis automationResources entries).panic = none)
    (t : String) (ps : List pointer.DeletePointer) (hmem : (t, ps) ∈ entries) :
    callsFor (Configs ad world clients apis automationResources entries).trace t
      = (plannedCall clients apis automationResources (t, ps)).toList := by
  have h1 : callsFor (Configs ad world clients apis automationResources entries).trace t
      = (((Configs ad world clients apis automationResources entries).trace.map
          (fun d => (d.entryType, d.call))).filter (fun p => decide (p.1 = t))).map Prod.snd := by
    simp only [callsFor, List.filter_map, List.map_map]
    rfl
  rw [h1, configs_trace_planned ad world clients apis automationResources entries hreturn]
  clear h1 hreturn
  induction entries with
  | nil => simp at hmem
  | cons g es ih =>
    have hg : g.1 ∉ es.map Prod.fst := (List.nodup_cons.1 hnodup).1
    have hes : (es.map Prod.fst).Nodup := (List.nodup_cons.1 hnodup).2
    rcases List.mem_cons.1 hmem with heq | hin
    · subst heq
      have hrest : (es.filterMap (fun g =>
          (plannedCall clients apis automationResources g).map (fun call => (g.1, call)))).filter
            (fun p => decide (p.1 = t)) = [] := by
        rw [List.filter_eq_nil_iff]
        intro p hp
        obtain ⟨g2, hg2, hgp⟩ := List.mem_filterMap.1 hp
        cases hpl : plannedCall clients apis automationResources g2 with
        | none => simp [hpl] at hgp
        | some call =>
          simp only [hpl, Option.map_some', Option.some.injEq] at hgp
          subst hgp
          simp only [decide_eq_true_eq]
          intro h2
          exact hg (List.mem_map.2 ⟨g2, hg2, h2⟩)
      cases hpl : plannedCall clients apis automationResources (t, ps) with
      | none => simp [List.filterMap_cons, hpl, hrest]
      | some call => simp [List.filterMap_cons, hpl, hrest, List.filter_cons]
    · have hne : g.1 ≠ t := fun h => hg (List.mem_map.2 ⟨(t, ps), hin, h.symm⟩)
      cases hpl : plannedCall clients apis automationResources g with
      | none =>
        simp only [List.filterMap_cons, hpl, Option.map_none']
        exact ih hes hin
      | some call =>
        simp only [List.filterMap_cons, hpl, Option.map_some', List.filter_cons, hne,
          decide_False, Bool.false_eq_true, if_false]
        exact ih hes hin

theorem sublist_filterMap_fst {α β : Type} (f : String × α → Option (String × β))
    (hf : ∀ g p, f g = some p → p.1 = g.1) (l : List (String × α)) :
    ((l.filterMap f).map Prod.fst).Sublist (l.map Prod.fst) := by
  induction l with
  | nil => simp
  | cons g l ih =>
    cases hfg : f g with
    | none =>
      simp only [List.filterMap_cons, hfg, List.map_cons]
      exact List.Sublist.cons _ ih
    | some p =>
      simp only [List.filterMap_cons, hfg, List.map_cons, hf g p hfg]
      exact List.Sublist.cons₂ _ ih

theorem callSequence_eq (entries : DeleteEntries)
    (hreturn : (Configs ad world clients apis automationResources entries).panic = none) :
    callSequence (Configs ad world clients apis automationResources entries).trace
      = (entries.filterMap (fun g =>
          (plannedCall clients apis automationResources g).map (fun call => (g.1, call)))).map
          (fun p => (p.1, p.2.kind, p.2.entries)) := by
  rw [← configs_trace_planned ad world clients apis automationResources entries hreturn]
  simp [callSequence, List.map_map]

theorem plannedCall_kind (g : String × List pointer.DeletePointer) (call : Call)
    (h : plannedCall clients apis automationResources g = some call) :
    call.kind = familyOf apis automationResources g.1 := by
  unfold plannedCall at h
  unfold familyOf
  split at h
  · cases h
  · cases h1 : apis g.1 with
    | some a =>
      simp only [h1, Option.some.injEq] at h
      subst h
      simp [Call.kind]
    | none =>
      cases h2 : automationResources g.1 with
      | some r =>
        cases h3 : clients.Automation with
        | unset => simp [h1, h2, h3] at h
        | nilPointer => simp [h1, h2, h3] at h
        | client c =>
          simp only [h1, h2, h3, Option.some.injEq] at h
          subst h
          simp [Call.kind]
      | none =>
        simp only [h1, h2] at h
        by_cases h4 : g.1 = "bucket"
        · cases h5 : clients.Buckets with
          | unset => simp [h4, h5] at h
          | nilPointer => simp [h4, h5] at h
          | client c =>
            simp only [h4, h5, if_true, Option.some.injEq] at h
            subst h
            simp [Call.kind, h4]
        · simp only [h4, if_false, Option.some.injEq] at h
          subst h
          simp [Call.kind, h4]

theorem callsFor_eq_nil (trace : List Dispatch) (t : String)
    (h : ∀ d ∈ trace, d.entryType ≠ t) : callsFor trace t = [] := by
  simp only [callsFor, List.map_eq_nil_iff, List.filter_eq_nil_iff, decide_eq_true_eq]
  exact h

end configs

/-- C3: for every delete-entries map, every API catalog and all adapters, `Configs` makes no
adapter call for the group of type `dashboard-share-settings`, and its outcome (returned error,
calls made, state of the world) is that of the run on the map without that group, so the group
adds nothing to the error count. -/
theorem configs_never_deletes_dashboard_share_settings {ω : Type} (ad : Adapters ω) (world : ω)
    (clients : ClientSet) (apis : api.APIs)
    (automationResources : String → Option config.AutomationResource)
    (entries : DeleteEntries) :
    callsFor (Configs ad world clients apis automationResources entries).trace
        api.DashboardShareSettings = [] ∧
    Configs ad world clients apis automationResources entries
      = Configs ad world clients apis automationResources
          (entries.filter (fun g => decide (g.1 ≠ api.DashboardShareSettings))) := by
  constructor
  · apply callsFor_eq_nil
    intro d hd heq
    obtain ⟨g, _, hg1, hg2⟩ := configs_trace_mem ad world clients apis automationResources
      entries d hd
    rw [(plannedCall_dashboardShareSettings clients apis automationResources g
      (hg1.trans heq)).1] at hg2
    cases hg2
  · apply configs_filter ad world clients apis automationResources
      (fun t => decide (t ≠ api.DashboardShareSettings))
    intro g hg
    apply plannedCall_dashboardShareSettings
    simpa using hg

/-- C4, counterexample: the type `workflow` is a key of the example API catalog and of the
automation resources, and the automation client is a nil pointer.  For a delete file with the
one group `workflow` the classic adapter is called, its error is counted and the result is
`encountered 1 errors`, not nil. -/
theorem configs_deletes_automation_resource_of_catalog :
    (examples.automationResources "workflow").isSome = true ∧
    examples.tokenOnlyClients.Automation.isNilPointer = true ∧
    (Configs examples.loggingAdapters [] examples.tokenOnlyClients examples.catalog
        examples.automationResources
        [("workflow", [examples.ptr "workflow" "broken"])]).panic = none ∧
    callsFor (Configs examples.loggingAdapters [] examples.tokenOnlyClients examples.catalog
        examples.automationResources
        [("workflow", [examples.ptr "workflow" "broken"])]).trace "workflow"
      = [.classicDelete examples.tokenOnlyClients.Classic examples.alertingProfile
          [examples.ptr "workflow" "broken"] "workflow"] ∧
    (Configs examples.loggingAdapters [] examples.tokenOnlyClients examples.catalog
        examples.automationResources
        [("workflow", [examples.ptr "workflow" "broken"])]).world
      = ["classic.Delete alerting-profile workflow"] ∧
    (Configs examples.loggingAdapters [] examples.tokenOnlyClients examples.catalog
        examples.automationResources
        [("workflow", [examples.ptr "workflow" "broken"])]).err
      = some "encountered 1 errors" :=
  ⟨by decide, rfl, rfl, rfl, by decide, by decide⟩

/-- C4, amended: in `Configs`, a group that the precedence gives to the automation family (its
type is no key of the API catalog and a key of the automation resources) while the automation
client is a nil pointer, and a group that it gives to the bucket family (its type is a key of
neither and equals `bucket`) while the bucket client is a nil pointer, get no adapter call, and
the outcome (panic or returned error, calls made with their errors, state of the world) is
that of the run on the map without these groups: they add nothing to the error count and the
other groups are processed as without them: in a run that returns, the calls made are the
planned calls of the other groups in the order of the iteration, and the errors recorded and
the state of the world are those of the adapters of these calls, applied one after the other.
A map of such groups only makes `Configs` return nil without any call. -/
theorem configs_skips_groups_without_client {ω : Type} (ad : Adapters ω) (world : ω)
    (clients : ClientSet) (apis : api.APIs)
    (automationResources : String → Option config.AutomationResource)
    (entries : DeleteEntries) :
    (∀ t, skippedForMissingClient clients apis automationResources t = true →
      callsFor (Configs ad world clients apis automationResources entries).trace t = []) ∧
    Configs ad world clients apis automationResources entries
      = Configs ad world clients apis automationResources
          (entries.filter
            (fun g => !skippedForMissingClient clients apis automationResources g.1)) ∧
    ((Configs ad world clients apis automationResources entries).panic = none →
      (Configs ad world clients apis automationResources entries).trace.map
          (fun d => (d.entryType, d.call))
        = (entries.filter
            (fun g => !skippedForMissingClient clients apis automationResources g.1)).filterMap
            (fun g =>
              (plannedCall clients apis automationResources g).map (fun call => (g.1, call)))) ∧
    applyCalls ad world
        ((Configs ad world clients apis automationResources entries).trace.map (fun d => d.call))
      = ((Configs ad world clients apis automationResources entries).trace.map (fun d => d.err),
          (Configs ad world clients apis automationResources entries).world) ∧
    ((∀ g ∈ entries, skippedForMissingClient clients apis automationResources g.1 = true) →
      (Configs ad world clients apis automationResources entries).panic = none ∧
      (Configs ad world clients apis automationResources entries).err = none ∧
      (Configs ad world clients apis automationResources entries).trace = [] ∧
      (Configs ad world clients apis automationResources entries).world = world) := by
  have hfilter : Configs ad world clients apis automationResources entries
      = Configs ad world clients apis automationResources
          (entries.filter
            (fun g => !skippedForMissingClient clients apis automationResources g.1)) := by
    apply configs_filter ad world clients apis automationResources
      (fun t => !skippedForMissingClient clients apis automationResources t)
    intro g hg
    apply plannedCall_of_skipped
    simpa using hg
  refine ⟨?_, hfilter, ?_,
    configs_applyCalls ad world clients apis automationResources entries, ?_⟩
  · intro t ht
    apply callsFor_eq_nil
    intro d hd heq
    obtain ⟨g, _, hg1, hg2⟩ := configs_trace_mem ad world clients apis automationResources
      entries d hd
    rw [(plannedCall_of_skipped clients apis automationResources g
      (by rw [hg1.trans heq]; exact ht)).1] at hg2
    cases hg2
  · intro hreturn
    rw [hfilter] at hreturn ⊢
    exact configs_trace_planned ad world clients apis automationResources _ hreturn
  · intro hall
    have hnil : entries.filter
        (fun g => !skippedForMissingClient clients apis automationResources g.1) = [] := by
      rw [List.filter_eq_nil_iff]
      intro g hg
      simp [hall g hg]
    rw [hfilter, hnil]
    exact ⟨rfl, rfl, rfl, rfl⟩

/-- Witness of C4 as amended: without OAuth the automation and the bucket client are nil
pointers, and a delete file of a business-calendar group and a bucket group, whose deletion
would fail, yields nil and no adapter call; in the example entries these two groups are
skipped and the dashboard, the workflow and the settings group are processed all the same,
two of them with an error. -/
theorem configs_skips_groups_without_client_witness :
    (∀ g ∈ examples.platformEntries,
      skippedForMissingClient examples.tokenOnlyClients examples.catalog
        examples.automationResources g.1 = true) ∧
    ((Configs examples.loggingAdapters [] examples.tokenOnlyClients examples.catalog
        examples.automationResources examples.platformEntries).panic = none ∧
      (Configs examples.loggingAdapters [] examples.tokenOnlyClients examples.catalog
        examples.automationResources examples.platformEntries).err = none ∧
      (Configs examples.loggingAdapters [] examples.tokenOnlyClients examples.catalog
        examples.automationResources examples.platformEntries).trace = [] ∧
      (Configs examples.loggingAdapters [] examples.tokenOnlyClients examples.catalog
        examples.automationResources examples.platformEntries).world = []) ∧
    (Configs examples.loggingAdapters [] examples.tokenOnlyClients examples.catalog
        examples.automationResources examples.entries).world
      = ["classic.Delete dashboard dashboard", "classic.Delete alerting-profile workflow",
          "setting.Delete"] ∧
    (Configs examples.loggingAdapters [] examples.tokenOnlyClients examples.catalog
        examples.automationResources examples.entries).err = some "encountered 2 errors" :=
  ⟨by decide,
    (configs_skips_groups_without_client examples.loggingAdapters [] examples.tokenOnlyClients
      examples.catalog examples.automationResources examples.platformEntries).2.2.2.2
      (by decide),
    by decide, by decide⟩

/-- The panic of `Configs`: with the client set that `deleteConfigForEnvironment` builds
without OAuth, the example entries make `Configs` panic at the group `bucket`: the dashboard and
the workflow group before it have been deleted, the business-calendar group has been skipped,
the settings group after it is not processed, and nothing is returned. -/
theorem configs_panics_on_unset_client :
    (Configs examples.loggingAdapters [] examples.commandClients examples.catalog
        examples.automationResources examples.entries).panic = some reflectPanic ∧
    (Configs examples.loggingAdapters [] examples.commandClients examples.catalog
        examples.automationResources examples.entries).world
      = ["classic.Delete dashboard dashboard", "classic.Delete alerting-profile workflow"] ∧
    (Configs examples.loggingAdapters [] examples.commandClients examples.catalog
        examples.automationResources examples.entries).err = none :=
  ⟨rfl, by decide, by decide⟩

/-- C5, counterexample: the two groups of one delete file, visited in the two possible orders:
the entries are the same map, and the sequences of adapter calls differ, as do the logs of the
adapters that ran. -/
theorem configs_call_order_follows_iteration :
    examples.twoGroups.Perm examples.twoGroups.reverse ∧
    (examples.twoGroups.map Prod.fst).Nodup ∧
    callSequence (Configs examples.adapters 0 examples.allClients examples.catalog
        examples.automationResources examples.twoGroups).trace
      ≠ callSequence (Configs examples.adapters 0 examples.allClients examples.catalog
        examples.automationResources examples.twoGroups.reverse).trace ∧
    (Configs examples.loggingAdapters [] examples.allClients examples.catalog
        examples.automationResources examples.twoGroups).world
      = ["setting.Delete", "classic.Delete dashboard dashboard"] ∧
    (Configs examples.loggingAdapters [] examples.allClients examples.catalog
        examples.automationResources examples.twoGroups.reverse).world
      = ["classic.Delete dashboard dashboard", "setting.Delete"] :=
  ⟨(List.reverse_perm _).symm, by decide, by decide, by decide, by decide⟩

/-- C5, amended: in a run of `Configs` that returns, the calls made are the planned calls of
the groups, one for each group that is not skipped, in the order in which the groups are
visited; the adapter called for a group is the one of its family, each adapter being applied
to the state in which the call before has left the world; and a run that visits the same
groups in another order returns as well and makes the same calls up to order, whatever the
adapters return. -/
theorem configs_calls_same_up_to_order {ω : Type} (ad ad2 : Adapters ω) (world world2 : ω)
    (clients : ClientSet) (apis : api.APIs)
    (automationResources : String → Option config.AutomationResource)
    (entries entries2 : DeleteEntries) (hperm : entries.Perm entries2)
    (hreturn : (Configs ad world clients apis automationResources entries).panic = none) :
    (Configs ad2 world2 clients apis automationResources entries2).panic = none ∧
    (Configs ad world clients apis automationResources entries).trace.map
        (fun d => (d.entryType, d.call))
      = entries.filterMap (fun g =>
          (plannedCall clients apis automationResources g).map (fun call => (g.1, call))) ∧
    (∀ d ∈ (Configs ad world clients apis automationResources entries).trace,
      d.call.kind = familyOf apis automationResources d.entryType) ∧
    ((Configs ad world clients apis automationResources entries).trace.map
      (fun d => d.entryType)).Sublist (entries.map Prod.fst) ∧
    applyCalls ad world
        ((Configs ad world clients apis automationResources entries).trace.map (fun d => d.call))
      = ((Configs ad world clients apis automationResources entries).trace.map (fun d => d.err),
          (Configs ad world clients apis automationResources entries).world) ∧
    applyCalls ad2 world2
        ((Configs ad2 world2 clients apis automationResources entries2).trace.map
          (fun d => d.call))
      = ((Configs ad2 world2 clients apis automationResources entries2).trace.map
          (fun d => d.err),
          (Configs ad2 world2 clients apis automationResources entries2).world) ∧
    (callSequence (Configs ad world clients apis automationResources entries).trace).Perm
      (callSequence (Configs ad2 world2 clients apis automationResources entries2).trace) := by
  have hreturn2 : (Configs ad2 world2 clients apis automationResources entries2).panic
      = none := by
    rw [configs_returns_iff] at hreturn ⊢
    intro g hg
    exact hreturn g (hperm.mem_iff.2 hg)
  refine ⟨hreturn2,
    configs_trace_planned ad world clients apis automationResources entries hreturn, ?_, ?_,
    configs_applyCalls ad world clients apis automationResources entries,
    configs_applyCalls ad2 world2 clients apis automationResources entries2, ?_⟩
  · intro d hd
    obtain ⟨g, _, hg1, hg2⟩ := configs_trace_mem ad world clients apis automationResources
      entries d hd
    rw [← hg1]
    exact plannedCall_kind clients apis automationResources g d.call hg2
  · have h := sublist_filterMap_fst (fun g : String × List pointer.DeletePointer =>
        (plannedCall clients apis automationResources g).map (fun call => (g.1, call)))
      (by
        intro g p hp
        cases hpl : plannedCall clients apis automationResources g with
        | none => simp [hpl] at hp
        | some call =>
          simp only [hpl, Option.map_some', Option.some.injEq] at hp
          rw [← hp])
      entries
    rw [← configs_trace_planned ad world clients apis automationResources entries hreturn,
      List.map_map] at h
    exact h
  · rw [callSequence_eq ad world clients apis automationResources entries hreturn,
      callSequence_eq ad2 world2 clients apis automationResources entries2 hreturn2]
    exact (hperm.filterMap _).map _

/-- Witness of C5 as amended: the two orders of the example groups, with the logs of the
adapters that ran. -/
theorem configs_calls_same_up_to_order_witness :
    examples.twoGroups.Perm examples.twoGroups.reverse ∧
    (Configs examples.loggingAdapters [] examples.allClients examples.catalog
        examples.automationResources examples.twoGroups).panic = none ∧
    (callSequence (Configs examples.loggingAdapters [] examples.allClients examples.catalog
        examples.automationResources examples.twoGroups).trace).Perm
      (callSequence (Configs examples.loggingAdapters [] examples.allClients examples.catalog
        examples.automationResources examples.twoGroups.reverse).trace) ∧
    (Configs examples.loggingAdapters [] examples.allClients examples.catalog
        examples.automationResources examples.twoGroups).world
      = ["setting.Delete", "classic.Delete dashboard dashboard"] ∧
    (Configs examples.loggingAdapters [] examples.allClients examples.catalog
        examples.automationResources examples.twoGroups.reverse).world
      = ["classic.Delete dashboard dashboard", "setting.Delete"] :=
  ⟨(List.reverse_perm _).symm, rfl,
    (configs_calls_same_up_to_order examples.loggingAdapters examples.loggingAdapters [] []
      examples.allClients examples.catalog examples.automationResources examples.twoGroups
      examples.twoGroups.reverse (List.reverse_perm _).symm rfl).2.2.2.2.2.2,
    by decide, by decide⟩

end delete

/-! `Validator.Validate`. -/

namespace classic

section validate

variable (apis : api.APIs) (GetNameForConfig : config.Config → Except String AnyValue)

/-- A config that `Validate` does not check, its type being no classic API or a classic API
with `NonUniqueName`, is accepted and leaves every recorded list as it is. -/
theorem validate_of_not_checked (v : Validator) (c : config.Config)
    (h : (∀ Api, c.Type_ ≠ .ClassicApiType Api) ∨
      (∃ Api, c.Type_ = .ClassicApiType Api ∧
        ((apis Api).getD api.API.zero).NonUniqueName = true)) :
    (v.Validate apis GetNameForConfig c).2 = none ∧
    ∀ e t, (v.Validate apis GetNameForConfig c).1.recorded e t = v.recorded e t := by
  have hrec : ∀ e t, Validator.recorded
      { uniqueNames := some (match v.uniqueNames with
          | none => fun _ => none
          | some m => m) } e t = v.recorded e t := by
    intro e t
    cases hv : v.uniqueNames with
    | none => simp [Validator.recorded, hv]
    | some m => simp [Validator.recorded, hv]
  rcases h with h | ⟨Api, hT, hU⟩
  · unfold Validator.Validate
    cases hT : c.Type_ with
    | ClassicApiType Api => exact absurd hT (h Api)
    | SettingsType a b => exact ⟨rfl, hrec⟩
    | AutomationType r => exact ⟨rfl, hrec⟩
    | BucketType => exact ⟨rfl, hrec⟩
  · unfold Validator.Validate
    simp only [hT, hU, if_true]
    exact ⟨trivial, hrec⟩

/-- The error of `Validate` for a checked config is the result of the loop over the configs
recorded for its environment and API. -/
theorem validate_checked_err (v : Validator) (c : config.Config) (Api : String)
    (hT : c.Type_ = .ClassicApiType Api)
    (hU : ((apis Api).getD api.API.zero).NonUniqueName = false) :
    (v.Validate apis GetNameForConfig c).2
      = validateLoop GetNameForConfig c (v.recorded c.Environment Api) := by
  unfold Validator.Validate
  simp only [hT, hU, Bool.false_eq_true, if_false]
  cases hv : v.uniqueNames with
  | none =>
    simp only [Validator.recorded, hv, mapSet, if_true, Option.getD_some, Option.getD_none]
    cases hl : validateLoop GetNameForConfig c [] with
    | none => rfl
    | some err => rfl
  | some m =>
    cases hm : m c.Environment with
    | none =>
      simp only [Validator.recorded, hv, hm, mapSet, if_true, Option.getD_some, Option.getD_none]
      cases hl : validateLoop GetNameForConfig c [] with
      | none => rfl
      | some err => rfl
    | some byEndpoint =>
      simp only [Validator.recorded, hv, hm, Option.getD_some]
      cases hl : validateLoop GetNameForConfig c ((byEndpoint Api).getD []) with
      | none => rfl
      | some err => rfl

theorem mapSet_self {β : Type} (m : String → Option β) (k : String) (x : β) :
    mapSet m k x k = some x := by
  simp [mapSet]

theorem mapSet_of_ne {β : Type} (m : String → Option β) (k : String) (x : β) (k2 : String)
    (h : k2 ≠ k) : mapSet m k x k2 = m k2 := by
  simp [mapSet, h]

/-- The recorded configs after `Validate` of a checked config: the config is appended to the
list of its environment and API when the loop found no error, and nothing else changes. -/
theorem validate_checked_recorded (v : Validator) (c : config.Config) (Api : String)
    (hT : c.Type_ = .ClassicApiType Api)
    (hU : ((apis Api).getD api.API.zero).NonUniqueName = false) (e t : String) :
    (v.Validate apis GetNameForConfig c).1.recorded e t
      = if validateLoop GetNameForConfig c (v.recorded c.Environment Api) = none
            ∧ e = c.Environment ∧ t = Api
        then v.recorded e t ++ [c] else v.recorded e t := by
  unfold Validator.Validate
  simp only [hT, hU, Bool.false_eq_true, if_false]
  cases hv : v.uniqueNames with
  | none =>
    simp only [Validator.recorded, hv, mapSet_self, Option.getD_some, Option.getD_none]
    cases hl : validateLoop GetNameForConfig c [] with
    | none =>
      by_cases he : e = c.Environment
      · by_cases ht : t = Api
        · simp [he, ht, mapSet_self]
        · simp [he, ht, mapSet_self, mapSet_of_ne]
      · simp [he, mapSet_of_ne]
    | some err =>
      by_cases he : e = c.Environment
      · simp [he, mapSet_self]
      · simp [he, mapSet_of_ne]
  | some m =>
    cases hm : m c.Environment with
    | none =>
      simp only [Validator.recorded, hv, hm, mapSet_self, Option.getD_some, Option.getD_none]
      cases hl : validateLoop GetNameForConfig c [] with
      | none =>
        by_cases he : e = c.Environment
        · by_cases ht : t = Api
          · simp [he, ht, hm, mapSet_self]
          · simp [he, ht, hm, mapSet_self, mapSet_of_ne]
        · simp [he, mapSet_of_ne]
      | some err =>
        by_cases he : e = c.Environment
        · simp [he, hm, mapSet_self]
        · simp [he, mapSet_of_ne]
    | some byEndpoint =>
      simp only [Validator.recorded, hv, hm, Option.getD_some]
      cases hl : validateLoop GetNameForConfig c ((byEndpoint Api).getD []) with
      | none =>
        by_cases he : e = c.Environment
        · by_cases ht : t = Api
          · simp [he, ht, hm, mapSet_self]
          · simp [he, ht, hm, mapSet_self, mapSet_of_ne]
        · simp [he, mapSet_of_ne]
      | some err => simp

theorem validateLoop_none_names (c : config.Config) (n : AnyValue)
    (hn : GetNameForConfig c = .ok n) (l : List config.Config)
    (h : validateLoop GetNameForConfig c l = none) :
    ∀ x ∈ l, ∃ n2, GetNameForConfig x = .ok n2 ∧ n2 ≠ n := by
  induction l with
  | nil => simp
  | cons c2 rest ih =>
    simp only [validateLoop, hn] at h
    cases h2 : GetNameForConfig c2 with
    | error err => simp [h2] at h
    | ok n2 =>
      simp only [h2] at h
      by_cases heq : n = n2
      · simp [heq] at h
      · simp only [heq, if_false] at h
        intro x hx
        rcases List.mem_cons.1 hx with rfl | hx
        · exact ⟨n2, h2, fun h3 => heq h3.symm⟩
        · exact ih h x hx

theorem validateLoop_duplicate (c c1 : config.Config) (n : AnyValue)
    (hn : GetNameForConfig c = .ok n) (hn1 : GetNameForConfig c1 = .ok n)
    (pre post : List config.Config)
    (hpre : ∀ x ∈ pre, ∃ n2, GetNameForConfig x = .ok n2 ∧ n2 ≠ n) :
    validateLoop GetNameForConfig c (pre ++ c1 :: post)
      = some (.duplicatedName c.Coordinate c1.Coordinate (nameDetails n)) := by
  induction pre with
  | nil => simp [validateLoop, hn, hn1]
  | cons x pre ih =>
    obtain ⟨n2, hx, hne⟩ := hpre x (List.mem_cons_self _ _)
    have hne2 : ¬ n = n2 := fun h => hne h.symm
    simp only [List.cons_append, validateLoop, hn, hx, hne2, if_false]
    exact ih (fun y hy => hpre y (List.mem_cons_of_mem _ hy))

/-- `Validate` only ever appends to a recorded list. -/
theorem validate_recorded_suffix (v : Validator) (c : config.Config) (e t : String) :
    ∃ suffix, (v.Validate apis GetNameForConfig c).1.recorded e t = v.recorded e t ++ suffix := by
  cases hT : c.Type_ with
  | ClassicApiType Api =>
    cases hU : ((apis Api).getD api.API.zero).NonUniqueName with
    | true =>
      refine ⟨[], ?_⟩
      rw [(validate_of_not_checked apis GetNameForConfig v c (Or.inr ⟨Api, hT, hU⟩)).2]
      simp
    | false =>
      rw [validate_checked_recorded apis GetNameForConfig v c Api hT hU]
      split
      · exact ⟨[c], rfl⟩
      · exact ⟨[], by simp⟩
  | SettingsType a b =>
    refine ⟨[], ?_⟩
    rw [(validate_of_not_checked apis GetNameForConfig v c (Or.inl (by simp [hT]))).2]
    simp
  | AutomationType r =>
    refine ⟨[], ?_⟩
    rw [(validate_of_not_checked apis GetNameForConfig v c (Or.inl (by simp [hT]))).2]
    simp
  | BucketType =>
    refine ⟨[], ?_⟩
    rw [(validate_of_not_checked apis GetNameForConfig v c (Or.inl (by simp [hT]))).2]
    simp

theorem validateAll_nil (v : Validator) : v.validateAll apis GetNameForConfig [] = v := rfl

theorem validateAll_cons (v : Validator) (c : config.Config) (cs : List config.Config) :
    v.validateAll apis GetNameForConfig (c :: cs)
      = (v.Validate apis GetNameForConfig c).1.validateAll apis GetNameForConfig cs := rfl

/-- A sequence of `Validate` calls only ever appends to a recorded list. -/
theorem validateAll_recorded_suffix (v : Validator) (cs : List config.Config) (e t : String) :
    ∃ suffix, (v.validateAll apis GetNameForConfig cs).recorded e t
      = v.recorded e t ++ suffix := by
  induction cs generalizing v with
  | nil => exact ⟨[], by simp [validateAll_nil]⟩
  | cons c cs ih =>
    obtain ⟨s1, h1⟩ := validate_recorded_suffix apis GetNameForConfig v c e t
    obtain ⟨s2, h2⟩ := ih (v.Validate apis GetNameForConfig c).1
    exact ⟨s1 ++ s2, by rw [validateAll_cons, h2, h1, List.append_assoc]⟩

end validate

/-- C6: for every environment `e`, every classic API type `t` whose catalog entry has
`NonUniqueName = false`, and configs `c1`, `c2` of type `t` and environment `e` with the same
defined name `n`: on every validator that accepts `c1` (`Validate(c1)` returns nil), after any
sequence of further `Validate` calls, `Validate(c2)` returns the duplicate-name error for the
coordinates of `c2` and `c1`.  The recorded configs need no assumption: a validator that accepts
`c1` has found a name for each config recorded for `(e, t)`.  `Validate` is a function of the
validator, the catalog, the name function and the config, it has no client to call. -/
theorem validate_rejects_duplicate_name (apis : api.APIs)
    (GetNameForConfig : config.Config → Except String AnyValue)
    (e t : String) (hU : ((apis t).getD api.API.zero).NonUniqueName = false)
    (c1 c2 : config.Config)
    (hT1 : c1.Type_ = .ClassicApiType t) (hT2 : c2.Type_ = .ClassicApiType t)
    (hE1 : c1.Environment = e) (hE2 : c2.Environment = e)
    (n : AnyValue) (hn1 : GetNameForConfig c1 = .ok n) (hn2 : GetNameForConfig c2 = .ok n)
    (v : Validator) (hacc : (v.Validate apis GetNameForConfig c1).2 = none)
    (later : List config.Config) :
    (((v.Validate apis GetNameForConfig c1).1.validateAll apis GetNameForConfig later).Validate
        apis GetNameForConfig c2).2
      = some (.duplicatedName c2.Coordinate c1.Coordinate (nameDetails n)) := by
  rw [validate_checked_err apis GetNameForConfig v c1 t hT1 hU] at hacc
  have hpre := validateLoop_none_names GetNameForConfig c1 n hn1 _ hacc
  have hrec : (v.Validate apis GetNameForConfig c1).1.recorded e t
      = v.recorded e t ++ [c1] := by
    rw [validate_checked_recorded apis GetNameForConfig v c1 t hT1 hU, if_pos ⟨hacc, hE1.symm, rfl⟩]
  obtain ⟨suffix, hsuf⟩ := validateAll_recorded_suffix apis GetNameForConfig
    (v.Validate apis GetNameForConfig c1).1 later e t
  rw [validate_checked_err apis GetNameForConfig _ c2 t hT2 hU, hE2, hsuf, hrec,
    List.append_assoc]
  rw [hE1] at hpre
  exact validateLoop_duplicate GetNameForConfig c2 c1 n hn2 hn1 _ _ hpre

/-- Witness of C6: two alerting profiles named `Ops` for the environment `dev`, a third profile
being validated in between. -/
theorem validate_rejects_duplicate_name_witness :
    ((examples.catalog "alerting-profile").getD api.API.zero).NonUniqueName = false ∧
    examples.nameOf examples.profileA = .ok (.str "Ops") ∧
    examples.nameOf examples.profileB = .ok (.str "Ops") ∧
    (Validator.zero.Validate examples.catalog examples.nameOf examples.profileA).2 = none ∧
    (((Validator.zero.Validate examples.catalog examples.nameOf examples.profileA).1.validateAll
        examples.catalog examples.nameOf [examples.profileC]).Validate
        examples.catalog examples.nameOf examples.profileB).2
      = some (.duplicatedName examples.profileB.Coordinate examples.profileA.Coordinate
          ": Ops") :=
  ⟨rfl, rfl, rfl, rfl,
    validate_rejects_duplicate_name examples.catalog examples.nameOf "dev" "alerting-profile"
      rfl examples.profileA examples.profileB rfl rfl rfl rfl (.str "Ops") rfl rfl
      Validator.zero rfl [examples.profileC]⟩

/-- C7: for every validator and every config whose type is not a classic API type, or is a
classic API whose catalog entry has `NonUniqueName = true`, `Validate` returns nil and the
recorded config list of every environment and API is the one before the call. -/
theorem validate_skips_other_types (apis : api.APIs)
    (GetNameForConfig : config.Config → Except String AnyValue)
    (v : Validator) (c : config.Config)
    (h : (∀ Api, c.Type_ ≠ .ClassicApiType Api) ∨
      (∃ Api, c.Type_ = .ClassicApiType Api ∧
        ((apis Api).getD api.API.zero).NonUniqueName = true)) :
    (v.Validate apis GetNameForConfig c).2 = none ∧
    ∀ e t, (v.Validate apis GetNameForConfig c).1.recorded e t = v.recorded e t :=
  validate_of_not_checked apis GetNameForConfig v c h

/-- Witness of C7: after an alerting profile named `Ops`, a dashboard of the same name passes
and is not recorded. -/
theorem validate_skips_other_types_witness :
    (∃ Api, examples.dashboardA.Type_ = .ClassicApiType Api ∧
      ((examples.catalog Api).getD api.API.zero).NonUniqueName = true) ∧
    examples.nameOf examples.dashboardA = examples.nameOf examples.profileA ∧
    ((Validator.zero.Validate examples.catalog examples.nameOf examples.profileA).1.Validate
      examples.catalog examples.nameOf examples.dashboardA).2 = none ∧
    ∀ e t,
      ((Validator.zero.Validate examples.catalog examples.nameOf examples.profileA).1.Validate
        examples.catalog examples.nameOf examples.dashboardA).1.recorded e t
      = (Validator.zero.Validate examples.catalog examples.nameOf examples.profileA).1.recorded
          e t :=
  ⟨⟨"dashboard", rfl, rfl⟩, rfl,
    validate_skips_other_types examples.catalog examples.nameOf
      (Validator.zero.Validate examples.catalog examples.nameOf examples.profileA).1
      examples.dashboardA (Or.inr ⟨"dashboard", rfl, rfl⟩)⟩

end classic

/-! `API.Resolve` and the placeholder; the derived predicates. -/

namespace api

theorem openBraceOnlyInPattern_tail (pattern : List Char) (c : Char) (cs : List Char)
    (h : openBraceOnlyInPattern pattern (c :: cs) = true) :
    openBraceOnlyInPattern pattern cs = true := by
  simp only [openBraceOnlyInPattern, Bool.and_eq_true] at h
  exact h.2

theorem openBraceOnlyInPattern_drop (pattern : List Char) (k : Nat) (s : List Char)
    (h : openBraceOnlyInPattern pattern s = true) :
    openBraceOnlyInPattern pattern (s.drop k) = true := by
  induction k generalizing s with
  | zero => simpa using h
  | succ k ih =>
    cases s with
    | nil => simpa using h
    | cons c cs =>
      rw [List.drop_succ_cons]
      exact ih cs (openBraceOnlyInPattern_tail pattern c cs h)

/-- When every opening brace of the text begins an occurrence of the pattern and the
replacement has no opening brace, the scan yields a text without opening brace. -/
theorem replaceScan_no_openBrace (old new : List Char) (hnew : '\x7b' ∉ new)
    (s : List Char) (k : Nat) (h : openBraceOnlyInPattern old (s.drop k) = true) :
    '\x7b' ∉ strings.replaceScan old new k s := by
  induction s generalizing k with
  | nil => simp [strings.replaceScan]
  | cons c cs ih =>
    cases k with
    | succ k =>
      rw [List.drop_succ_cons] at h
      simpa [strings.replaceScan] using ih k h
    | zero =>
      rw [List.drop_zero] at h
      have htail := openBraceOnlyInPattern_tail old c cs h
      by_cases hp : strings.HasPrefix (c :: cs) old = true
      · simp only [strings.replaceScan, hp, if_true, List.mem_append, not_or]
        exact ⟨hnew, ih _ (openBraceOnlyInPattern_drop old _ cs htail)⟩
      · simp only [openBraceOnlyInPattern, Bool.and_eq_true, Bool.or_eq_true, bne_iff_ne] at h
        have hc : c ≠ '\x7b' := by
          rcases h.1 with h1 | h1
          · exact h1
          · exact absurd h1 hp
        simp only [strings.replaceScan, hp, Bool.false_eq_true, if_false, List.mem_cons, not_or]
        exact ⟨fun h2 => hc h2.symm, ih 0 (by simpa using htail)⟩

theorem not_contains_of_not_mem (s old : List Char) (c : Char) (hc : c ∈ old) (hs : c ∉ s) :
    strings.Contains s old = false := by
  cases hi : strings.Index s old with
  | none => simp [strings.Contains, hi]
  | some j =>
    exfalso
    apply hs
    have h1 := strings.index_drop hi
    have h2 : c ∈ s.drop j := by
      rw [h1]
      exact List.mem_append_left _ hc
    exact List.mem_of_mem_drop h2

/-- C11, counterexample: the values `SCOPE` and the empty text do not contain the placeholder,
and the URL paths resolved with them do: the text around an occurrence can close up with the
value to a new occurrence. -/
theorem resolve_can_leave_placeholder :
    strings.Contains ("SCOPE" : String).data scopePlaceholder.data = false ∧
    (examples.bracedPlaceholder.Resolve "SCOPE").URLPath
      = "/api/config/v1/\x7bSCOPE\x7d/items" ∧
    strings.Contains (examples.bracedPlaceholder.Resolve "SCOPE").URLPath.data
      scopePlaceholder.data = true ∧
    strings.Contains ("" : String).data scopePlaceholder.data = false ∧
    strings.Contains (examples.nestedPlaceholder.Resolve "").URLPath.data
      scopePlaceholder.data = true := by
  decide

/-- C11, amended: for every API entry whose URL path has an opening brace only at the start of
an occurrence of `{SCOPE}`, and every value without opening brace, the URL path of
`a.Resolve(v)` has no opening brace and so no occurrence of `{SCOPE}`. -/
theorem resolve_removes_placeholder (a : API) (v : String)
    (hpath : openBraceOnlyInPattern scopePlaceholder.data a.URLPath.data = true)
    (hv : '\x7b' ∉ v.data) :
    '\x7b' ∉ (a.Resolve v).URLPath.data ∧
    strings.Contains (a.Resolve v).URLPath.data scopePlaceholder.data = false := by
  have h1 : '\x7b' ∉ (a.Resolve v).URLPath.data := by
    rw [resolve_urlPath_data]
    exact replaceScan_no_openBrace _ _ hv _ 0 (by simpa using hpath)
  exact ⟨h1, not_contains_of_not_mem _ _ '\x7b' (by decide) h1⟩

/-- Witness of C11 as amended: the key-user-actions entry resolved for `APP-1`. -/
theorem resolve_removes_placeholder_witness :
    openBraceOnlyInPattern scopePlaceholder.data examples.keyUserActionsMobile.URLPath.data
      = true ∧
    '\x7b' ∉ ("APP-1" : String).data ∧
    strings.Contains (examples.keyUserActionsMobile.Resolve "APP-1").URLPath.data
      scopePlaceholder.data = false :=
  ⟨by decide, by decide,
    (resolve_removes_placeholder examples.keyUserActionsMobile "APP-1" (by decide)
      (by decide)).2⟩

/-- C12: for every API entry, `HasParent()` is true exactly when `Parent` is not empty, and
`IsStandardAPI()` is true exactly when `PropertyNameOfGetAllResponse` is `values`; an entry
with an empty property name is not standard. -/
theorem hasParent_isStandardAPI_derived (a : API) :
    (a.HasParent = true ↔ a.Parent ≠ "") ∧
    (a.IsStandardAPI = true ↔ a.PropertyNameOfGetAllResponse = "values") ∧
    (a.PropertyNameOfGetAllResponse = "" → a.IsStandardAPI = false) := by
  refine ⟨?_, ?_, ?_⟩
  · simp only [API.HasParent, decide_eq_true_eq]
    constructor
    · intro h heq
      rw [heq] at h
      exact absurd h (by decide)
    · intro h
      apply Nat.pos_of_ne_zero
      intro h0
      apply h
      apply String.ext
      exact List.length_eq_zero.1 h0
  · simp [API.IsStandardAPI, StandardApiPropertyNameOfGetAllResponse]
  · intro h
    simp only [API.IsStandardAPI, StandardApiPropertyNameOfGetAllResponse, h]
    decide

/-- Witness of C12: the zero entry has an empty property name and is not standard. -/
theorem hasParent_isStandardAPI_derived_witness :
    API.zero.PropertyNameOfGetAllResponse = "" ∧ API.zero.IsStandardAPI = false :=
  ⟨rfl, (hasParent_isStandardAPI_derived API.zero).2.2 rfl⟩

end api

/-! The feature flags. -/

namespace featureflags

/-- C17: `DependencyGraphBasedDeploy()` is the flag with the variable
`MONACO_FEAT_GRAPH_DEPLOY` that is enabled by default. -/
theorem dependencyGraphBasedDeploy_default_on :
    DependencyGraphBasedDeploy
      = { envName := "MONACO_FEAT_GRAPH_DEPLOY", defaultEnabled := true } ∧
    DependencyGraphBasedDeploy.envName = "MONACO_FEAT_GRAPH_DEPLOY" ∧
    DependencyGraphBasedDeploy.defaultEnabled = true :=
  ⟨rfl, rfl, rfl⟩

/-- C18: each of the eight feature-flag variables of the spec is the `envName` of exactly one
flag constructor of `temporary.go`. -/
theorem spec_variables_have_one_constructor :
    ∀ n ∈ specFlagVariables, constructorsNamed n = 1 := by
  decide

/-- Witness of C18: the variable of the bucket flag. -/
theorem spec_variables_have_one_constructor_witness :
    "MONACO_FEAT_BUCKETS" ∈ specFlagVariables ∧ constructorsNamed "MONACO_FEAT_BUCKETS" = 1 :=
  ⟨by decide, spec_variables_have_one_constructor "MONACO_FEAT_BUCKETS" (by decide)⟩

end featureflags

/-! `extractConfigName`. -/

namespace v2

/-- C19: for every properties map, `extractConfigName` returns `(s, nil)` exactly when the map
binds `name` to the string `s`; when `name` is absent it returns the empty name and the error
that the name is missing, and when `name` is bound to a value that is no string it returns the
empty name and the error that the name is not of type string. -/
theorem extractConfigName_spec (conf : config.Config) (properties : String → Option AnyValue) :
    (∀ s, extractConfigName conf properties = (s, none) ↔
      properties "name" = some (.str s)) ∧
    (properties "name" = none →
      extractConfigName conf properties = ("", some "missing `name` for config")) ∧
    (∀ val, properties "name" = some val → (∀ s, val ≠ .str s) →
      extractConfigName conf properties
        = ("", some "`name` in config is not of type string")) := by
  refine ⟨?_, ?_, ?_⟩
  · intro s
    unfold extractConfigName
    simp only [config.NameParameter]
    cases hp : properties "name" with
    | none => simp
    | some val =>
      cases val with
      | str name => simp
      | null => simp
      | int i => simp
      | bool b => simp
  · intro h
    simp [extractConfigName, config.NameParameter, h]
  · intro val h hval
    unfold extractConfigName
    cases val with
    | str name => exact absurd rfl (hval name)
    | null => simp [config.NameParameter, h]
    | int i => simp [config.NameParameter, h]
    | bool b => simp [config.NameParameter, h]

/-- Witness of C19: properties with a string name, with a number as name and without name. -/
theorem extractConfigName_spec_witness :
    extractConfigName examples.profileA examples.namedProperties = ("Ops", none) ∧
    extractConfigName examples.profileA examples.unnamedProperties
      = ("", some "missing `name` for config") ∧
    extractConfigName examples.profileA examples.numberNamedProperties
      = ("", some "`name` in config is not of type string") :=
  ⟨((extractConfigName_spec examples.profileA examples.namedProperties).1 "Ops").2 rfl,
    (extractConfigName_spec examples.profileA examples.unnamedProperties).2.1 rfl,
    (extractConfigName_spec examples.profileA examples.numberNamedProperties).2.2
      (.int 7) rfl (by intro s h; cases h)⟩

end v2

/-! `delete.All`. -/

namespace delete

/-- The families that `All` attempts, and what it records of them: the errors of the trace and
the state of the world are those of the delete-all adapters of the attempted families, applied
one after the other from the first state of the world. -/
theorem all_trace {ω : Type} (ad : AllAdapters ω) (world : ω) (clients : ClientSet)
    (apis : api.APIs) :
    (All ad world clients apis).trace.map (fun a => a.family) = attemptedFamilies clients ∧
    applyFamilies ad clients apis world (attemptedFamilies clients)
      = ((All ad world clients apis).trace.map (fun a => a.err),
          (All ad world clients apis).world) := by
  unfold All attemptedFamilies
  cases hA : clients.Automation <;> cases hB : clients.Buckets <;>
    simp [afterDeleteAll, applyFamilies, runDeleteAll, hA, hB, ClientField.isClient,
      ClientField.isUnset]

/-- The function `All` panics exactly when a client field that it tests is unset. -/
theorem all_panic {ω : Type} (ad : AllAdapters ω) (world : ω) (clients : ClientSet)
    (apis : api.APIs) :
    (All ad world clients apis).panic
      = if clients.Automation.isUnset || clients.Buckets.isUnset then some reflectPanic
        else none := by
  unfold All
  cases hA : clients.Automation <;> cases hB : clients.Buckets <;>
    simp [afterDeleteAll, ClientField.isUnset]

/-- C14, the code at the failing input: for the client set of the literal
`ClientSet{Classic: c, Settings: s}`, whose automation and bucket client field are unset, and
delete-all adapters of which the classic and the settings one succeed, `All` calls these two
and then panics in `reflect.Value.IsNil`: it returns nothing, and so not nil.  In general `All`
panics after the settings call when the automation client field is unset, and after the
automation step when the bucket client field is unset; only for client fields that hold a nil
pointer it skips the family, and with both fields nil pointers it returns nil exactly when the
classic and the settings deletion both return no error. -/
theorem all_panics_on_unset_client :
    ((All examples.allAdapters 0 examples.unsetClients examples.catalog).panic
        = some reflectPanic ∧
      (All examples.allAdapters 0 examples.unsetClients examples.catalog).trace
        = [{ family := .classic, err := none }, { family := .setting, err := none }] ∧
      (All examples.allAdapters 0 examples.unsetClients examples.catalog).world = 2) ∧
    (∀ (ω : Type) (ad : AllAdapters ω) (world : ω) (clients : ClientSet) (apis : api.APIs),
      (clients.Automation = .unset →
        (All ad world clients apis).panic = some reflectPanic ∧
        (All ad world clients apis).trace.map (fun a => a.family) = [.classic, .setting]) ∧
      (clients.Automation.isUnset = false → clients.Buckets = .unset →
        (All ad world clients apis).panic = some reflectPanic ∧
        ∀ a ∈ (All ad world clients apis).trace, a.family ≠ .bucket) ∧
      (clients.Automation = .nilPointer →
        ∀ a ∈ (All ad world clients apis).trace, a.family ≠ .automation) ∧
      (clients.Buckets = .nilPointer →
        ∀ a ∈ (All ad world clients apis).trace, a.family ≠ .bucket) ∧
      (clients.Automation = .nilPointer → clients.Buckets = .nilPointer →
        (All ad world clients apis).panic = none ∧
        (All ad world clients apis).trace.map (fun a => a.family) = [.classic, .setting] ∧
        ((All ad world clients apis).err = none ↔
          (ad.classicDeleteAll world clients.Classic apis).1 = none ∧
          (ad.settingDeleteAll (ad.classicDeleteAll world clients.Classic apis).2
            clients.Settings).1 = none))) := by
  refine ⟨⟨rfl, by decide, by decide⟩, ?_⟩
  intro ω ad world clients apis
  have hfam := (all_trace ad world clients apis).1
  have hpanic := all_panic ad world clients apis
  have hmem : ∀ a ∈ (All ad world clients apis).trace,
      a.family ∈ attemptedFamilies clients := by
    intro a ha
    rw [← hfam]
    exact List.mem_map.2 ⟨a, ha, rfl⟩
  refine ⟨?_, ?_, ?_, ?_, ?_⟩
  · intro hA
    constructor
    · rw [hpanic]
      simp [hA, ClientField.isUnset]
    · rw [hfam]
      simp [attemptedFamilies, hA, ClientField.isUnset, ClientField.isClient]
  · intro hA hB
    constructor
    · rw [hpanic]
      simp [hB, ClientField.isUnset]
    · intro a ha heq
      have h := hmem a ha
      rw [heq] at h
      cases hA2 : clients.Automation <;>
        simp [attemptedFamilies, hA2, hB, ClientField.isUnset, ClientField.isClient] at h
  · intro hA a ha heq
    have h := hmem a ha
    rw [heq] at h
    cases hB : clients.Buckets <;>
      simp [attemptedFamilies, hA, hB, ClientField.isUnset, ClientField.isClient] at h
  · intro hB a ha heq
    have h := hmem a ha
    rw [heq] at h
    cases hA : clients.Automation <;>
      simp [attemptedFamilies, hA, hB, ClientField.isUnset, ClientField.isClient] at h
  · intro hA hB
    refine ⟨?_, ?_, ?_⟩
    · rw [hpanic]
      simp [hA, hB, ClientField.isUnset]
    · rw [hfam]
      simp [attemptedFamilies, hA, hB, ClientField.isUnset, ClientField.isClient]
    · unfold All
      simp only [hA, hB, afterDeleteAll]
      generalize ad.classicDeleteAll world clients.Classic apis = r1
      generalize ad.settingDeleteAll r1.2 clients.Settings = r2
      rcases r1 with ⟨e1, w1⟩
      rcases r2 with ⟨e2, w2⟩
      cases e1 <;> cases e2 <;> simp

end delete

/-! The delete command. -/

namespace cmd.delete

section command

variable {ω Fs : Type} (co : Collaborators ω Fs) (apis : api.APIs)
  (entriesToDelete : List (String × List pointer.DeletePointer))

theorem deleteConfigsBody_collected (st : DeleteState ω) (env : manifest.EnvironmentDefinition)
    (h : Collected co apis entriesToDelete st) :
    Collected co apis entriesToDelete (deleteConfigsBody co apis entriesToDelete st env) := by
  obtain ⟨h1, h2⟩ := h
  constructor
  · simp only [deleteConfigsBody, List.map_append, List.map_cons, List.map_nil,
      List.flatten_concat]
    by_cases he : (deleteConfigForEnvironment co st.world env apis entriesToDelete).1 = []
    · simp [he, h1]
    · simp [he, h1]
  · intro r hr
    simp only [deleteConfigsBody, List.mem_append, List.mem_singleton] at hr
    rcases hr with hr | rfl
    · exact h2 r hr
    · exact ⟨st.world, rfl⟩

theorem foldl_deleteConfigsBody (st : DeleteState ω)
    (environments : List manifest.EnvironmentDefinition)
    (h : Collected co apis entriesToDelete st) :
    Collected co apis entriesToDelete
      (environments.foldl (deleteConfigsBody co apis entriesToDelete) st) ∧
    (environments.foldl (deleteConfigsBody co apis entriesToDelete) st).trace.map
        (fun r => r.env) = st.trace.map (fun r => r.env) ++ environments := by
  induction environments generalizing st with
  | nil => exact ⟨h, by simp⟩
  | cons env rest ih =>
    obtain ⟨h1, h2⟩ := ih (deleteConfigsBody co apis entriesToDelete st env)
      (deleteConfigsBody_collected co apis entriesToDelete st env h)
    refine ⟨h1, ?_⟩
    rw [List.foldl_cons, h2]
    simp [deleteConfigsBody]

/-- The result of `deleteConfigs`: every environment is processed in order, and the errors are
the error lists of the environments, one after the other. -/
theorem deleteConfigs_collected (world : ω)
    (environments : List manifest.EnvironmentDefinition) :
    (deleteConfigs co world environments apis entriesToDelete).trace.map (fun r => r.env)
      = environments ∧
    (∀ r ∈ (deleteConfigs co world environments apis entriesToDelete).trace, ∃ w : ω,
      r.errors = (deleteConfigForEnvironment co w r.env apis entriesToDelete).1) ∧
    (deleteConfigs co world environments apis entriesToDelete).errors
      = ((deleteConfigs co world environments apis entriesToDelete).trace.map
          (fun r => r.errors)).flatten ∧
    (deleteConfigs co world environments apis entriesToDelete).errors.length
      = ((deleteConfigs co world environments apis entriesToDelete).trace.map
          (fun r => r.errors.length)).sum := by
  obtain ⟨⟨h1, h2⟩, h3⟩ := foldl_deleteConfigsBody co apis entriesToDelete
    { errors := [], trace := [], world := world } environments
    ⟨rfl, by simp⟩
  have herr : (deleteConfigs co world environments apis entriesToDelete).errors
      = ((deleteConfigs co world environments apis entriesToDelete).trace.map
          (fun r => r.errors)).flatten := h1
  refine ⟨by simpa using h3, h2, herr, ?_⟩
  rw [herr, List.length_flatten, List.map_map]
  rfl

end command

/-- C15: for every list of environments, `deleteConfigs` runs `deleteConfigForEnvironment` for
every environment of the list, in the order of the list and whatever the earlier ones returned,
and returns the concatenation of the error lists in that order: its length is the sum of the
error counts of the environments, and it is empty exactly when every environment returned no
error. -/
theorem deleteConfigs_collects_every_environment {ω Fs : Type} (co : Collaborators ω Fs)
    (world : ω) (environments : List manifest.EnvironmentDefinition) (apis : api.APIs)
    (entriesToDelete : List (String × List pointer.DeletePointer)) :
    (deleteConfigs co world environments apis entriesToDelete).trace.map (fun r => r.env)
      = environments ∧
    (∀ r ∈ (deleteConfigs co world environments apis entriesToDelete).trace, ∃ w : ω,
      r.errors = (deleteConfigForEnvironment co w r.env apis entriesToDelete).1) ∧
    (deleteConfigs co world environments apis entriesToDelete).errors
      = ((deleteConfigs co world environments apis entriesToDelete).trace.map
          (fun r => r.errors)).flatten ∧
    (deleteConfigs co world environments apis entriesToDelete).errors.length
      = ((deleteConfigs co world environments apis entriesToDelete).trace.map
          (fun r => r.errors.length)).sum ∧
    ((deleteConfigs co world environments apis entriesToDelete).errors = [] ↔
      ∀ r ∈ (deleteConfigs co world environments apis entriesToDelete).trace,
        r.errors = []) := by
  obtain ⟨h1, h2, h3, h4⟩ := deleteConfigs_collected co apis entriesToDelete world environments
  refine ⟨h1, h2, h3, h4, ?_⟩
  rw [h3, List.flatten_eq_nil_iff]
  simp

/-- Witness of C15: the three example environments, of which the second has no client; the
first and the third are processed all the same, and three errors are collected. -/
theorem deleteConfigs_collects_every_environment_witness :
    (deleteConfigs examples.collaborators 0
        [examples.devEnvironment, examples.brokenEnvironment, examples.prodEnvironment]
        examples.catalog examples.entries).trace.map (fun r => r.env)
      = [examples.devEnvironment, examples.brokenEnvironment, examples.prodEnvironment] ∧
    (deleteConfigs examples.collaborators 0
        [examples.devEnvironment, examples.brokenEnvironment, examples.prodEnvironment]
        examples.catalog examples.entries).errors
      = ["encountered 2 errors",
          "It was not possible to create a client for env `broken` due to the following error: no URL",
          "encountered 2 errors"] :=
  ⟨(deleteConfigs_collects_every_environment examples.collaborators 0
      [examples.devEnvironment, examples.brokenEnvironment, examples.prodEnvironment]
      examples.catalog examples.entries).1, by decide⟩

/-- C16: when the path of the manifest is found and the manifest and the delete file load
without error, `Delete` returns nil exactly when `deleteConfigs`, run on the environments of
the manifest, reports no error, and otherwise the error `encountered N errors during delete`
where `N` is the number of errors collected over all environments. -/
theorem delete_reports_error_count {ω Fs : Type} (co : Collaborators ω Fs) (world : ω)
    (fs : Fs) (deploymentManifestPath deleteFile : String)
    (environmentNames environmentGroups : List String)
    (loaded : manifest.Manifest) (entries : List (String × List pointer.DeletePointer))
    (habs : (co.Abs deploymentManifestPath).2 = none)
    (hmanifest : co.LoadManifest fs
      { ManifestPath := (co.Abs deploymentManifestPath).1, Environments := environmentNames,
        Groups := environmentGroups } = (loaded, none))
    (hentries : co.LoadEntriesToDelete fs (GetNames co.NewAPIs) deleteFile = (entries, none)) :
    ((Delete co world fs deploymentManifestPath deleteFile environmentNames
        environmentGroups).1 = none ↔
      (deleteConfigs co world (loaded.Environments.map Prod.snd) co.NewAPIs entries).errors
        = []) ∧
    ((deleteConfigs co world (loaded.Environments.map Prod.snd) co.NewAPIs entries).errors
        ≠ [] →
      (Delete co world fs deploymentManifestPath deleteFile environmentNames
        environmentGroups).1
        = some (encounteredDuringDelete
            (deleteConfigs co world (loaded.Environments.map Prod.snd) co.NewAPIs
              entries).errors.length)) ∧
    (deleteConfigs co world (loaded.Environments.map Prod.snd) co.NewAPIs entries).errors.length
      = ((deleteConfigs co world (loaded.Environments.map Prod.snd) co.NewAPIs
          entries).trace.map (fun r => r.errors.length)).sum := by
  have hD : (Delete co world fs deploymentManifestPath deleteFile environmentNames
      environmentGroups).1
      = if (deleteConfigs co world (loaded.Environments.map Prod.snd) co.NewAPIs
            entries).errors.length > 0
        then some (encounteredDuringDelete
          (deleteConfigs co world (loaded.Environments.map Prod.snd) co.NewAPIs
            entries).errors.length)
        else none := by
    unfold Delete
    simp only [habs, hmanifest, hentries]
    split <;> rfl
  refine ⟨?_, ?_, ?_⟩
  · rw [hD]
    cases h : (deleteConfigs co world (loaded.Environments.map Prod.snd) co.NewAPIs
      entries).errors with
    | nil => simp
    | cons e es => simp
  · intro hne
    rw [hD, if_pos (List.length_pos.2 hne)]
  · exact (deleteConfigs_collected co co.NewAPIs entries world _).2.2.2

/-- Witness of C16: the example manifest and delete file load, three errors are collected over
the three environments, and `Delete` reports them. -/
theorem delete_reports_error_count_witness :
    (examples.collaborators.Abs "manifest.yaml").2 = none ∧
    (deleteConfigs examples.collaborators 0
        [examples.devEnvironment, examples.brokenEnvironment, examples.prodEnvironment]
        examples.catalog examples.entries).errors ≠ [] ∧
    (Delete examples.collaborators 0 () "manifest.yaml" "delete.yaml" [] []).1
      = some "encountered 3 errors during delete" :=
  ⟨rfl, by decide,
    ((delete_reports_error_count examples.collaborators 0 () "manifest.yaml" "delete.yaml"
      [] []
      { Environments := [("dev", examples.devEnvironment), ("broken", examples.brokenEnvironment),
          ("prod", examples.prodEnvironment)], Projects := [] }
      examples.entries rfl rfl rfl).2.1 (by decide)).trans (by decide)⟩

end cmd.delete

/-! The request limit from the environment. -/

namespace download.classic

theorem digitChar_digit : ∀ d, d < 10 →
    (Nat.digitChar d).isDigit = true ∧ (Nat.digitChar d).toNat - 48 = d := by
  decide

theorem parseDigits_digitChar (acc d : Nat) (hd : d < 10) (ds : List Char) :
    parseDigits acc (Nat.digitChar d :: ds) = parseDigits (acc * 10 + d) ds := by
  obtain ⟨h1, h2⟩ := digitChar_digit d hd
  simp [parseDigits, h1, h2]

theorem toDigitsCore_succ (fuel n : Nat) (ds : List Char) :
    Nat.toDigitsCore 10 (fuel + 1) n ds
      = if n / 10 = 0 then Nat.digitChar (n % 10) :: ds
        else Nat.toDigitsCore 10 fuel (n / 10) (Nat.digitChar (n % 10) :: ds) := rfl

/-- Reading the digits that `Nat.toDigitsCore` writes in front of `ds` adds the number to the
accumulator, shifted by the number of digits. -/
theorem parseDigits_toDigitsCore (fuel n : Nat) (hfuel : n < fuel) (ds : List Char) :
    ∃ k, ∀ acc, parseDigits acc (Nat.toDigitsCore 10 fuel n ds)
      = parseDigits (acc * 10 ^ k + n) ds := by
  induction fuel generalizing n ds with
  | zero => exact absurd hfuel (Nat.not_lt_zero _)
  | succ fuel ih =>
    have hmod : n % 10 < 10 := Nat.mod_lt _ (by decide)
    have hn : 10 * (n / 10) + n % 10 = n := Nat.div_add_mod n 10
    rw [toDigitsCore_succ]
    by_cases h0 : n / 10 = 0
    · refine ⟨1, fun acc => ?_⟩
      rw [if_pos h0, parseDigits_digitChar _ _ hmod]
      have : n % 10 = n := by omega
      rw [this, pow_one]
    · have hlt : n / 10 < fuel := by omega
      obtain ⟨k, hk⟩ := ih (n / 10) hlt (Nat.digitChar (n % 10) :: ds)
      refine ⟨k + 1, fun acc => ?_⟩
      rw [if_neg h0, hk, parseDigits_digitChar _ _ hmod]
      congr 1
      generalize n / 10 = q at hn
      generalize n % 10 = r at hn
      rw [← hn]
      ring

theorem toDigits_ne_nil (n : Nat) : Nat.toDigits 10 n ≠ [] := by
  intro h
  have hlen := congrArg List.length h
  unfold Nat.toDigits at hlen
  rw [toDigitsCore_succ] at hlen
  split at hlen
  · simp at hlen
  · rw [Nat.toDigitsCore_lens_eq] at hlen
    simp at hlen

/-- Reading the decimal text of a number gives the number back. -/
theorem parseDecimal_toString (n : Nat) : parseDecimal (toString n).data = some n := by
  have hdata : (toString n).data = Nat.toDigits 10 n := rfl
  rw [hdata, parseDecimal, if_neg (toDigits_ne_nil n)]
  obtain ⟨k, hk⟩ := parseDigits_toDigitsCore (n + 1) n (Nat.lt_succ_self n) []
  unfold Nat.toDigits
  rw [hk 0]
  simp [parseDigits]

/-- C20: the request limit read from the environment is the default when
`MONACO_CONCURRENT_REQUESTS` is unset, and is `n` when the variable is set to the decimal text
of a positive integer `n`; it is 51 for the text `51`. -/
theorem concurrentRequestLimitFromEnv_spec (env : String → Option String) :
    (env "MONACO_CONCURRENT_REQUESTS" = none →
      concurrentRequestLimitFromEnv env = defaultConcurrentDownloads) ∧
    (∀ n : Nat, 0 < n → env "MONACO_CONCURRENT_REQUESTS" = some (toString n) →
      concurrentRequestLimitFromEnv env = n) ∧
    (env "MONACO_CONCURRENT_REQUESTS" = some "51" → concurrentRequestLimitFromEnv env = 51) := by
  have hset : ∀ n : Nat, 0 < n → env "MONACO_CONCURRENT_REQUESTS" = some (toString n) →
      concurrentRequestLimitFromEnv env = n := by
    intro n hn h
    simp only [concurrentRequestLimitFromEnv, concurrentRequestsEnvKey, h,
      parseDecimal_toString, hn, if_true]
  refine ⟨?_, hset, ?_⟩
  · intro h
    simp [concurrentRequestLimitFromEnv, concurrentRequestsEnvKey, h]
  · intro h
    exact hset 51 (by decide) (h.trans (by decide))

/-- Witness of C20: the environment without variables, and the one of the test, in which the
variable is `51`. -/
theorem concurrentRequestLimitFromEnv_spec_witness :
    concurrentRequestLimitFromEnv (fun _ => none) = defaultConcurrentDownloads ∧
    examples.limitEnvironment "MONACO_CONCURRENT_REQUESTS" = some (toString 51) ∧
    concurrentRequestLimitFromEnv examples.limitEnvironment = 51 :=
  ⟨(concurrentRequestLimitFromEnv_spec (fun _ => none)).1 rfl, by decide,
    (concurrentRequestLimitFromEnv_spec examples.limitEnvironment).2.1 51 (by decide)
      (by decide)⟩

end download.classic

/-! The poll loop `wait`. -/

namespace v2

section waiting

variable {ω : Type} (maxInt : Int) (condition : ω → Bool × ω)

/-- While the counter cannot overflow, the loop of `wait` with `rounds` rounds to go polls
`rounds` times. -/
theorem waitLoop_eq_poll (maxPollCount : Int) (hmax : maxPollCount < maxInt)
    (rounds fuel : Nat) (i : Int) (trace : List WaitEvent) (world : ω)
    (hi : i + rounds = maxPollCount + 1) (hfuel : rounds + 1 ≤ fuel) :
    waitLoop maxInt maxPollCount condition fuel i trace world
      = some ((poll condition rounds world).1, trace ++ (poll condition rounds world).2.1,
          (poll condition rounds world).2.2) := by
  induction rounds generalizing fuel i trace world with
  | zero =>
    obtain ⟨fuel, rfl⟩ : ∃ f, fuel = f + 1 := ⟨fuel - 1, by omega⟩
    have hnot : ¬ i ≤ maxPollCount := by
      simp only [Nat.cast_zero, add_zero] at hi
      omega
    simp [waitLoop, hnot, poll]
  | succ rounds ih =>
    obtain ⟨fuel, rfl⟩ : ∃ f, fuel = f + 1 := ⟨fuel - 1, by omega⟩
    have hle : i ≤ maxPollCount := by
      push_cast at hi
      omega
    have hne : i ≠ maxInt := by omega
    have hsucc : intSucc maxInt i = i + 1 := by simp [intSucc, hne]
    cases hc : (condition world).1 with
    | true => simp [waitLoop, hle, hc, poll]
    | false =>
      have hrec := ih fuel (i + 1) (trace ++ [.evaluated false, .slept]) (condition world).2
        (by push_cast at hi ⊢; omega) (by omega)
      simp only [waitLoop, hle, if_true, hc, Bool.false_eq_true, if_false, hsucc, hrec, poll,
        List.append_assoc]

/-- While the counter cannot overflow, `wait` ends within `n + 2` rounds of fuel and polls
`n + 1` times. -/
theorem wait_eq_poll (n : Nat) (hn : (n : Int) < maxInt) (description : String) (world : ω)
    (fuel : Nat) (hfuel : n + 2 ≤ fuel) :
    wait maxInt description n condition world fuel
      = some
        { err := if (poll condition (n + 1) world).1 then none else some (timedOut description)
          trace := (poll condition (n + 1) world).2.1
          world := (poll condition (n + 1) world).2.2 } := by
  have h := waitLoop_eq_poll maxInt condition (n : Int) hn (n + 1) fuel 0 [] world
    (by push_cast; omega) (by omega)
  unfold wait
  rw [h]
  cases hp : (poll condition (n + 1) world).1 with
  | true => simp
  | false => simp

theorem evaluations_falseRounds (k : Nat) : evaluations (falseRounds k) = k := by
  induction k with
  | zero => rfl
  | succ k ih =>
    have h : evaluations (falseRounds (k + 1)) = evaluations (falseRounds k) + 1 := by
      simp [evaluations, falseRounds]
    rw [h, ih]

/-- A condition that is never true is polled in every round. -/
theorem poll_of_never_true (hfalse : ∀ w, (condition w).1 = false) (rounds : Nat)
    (world : ω) :
    (poll condition rounds world).1 = false ∧
    (poll condition rounds world).2.1 = falseRounds rounds := by
  induction rounds generalizing world with
  | zero => exact ⟨rfl, rfl⟩
  | succ rounds ih =>
    obtain ⟨h1, h2⟩ := ih (condition world).2
    simp [poll, hfalse world, h1, h2, falseRounds]

end waiting

/-- C21, the code at the failing input: `wait` with the poll count 120 of `AssertConfig` and a
condition that is never true evaluates the condition 121 times before it returns the time-out
error; in general, for a poll count `n` below the largest `int`, a condition that is never
true is evaluated `n + 1` times. -/
theorem wait_evaluates_once_more :
    (wait MaxInt64 "dashboard Ops on environment dev" 120 examples.neverTrue () 122).map
        (fun out => (out.err, evaluations out.trace))
      = some (some (timedOut "dashboard Ops on environment dev"), 121) ∧
    ∀ (maxInt : Int) (n : Nat), (n : Int) < maxInt →
      ∀ (description : String) (fuel : Nat), n + 2 ≤ fuel →
      (wait maxInt description n examples.neverTrue () fuel).map
          (fun out => (out.err, evaluations out.trace))
        = some (some (timedOut description), n + 1) := by
  have hgen : ∀ (maxInt : Int) (n : Nat), (n : Int) < maxInt →
      ∀ (description : String) (fuel : Nat), n + 2 ≤ fuel →
      (wait maxInt description n examples.neverTrue () fuel).map
          (fun out => (out.err, evaluations out.trace))
        = some (some (timedOut description), n + 1) := by
    intro maxInt n hn description fuel hfuel
    obtain ⟨h1, h2⟩ := poll_of_never_true examples.neverTrue (fun _ => rfl) (n + 1) ()
    rw [wait_eq_poll maxInt examples.neverTrue n hn description () fuel hfuel]
    simp [h1, h2, evaluations_falseRounds]
  exact ⟨hgen MaxInt64 120 (by decide) _ 122 (by decide), hgen⟩

/-- A condition that is true at its third evaluation, polled with the poll count 120 of
`AssertConfig`: `wait` returns nil after two false rounds and the true evaluation. -/
theorem wait_true_at_third :
    (wait MaxInt64 "check" (120 : Nat) examples.trueAtThird 0 122).map
        (fun out => (out.err, out.trace, out.world))
      = some (none, [.evaluated false, .slept, .evaluated false, .slept, .evaluated true], 3) := by
  decide

end v2

/-! The per-config loop of `AssertAllConfigsAvailability`. -/

namespace v2

section checking

variable {ω : Type} (co : Collaborators ω) (env : manifest.EnvironmentDefinition)
  (available : Bool) (projectsToValidate : String → Bool)

/-- The body of the loop only adds steps for its config, which is then not skipped. -/
theorem assertConfigsBody_steps (st : CheckState ω) (c : config.Config) :
    ∀ s ∈ (assertConfigsBody co env available projectsToValidate st c).steps,
      s ∈ st.steps ∨ (s.coord = c.Coordinate ∧ c.Skip = false) := by
  unfold assertConfigsBody
  by_cases hf : st.fatal = true
  · intro s hs
    simp only [hf, if_true] at hs
    exact Or.inl hs
  · by_cases hs : c.Skip = true
    · intro s hs2
      simp only [hf, hs, Bool.false_eq_true, if_false, if_true] at hs2
      exact Or.inl hs2
    · simp only [hf, hs, Bool.false_eq_true, if_false]
      intro s hmem
      split at hmem
      · simp only [List.mem_append, List.mem_singleton] at hmem
        rcases hmem with h | rfl
        · exact Or.inl h
        · exact Or.inr ⟨rfl, trivial⟩
      · split at hmem
        · simp only [List.mem_append, List.mem_singleton] at hmem
          rcases hmem with (h | rfl) | rfl
          · exact Or.inl h
          · exact Or.inr ⟨rfl, trivial⟩
          · exact Or.inr ⟨rfl, trivial⟩
        · split at hmem
          · simp only [List.mem_append, List.mem_singleton] at hmem
            rcases hmem with ((h | rfl) | rfl) | rfl
            · exact Or.inl h
            · exact Or.inr ⟨rfl, trivial⟩
            · exact Or.inr ⟨rfl, trivial⟩
            · exact Or.inr ⟨rfl, trivial⟩
          · split at hmem
            · simp only [List.mem_append, List.mem_singleton] at hmem
              rcases hmem with (((h | rfl) | rfl) | rfl) | rfl
              · exact Or.inl h
              · exact Or.inr ⟨rfl, trivial⟩
              · exact Or.inr ⟨rfl, trivial⟩
              · exact Or.inr ⟨rfl, trivial⟩
              · exact Or.inr ⟨rfl, trivial⟩
            · simp only [List.mem_append, List.mem_singleton] at hmem
              rcases hmem with ((h | rfl) | rfl) | rfl
              · exact Or.inl h
              · exact Or.inr ⟨rfl, trivial⟩
              · exact Or.inr ⟨rfl, trivial⟩
              · exact Or.inr ⟨rfl, trivial⟩

theorem foldl_assertConfigsBody_steps (st : CheckState ω) (configs : List config.Config) :
    ∀ s ∈ (configs.foldl (assertConfigsBody co env available projectsToValidate) st).steps,
      s ∈ st.steps ∨ ∃ c ∈ configs, s.coord = c.Coordinate ∧ c.Skip = false := by
  induction configs generalizing st with
  | nil =>
    intro s hs
    exact Or.inl hs
  | cons c rest ih =>
    intro s hs
    rw [List.foldl_cons] at hs
    rcases ih _ s hs with h | ⟨c2, hc2, h⟩
    · rcases assertConfigsBody_steps co env available projectsToValidate st c s h with h2 | h2
      · exact Or.inl h2
      · exact Or.inr ⟨c, List.mem_cons_self _ _, h2⟩
    · exact Or.inr ⟨c2, List.mem_cons_of_mem _ hc2, h⟩

end checking

/-- C22: in the per-config loop of `AssertAllConfigsAvailability`, a round for a config with
`Skip = true` only writes the entity table: under the coordinate of the config it puts the
entity with the config id as name, that coordinate, empty properties and `Skip = true`, and it
does no step (sorting or resolving parameters, extracting the name, remote check), collects no
parameter and leaves the world as it is.  In the whole loop, every step is done for a config
that is not skipped. -/
theorem skipped_config_is_only_recorded {ω : Type} (co : Collaborators ω)
    (env : manifest.EnvironmentDefinition) (available : Bool)
    (projectsToValidate : String → Bool) :
    (∀ (st : CheckState ω) (c : config.Config), st.fatal = false → c.Skip = true →
      assertConfigsBody co env available projectsToValidate st c
        = { st with
            entities := setEntity st.entities c.Coordinate
              { EntityName := c.Coordinate.ConfigId, Coordinate := c.Coordinate,
                Properties := fun _ => none, Skip := true } } ∧
      ((assertConfigsBody co env available projectsToValidate st c).entities c.Coordinate).map
          (fun e => (e.EntityName, e.Coordinate, e.Skip))
        = some (c.Coordinate.ConfigId, c.Coordinate, true) ∧
      (∀ e, (assertConfigsBody co env available projectsToValidate st c).entities c.Coordinate
          = some e → ∀ key, e.Properties key = none) ∧
      (assertConfigsBody co env available projectsToValidate st c).steps = st.steps ∧
      (assertConfigsBody co env available projectsToValidate st c).parameters = st.parameters ∧
      (assertConfigsBody co env available projectsToValidate st c).world = st.world) ∧
    (∀ (world : ω) (configs : List config.Config),
      ∀ s ∈ (assertConfigsLoop co env available projectsToValidate world configs).steps,
        ∃ c ∈ configs, s.coord = c.Coordinate ∧ c.Skip = false) := by
  constructor
  · intro st c hfatal hskip
    have hbody : assertConfigsBody co env available projectsToValidate st c
        = { st with
            entities := setEntity st.entities c.Coordinate
              { EntityName := c.Coordinate.ConfigId, Coordinate := c.Coordinate,
                Properties := fun _ => none, Skip := true } } := by
      simp [assertConfigsBody, hfatal, hskip]
    rw [hbody]
    refine ⟨rfl, by simp [setEntity], ?_, rfl, rfl, rfl⟩
    intro e he key
    simp only [setEntity, if_true, Option.some.injEq] at he
    rw [← he]
  · intro world configs s hs
    rcases foldl_assertConfigsBody_steps co env available projectsToValidate
      { entities := fun _ => none, parameters := [], steps := [], failures := [],
        fatal := false, world := world } configs s hs with h | h
    · simp at h
    · exact h

/-- Witness of C22: a skipped profile and a profile that is not skipped, with collaborators
that fail: the skipped one is recorded and nothing is done for it. -/
theorem skipped_config_is_only_recorded_witness :
    ({ examples.profileA with Skip := true } : config.Config).Skip = true ∧
    (assertConfigsLoop examples.failingChecks examples.devEnvironment true (fun _ => true) 0
        [{ examples.profileA with Skip := true }]).steps = [] ∧
    ((assertConfigsLoop examples.failingChecks examples.devEnvironment true (fun _ => true) 0
        [{ examples.profileA with Skip := true }]).entities examples.profileA.Coordinate).map
          (fun e => (e.EntityName, e.Coordinate, e.Skip))
      = some ("profile-a", examples.profileA.Coordinate, true) :=
  ⟨rfl, rfl,
    ((skipped_config_is_only_recorded examples.failingChecks examples.devEnvironment true
      (fun _ => true)).1
      { entities := fun _ => none, parameters := [], steps := [], failures := [],
        fatal := false, world := 0 }
      { examples.profileA with Skip := true } rfl rfl).2.1⟩

end v2

/-! `getDownloader`. -/

namespace cmd.download

theorem getDownloader_ok_iff (T : TypeArgument) (d : downloaders) (dl : Element) :
    getDownloader T d = .ok dl ↔
      ∃ pre post, d = pre ++ dl :: post ∧ dl.implements T = true ∧
        ∀ x ∈ pre, x.implements T = false := by
  induction d with
  | nil =>
    constructor
    · intro h
      simp [getDownloader] at h
    · rintro ⟨pre, post, h, _⟩
      simp at h
  | cons x rest ih =>
    cases hx : x.implements T with
    | true =>
      constructor
      · intro h
        simp only [getDownloader, hx, if_true, Except.ok.injEq] at h
        subst h
        exact ⟨[], rest, rfl, hx, by simp⟩
      · rintro ⟨pre, post, h, hdl, hpre⟩
        cases pre with
        | nil =>
          simp only [List.nil_append, List.cons.injEq] at h
          obtain ⟨rfl, _⟩ := h
          simp [getDownloader, hx]
        | cons y pre =>
          simp only [List.cons_append, List.cons.injEq] at h
          have := hpre y (List.mem_cons_self _ _)
          rw [← h.1, hx] at this
          cases this
    | false =>
      simp only [getDownloader, hx, Bool.false_eq_true, if_false, ih]
      constructor
      · rintro ⟨pre, post, h, hdl, hpre⟩
        refine ⟨x :: pre, post, by simp [h], hdl, ?_⟩
        intro y hy
        rcases List.mem_cons.1 hy with rfl | hy
        · exact hx
        · exact hpre y hy
      · rintro ⟨pre, post, h, hdl, hpre⟩
        cases pre with
        | nil =>
          simp only [List.nil_append, List.cons.injEq] at h
          rw [h.1, hdl] at hx
          cases hx
        | cons y pre =>
          simp only [List.cons_append, List.cons.injEq] at h
          exact ⟨pre, post, h.2, hdl, fun z hz => hpre z (List.mem_cons_of_mem _ hz)⟩

theorem getDownloader_panic_iff (T : TypeArgument) (d : downloaders) :
    getDownloader T d = .error "No downloader implementation found" ↔
      ∀ x ∈ d, x.implements T = false := by
  induction d with
  | nil => simp [getDownloader]
  | cons x rest ih =>
    cases hx : x.implements T with
    | true => simp [getDownloader, hx]
    | false => simp [getDownloader, hx, ih]

theorem getDownloader_ok_of_mem (T : TypeArgument) (d : downloaders)
    (h : ∃ x ∈ d, x.implements T = true) : ∃ dl, getDownloader T d = .ok dl := by
  induction d with
  | nil => simp at h
  | cons x rest ih =>
    cases hx : x.implements T with
    | true => exact ⟨x, by simp [getDownloader, hx]⟩
    | false =>
      obtain ⟨y, hy, hyT⟩ := h
      rcases List.mem_cons.1 hy with rfl | hy
      · rw [hx] at hyT
        cases hyT
      · obtain ⟨dl, hdl⟩ := ih ⟨y, hy, hyT⟩
        exact ⟨dl, by simp [getDownloader, hx, hdl]⟩

/-- C30: for every list of downloaders and every type argument `T`, `getDownloader` returns
the first element of the list that is a downloader for `T`, and it panics with
`No downloader implementation found` exactly when no element of the list is a downloader for
`T`; so `Classic()` and `Settings()` do not panic on a list that holds a downloader of each
kind. -/
theorem getDownloader_returns_first (T : TypeArgument) (d : downloaders) :
    (∀ dl, getDownloader T d = .ok dl ↔
      ∃ pre post, d = pre ++ dl :: post ∧ dl.implements T = true ∧
        ∀ x ∈ pre, x.implements T = false) ∧
    (getDownloader T d = .error "No downloader implementation found" ↔
      ∀ x ∈ d, x.implements T = false) ∧
    ((∃ dl, getDownloader T d = .ok dl) ∨
      getDownloader T d = .error "No downloader implementation found") ∧
    ((∃ x ∈ d, x.implements .ClassicApiType = true) →
      (∃ y ∈ d, y.implements .SettingsType = true) →
      (∃ dl, d.Classic = .ok dl) ∧ ∃ dl, d.Settings = .ok dl) := by
  refine ⟨getDownloader_ok_iff T d, getDownloader_panic_iff T d, ?_, ?_⟩
  · by_cases h : ∃ x ∈ d, x.implements T = true
    · exact Or.inl (getDownloader_ok_of_mem T d h)
    · refine Or.inr ((getDownloader_panic_iff T d).2 ?_)
      intro x hx
      cases hxT : x.implements T with
      | false => rfl
      | true => exact absurd ⟨x, hx, hxT⟩ h
  · intro hc hs
    exact ⟨getDownloader_ok_of_mem _ d hc, getDownloader_ok_of_mem _ d hs⟩

/-- Witness of C30: a list of a classic downloader and two settings downloaders; `Settings()`
returns the first settings downloader. -/
theorem getDownloader_returns_first_witness :
    (∃ x ∈ [examples.classicDownloader, examples.settingsDownloader,
        examples.otherSettingsDownloader], x.implements .ClassicApiType = true) ∧
    (∃ y ∈ [examples.classicDownloader, examples.settingsDownloader,
        examples.otherSettingsDownloader], y.implements .SettingsType = true) ∧
    downloaders.Settings [examples.classicDownloader, examples.settingsDownloader,
        examples.otherSettingsDownloader] = .ok examples.settingsDownloader ∧
    ((∃ dl, downloaders.Classic [examples.classicDownloader, examples.settingsDownloader,
        examples.otherSettingsDownloader] = .ok dl) ∧
      ∃ dl, downloaders.Settings [examples.classicDownloader, examples.settingsDownloader,
        examples.otherSettingsDownloader] = .ok dl) :=
  ⟨⟨examples.classicDownloader, by simp, rfl⟩, ⟨examples.settingsDownloader, by simp, rfl⟩, rfl,
    (getDownloader_returns_first .SettingsType
      [examples.classicDownloader, examples.settingsDownloader,
        examples.otherSettingsDownloader]).2.2.2
      ⟨examples.classicDownloader, by simp, rfl⟩ ⟨examples.settingsDownloader, by simp, rfl⟩⟩

end cmd.download

/-! More on `Validator.Validate`. -/

namespace classic

section validating

variable (apis : api.APIs) (GetNameForConfig : config.Config → Except String AnyValue)

/-- A loop that ran to its end has found, for every recorded config with a name, that the
name of the new config is another one. -/
theorem validateLoop_none_distinct (c : config.Config) (l : List config.Config)
    (h : validateLoop GetNameForConfig c l = none) :
    ∀ a ∈ l, ∀ n, GetNameForConfig a = .ok n → GetNameForConfig c ≠ .ok n := by
  induction l with
  | nil => simp
  | cons c2 rest ih =>
    cases h1 : GetNameForConfig c with
    | error err => simp [validateLoop, h1] at h
    | ok n1 =>
      cases h2 : GetNameForConfig c2 with
      | error err => simp [validateLoop, h1, h2] at h
      | ok n2 =>
        by_cases heq : n1 = n2
        · simp [validateLoop, h1, h2, heq] at h
        · simp only [validateLoop, h1, h2, heq, if_false] at h
          intro a ha n hna
          rcases List.mem_cons.1 ha with rfl | ha
          · rw [h2] at hna
            cases hna
            intro h3
            cases h3
            exact heq rfl
          · have := ih h a ha n hna
            rwa [h1] at this

/-- The loop runs to its end when the new config has a name and every recorded config has
another name. -/
theorem validateLoop_none_of_distinct (c : config.Config) (n : AnyValue)
    (hn : GetNameForConfig c = .ok n) (l : List config.Config)
    (h : ∀ x ∈ l, ∃ m, GetNameForConfig x = .ok m ∧ m ≠ n) :
    validateLoop GetNameForConfig c l = none := by
  induction l with
  | nil => rfl
  | cons c2 rest ih =>
    obtain ⟨m, hm, hne⟩ := h c2 (List.mem_cons_self _ _)
    have hne2 : ¬ n = m := fun h2 => hne h2.symm
    simp only [validateLoop, hn, hm, hne2, if_false]
    exact ih (fun x hx => h x (List.mem_cons_of_mem _ hx))

/-- After a recorded config without name, the loop returns the error of a name. -/
theorem validateLoop_after_unnamed (c c0 : config.Config) (err0 : String)
    (h0 : GetNameForConfig c0 = .error err0) (rest : List config.Config) :
    ∃ err, validateLoop GetNameForConfig c (c0 :: rest) = some (.nameError err) := by
  cases h1 : GetNameForConfig c with
  | error err => exact ⟨err, by simp [validateLoop, h1]⟩
  | ok n1 => exact ⟨err0, by simp [validateLoop, h1, h0]⟩

/-- A call of `Validate` that returns an error leaves every recorded list as it is. -/
theorem validate_err_recorded (v : Validator) (c : config.Config)
    (herr : (v.Validate apis GetNameForConfig c).2 ≠ none) (e t : String) :
    (v.Validate apis GetNameForConfig c).1.recorded e t = v.recorded e t := by
  cases hT : c.Type_ with
  | ClassicApiType Api =>
    cases hU : ((apis Api).getD api.API.zero).NonUniqueName with
    | true => exact (validate_of_not_checked apis GetNameForConfig v c (Or.inr ⟨Api, hT, hU⟩)).2 e t
    | false =>
      rw [validate_checked_err apis GetNameForConfig v c Api hT hU] at herr
      rw [validate_checked_recorded apis GetNameForConfig v c Api hT hU, if_neg]
      exact fun h => herr h.1
  | SettingsType a b =>
    exact (validate_of_not_checked apis GetNameForConfig v c (Or.inl (by simp [hT]))).2 e t
  | AutomationType r =>
    exact (validate_of_not_checked apis GetNameForConfig v c (Or.inl (by simp [hT]))).2 e t
  | BucketType =>
    exact (validate_of_not_checked apis GetNameForConfig v c (Or.inl (by simp [hT]))).2 e t

/-- `Validate` keeps the names of every recorded list distinct. -/
theorem validate_pairwise (v : Validator) (c : config.Config)
    (hv : ∀ e t, List.Pairwise
      (fun a b => ∀ n, GetNameForConfig a = .ok n → GetNameForConfig b ≠ .ok n)
      (v.recorded e t)) (e t : String) :
    List.Pairwise (fun a b => ∀ n, GetNameForConfig a = .ok n → GetNameForConfig b ≠ .ok n)
      ((v.Validate apis GetNameForConfig c).1.recorded e t) := by
  cases hT : c.Type_ with
  | ClassicApiType Api =>
    cases hU : ((apis Api).getD api.API.zero).NonUniqueName with
    | true =>
      rw [(validate_of_not_checked apis GetNameForConfig v c (Or.inr ⟨Api, hT, hU⟩)).2 e t]
      exact hv e t
    | false =>
      rw [validate_checked_recorded apis GetNameForConfig v c Api hT hU]
      split
      · rename_i h
        obtain ⟨hloop, he, ht⟩ := h
        rw [List.pairwise_append]
        refine ⟨hv e t, List.pairwise_singleton _ _, ?_⟩
        intro a ha b hb
        rw [List.mem_singleton] at hb
        subst hb
        rw [he, ht] at ha
        exact validateLoop_none_distinct GetNameForConfig b _ hloop a ha
      · exact hv e t
  | SettingsType a b =>
    rw [(validate_of_not_checked apis GetNameForConfig v c (Or.inl (by simp [hT]))).2 e t]
    exact hv e t
  | AutomationType r =>
    rw [(validate_of_not_checked apis GetNameForConfig v c (Or.inl (by simp [hT]))).2 e t]
    exact hv e t
  | BucketType =>
    rw [(validate_of_not_checked apis GetNameForConfig v c (Or.inl (by simp [hT]))).2 e t]
    exact hv e t

theorem validateAll_pairwise (v : Validator) (cs : List config.Config)
    (hv : ∀ e t, List.Pairwise
      (fun a b => ∀ n, GetNameForConfig a = .ok n → GetNameForConfig b ≠ .ok n)
      (v.recorded e t)) (e t : String) :
    List.Pairwise (fun a b => ∀ n, GetNameForConfig a = .ok n → GetNameForConfig b ≠ .ok n)
      ((v.validateAll apis GetNameForConfig cs).recorded e t) := by
  induction cs generalizing v with
  | nil => exact hv e t
  | cons c cs ih =>
    rw [validateAll_cons]
    exact ih _ (validate_pairwise apis GetNameForConfig v c hv)

end validating

/-- C23, counterexample: the profile `Ops` of `dev` is accepted, the only config recorded for
`prod` has no name (so none with an equal name is recorded there), and `Validate` of the
profile `Ops` of `prod` returns the error of the missing name instead of nil. -/
theorem validate_stumbles_over_unnamed :
    examples.nameOf examples.profileA = .ok (.str "Ops") ∧
    examples.nameOf examples.prodProfile = .ok (.str "Ops") ∧
    examples.profileA.Environment ≠ examples.prodProfile.Environment ∧
    ((Validator.zero.Validate examples.catalog examples.nameOf examples.unnamedProfile).1.Validate
      examples.catalog examples.nameOf examples.profileA).2 = none ∧
    (Validator.zero.validateAll examples.catalog examples.nameOf
        [examples.unnamedProfile, examples.profileA]).recorded "prod" "alerting-profile"
      = [examples.unnamedProfile] ∧
    examples.nameOf examples.unnamedProfile = .error "configuration has no name parameter" ∧
    ((Validator.zero.validateAll examples.catalog examples.nameOf
        [examples.unnamedProfile, examples.profileA]).Validate
      examples.catalog examples.nameOf examples.prodProfile).2
      = some (.nameError "configuration has no name parameter") :=
  ⟨rfl, rfl, by decide, rfl, rfl, rfl, rfl⟩

/-- C23, amended: for two classic configs `c1`, `c2` with the same defined name that differ in
environment or in API type, and every validator that has accepted `c1` and in which every
config recorded for the environment and API of `c2` has a defined name other than that name,
`Validate(c2)` returns nil; and `c1` stays recorded when its API has unique names. -/
theorem validate_accepts_same_name_elsewhere (apis : api.APIs)
    (GetNameForConfig : config.Config → Except String AnyValue)
    (c1 c2 : config.Config) (t1 t2 : String)
    (hT1 : c1.Type_ = .ClassicApiType t1) (hT2 : c2.Type_ = .ClassicApiType t2)
    (_hdiff : c1.Environment ≠ c2.Environment ∨ t1 ≠ t2)
    (n : AnyValue) (_hn1 : GetNameForConfig c1 = .ok n) (hn2 : GetNameForConfig c2 = .ok n)
    (v : Validator) (hacc : (v.Validate apis GetNameForConfig c1).2 = none)
    (later : List config.Config)
    (hrec : ∀ x ∈ ((v.Validate apis GetNameForConfig c1).1.validateAll apis GetNameForConfig
        later).recorded c2.Environment t2, ∃ m, GetNameForConfig x = .ok m ∧ m ≠ n) :
    (((v.Validate apis GetNameForConfig c1).1.validateAll apis GetNameForConfig later).Validate
        apis GetNameForConfig c2).2 = none ∧
    (((apis t1).getD api.API.zero).NonUniqueName = false →
      c1 ∈ (((v.Validate apis GetNameForConfig c1).1.validateAll apis GetNameForConfig
        later).Validate apis GetNameForConfig c2).1.recorded c1.Environment t1) := by
  constructor
  · cases hU : ((apis t2).getD api.API.zero).NonUniqueName with
    | true =>
      exact (validate_of_not_checked apis GetNameForConfig _ c2 (Or.inr ⟨t2, hT2, hU⟩)).1
    | false =>
      rw [validate_checked_err apis GetNameForConfig _ c2 t2 hT2 hU]
      exact validateLoop_none_of_distinct GetNameForConfig c2 n hn2 _ hrec
  · intro hU1
    rw [validate_checked_err apis GetNameForConfig v c1 t1 hT1 hU1] at hacc
    have h1 : (v.Validate apis GetNameForConfig c1).1.recorded c1.Environment t1
        = v.recorded c1.Environment t1 ++ [c1] := by
      rw [validate_checked_recorded apis GetNameForConfig v c1 t1 hT1 hU1,
        if_pos ⟨hacc, rfl, rfl⟩]
    obtain ⟨s1, h2⟩ := validateAll_recorded_suffix apis GetNameForConfig
      (v.Validate apis GetNameForConfig c1).1 later c1.Environment t1
    obtain ⟨s2, h3⟩ := validate_recorded_suffix apis GetNameForConfig
      ((v.Validate apis GetNameForConfig c1).1.validateAll apis GetNameForConfig later) c2
      c1.Environment t1
    rw [h3, h2, h1]
    simp

/-- Witness of C23 as amended: the profile `Ops` of `dev` is accepted, then the profile `Dev`
of `prod`; the one config recorded for `prod` and the API of alerting profiles has the defined
name `Dev`, and the profile `Ops` of `prod` is accepted. -/
theorem validate_accepts_same_name_elsewhere_witness :
    examples.profileA.Environment ≠ examples.prodProfile.Environment ∧
    examples.nameOf examples.profileA = .ok (.str "Ops") ∧
    examples.nameOf examples.prodProfile = .ok (.str "Ops") ∧
    (Validator.zero.Validate examples.catalog examples.nameOf examples.profileA).2 = none ∧
    ((Validator.zero.Validate examples.catalog examples.nameOf examples.profileA).1.validateAll
        examples.catalog examples.nameOf [examples.prodDevProfile]).recorded
        "prod" "alerting-profile" = [examples.prodDevProfile] ∧
    examples.nameOf examples.prodDevProfile = .ok (.str "Dev") ∧
    ((((Validator.zero.Validate examples.catalog examples.nameOf examples.profileA).1.validateAll
        examples.catalog examples.nameOf [examples.prodDevProfile]).Validate
        examples.catalog examples.nameOf examples.prodProfile).2 = none ∧
      (((examples.catalog "alerting-profile").getD api.API.zero).NonUniqueName = false →
        examples.profileA ∈
          (((Validator.zero.Validate examples.catalog examples.nameOf
            examples.profileA).1.validateAll examples.catalog examples.nameOf
            [examples.prodDevProfile]).Validate
            examples.catalog examples.nameOf examples.prodProfile).1.recorded
            examples.profileA.Environment "alerting-profile")) :=
  ⟨by decide, rfl, rfl, rfl, rfl, rfl,
    validate_accepts_same_name_elsewhere examples.catalog examples.nameOf examples.profileA
      examples.prodProfile "alerting-profile" "alerting-profile" rfl rfl (Or.inl (by decide))
      (.str "Ops") rfl rfl Validator.zero rfl [examples.prodDevProfile]
      (fun x hx => by
        have hrecorded :
            ((Validator.zero.Validate examples.catalog examples.nameOf
              examples.profileA).1.validateAll examples.catalog examples.nameOf
              [examples.prodDevProfile]).recorded examples.prodProfile.Environment
              "alerting-profile" = [examples.prodDevProfile] := rfl
        rw [hrecorded, List.mem_singleton] at hx
        subst hx
        exact ⟨.str "Dev", rfl, fun h => absurd (AnyValue.str.inj h) (by decide)⟩)⟩

/-- C26: starting from the zero validator, after any sequence of `Validate` calls, in the
recorded list of every environment and API no two configs at different places of the list have
names that are both defined and equal. -/
theorem validator_keeps_names_distinct (apis : api.APIs)
    (GetNameForConfig : config.Config → Except String AnyValue)
    (cs : List config.Config) (e t : String) :
    List.Pairwise (fun a b => ∀ n, GetNameForConfig a = .ok n → GetNameForConfig b ≠ .ok n)
      ((Validator.zero.validateAll apis GetNameForConfig cs).recorded e t) :=
  validateAll_pairwise apis GetNameForConfig Validator.zero cs
    (fun _ _ => List.Pairwise.nil) e t

/-- C27: for every validator and every config, when `Validate` returns an error, the recorded
config list of every environment and API is the one before the call. -/
theorem validate_atomic_on_failure (apis : api.APIs)
    (GetNameForConfig : config.Config → Except String AnyValue)
    (v : Validator) (c : config.Config)
    (herr : (v.Validate apis GetNameForConfig c).2 ≠ none) :
    ∀ e t, (v.Validate apis GetNameForConfig c).1.recorded e t = v.recorded e t :=
  fun e t => validate_err_recorded apis GetNameForConfig v c herr e t

/-- Witness of C27: the second profile named `Ops` is rejected and not recorded. -/
theorem validate_atomic_on_failure_witness :
    ((Validator.zero.Validate examples.catalog examples.nameOf examples.profileA).1.Validate
      examples.catalog examples.nameOf examples.profileB).2 ≠ none ∧
    ∀ e t,
      ((Validator.zero.Validate examples.catalog examples.nameOf examples.profileA).1.Validate
        examples.catalog examples.nameOf examples.profileB).1.recorded e t
      = (Validator.zero.Validate examples.catalog examples.nameOf examples.profileA).1.recorded
          e t :=
  ⟨by decide,
    validate_atomic_on_failure examples.catalog examples.nameOf
      (Validator.zero.Validate examples.catalog examples.nameOf examples.profileA).1
      examples.profileB (by decide)⟩

/-- C28: on a validator with no recorded config for the environment and the unique-name API of
a classic config `c`, `Validate(c)` returns nil and records `c`, whether or not
`GetNameForConfig(c)` fails; and when it fails, after any sequence of further `Validate` calls,
`Validate` of every config of the same environment and API returns the error of a name. -/
theorem validate_accepts_first_without_name (apis : api.APIs)
    (GetNameForConfig : config.Config → Except String AnyValue)
    (v : Validator) (c : config.Config) (t : String)
    (hT : c.Type_ = .ClassicApiType t)
    (hU : ((apis t).getD api.API.zero).NonUniqueName = false)
    (hempty : v.recorded c.Environment t = []) :
    (v.Validate apis GetNameForConfig c).2 = none ∧
    (v.Validate apis GetNameForConfig c).1.recorded c.Environment t = [c] ∧
    ∀ err0, GetNameForConfig c = .error err0 →
      ∀ (later : List config.Config) (c2 : config.Config),
        c2.Type_ = .ClassicApiType t → c2.Environment = c.Environment →
        ∃ err, (((v.Validate apis GetNameForConfig c).1.validateAll apis GetNameForConfig
          later).Validate apis GetNameForConfig c2).2 = some (.nameError err) := by
  have hacc : (v.Validate apis GetNameForConfig c).2 = none := by
    rw [validate_checked_err apis GetNameForConfig v c t hT hU, hempty]
    rfl
  have hrec : (v.Validate apis GetNameForConfig c).1.recorded c.Environment t = [c] := by
    rw [validate_checked_recorded apis GetNameForConfig v c t hT hU, hempty,
      if_pos ⟨rfl, rfl, rfl⟩]
    rfl
  refine ⟨hacc, hrec, ?_⟩
  intro err0 h0 later c2 hT2 hE2
  obtain ⟨suffix, hsuf⟩ := validateAll_recorded_suffix apis GetNameForConfig
    (v.Validate apis GetNameForConfig c).1 later c.Environment t
  rw [validate_checked_err apis GetNameForConfig _ c2 t hT2 hU, hE2, hsuf, hrec]
  exact validateLoop_after_unnamed GetNameForConfig c2 c err0 h0 suffix

/-- Witness of C28: the profile without name is accepted for `prod`, and the profile `Ops` of
`prod` is rejected after it. -/
theorem validate_accepts_first_without_name_witness :
    Validator.zero.recorded examples.unnamedProfile.Environment "alerting-profile" = [] ∧
    examples.nameOf examples.unnamedProfile = .error "configuration has no name parameter" ∧
    (Validator.zero.Validate examples.catalog examples.nameOf examples.unnamedProfile).2
      = none ∧
    ∃ err,
      (((Validator.zero.Validate examples.catalog examples.nameOf
          examples.unnamedProfile).1.validateAll examples.catalog examples.nameOf
          [examples.profileA]).Validate examples.catalog examples.nameOf
          examples.prodProfile).2 = some (.nameError err) :=
  ⟨rfl, rfl,
    (validate_accepts_first_without_name examples.catalog examples.nameOf Validator.zero
      examples.unnamedProfile "alerting-profile" rfl rfl rfl).1,
    (validate_accepts_first_without_name examples.catalog examples.nameOf Validator.zero
      examples.unnamedProfile "alerting-profile" rfl rfl rfl).2.2
      "configuration has no name parameter" rfl [examples.profileA] examples.prodProfile
      rfl rfl⟩

end classic

/-! More on `delete.Configs`. -/

namespace delete

section results

variable {ω : Type} (ad : Adapters ω) (clients : ClientSet) (apis : api.APIs)
  (automationResources : String → Option config.AutomationResource)

/-- When the result of an adapter call does not depend on the state of the world, the errors
of the trace are those of the planned calls of the groups that the loop gets to, in the order
of the groups. -/
theorem configsLoop_trace_errs
    (hpure : ∀ (w w2 : ω) (call : Call), (runCall ad w call).1 = (runCall ad w2 call).1)
    (w0 : ω) (st : LoopState ω) (es : DeleteEntries) (hst : st.panic = none) :
    (configsLoop ad clients apis automationResources st es).trace.map (fun d => d.err)
      = st.trace.map (fun d => d.err)
        ++ (reachedEntries clients apis automationResources es).filterMap (fun g =>
            (plannedCall clients apis automationResources g).map
              (fun call => (runCall ad w0 call).1)) := by
  induction es generalizing st with
  | nil => simp [configsLoop_nil, reachedEntries]
  | cons g es ih =>
    rw [configsLoop_cons, configsBody_eq]
    cases hpa : panicsAt clients apis automationResources g with
    | true =>
      rw [configsLoop_of_panicked]
      · simp [hst, reachedEntries, List.takeWhile_cons, hpa]
      · simp [hst]
    | false =>
      have hreach : reachedEntries clients apis automationResources (g :: es)
          = g :: reachedEntries clients apis automationResources es := by
        simp [reachedEntries, List.takeWhile_cons, hpa]
      cases hp : plannedCall clients apis automationResources g with
      | none =>
        simp only [hst, Option.isSome_none, Bool.false_eq_true, if_false]
        rw [ih st hst, hreach]
        simp [List.filterMap_cons, hp]
      | some call =>
        simp only [hst, Option.isSome_none, Bool.false_eq_true, if_false]
        rw [ih _ (by simpa [afterCall] using hst), hreach]
        simp [List.filterMap_cons, hp, afterCall, hpure st.world w0 call]

theorem failedCalls_eq (trace : List Dispatch) :
    failedCalls trace
      = ((trace.map (fun d => d.err)).filter (fun e => e.isSome)).length := by
  simp only [failedCalls, List.filter_map, List.length_map]
  rfl

/-- The error that `Configs` returns, from the number of failed calls: none when it panics. -/
theorem configs_err_eq (world : ω) (entries : DeleteEntries) :
    (Configs ad world clients apis automationResources entries).err
      = if (Configs ad world clients apis automationResources entries).panic.isSome then none
        else if failedCalls (Configs ad world clients apis automationResources entries).trace > 0
        then some (encounteredErrors
          (failedCalls (Configs ad world clients apis automationResources entries).trace))
        else none := by
  have hcount := configsLoop_deleteErrors ad clients apis automationResources
    { deleteErrors := 0, trace := [], world := world, panic := none } entries
    (by simp [failedCalls])
  rw [configs_trace, configs_panic, ← hcount]
  rfl

/-- A panic of the loop is the panic of `reflect.Value.IsNil`. -/
theorem configsLoop_panic_cases (st : LoopState ω) (es : DeleteEntries)
    (hst : st.panic = none) :
    (configsLoop ad clients apis automationResources st es).panic = none ∨
    (configsLoop ad clients apis automationResources st es).panic = some reflectPanic := by
  induction es generalizing st with
  | nil => exact Or.inl hst
  | cons g es ih =>
    rw [configsLoop_cons, configsBody_eq]
    cases hpa : panicsAt clients apis automationResources g with
    | true =>
      rw [configsLoop_of_panicked]
      · simp [hst]
      · simp [hst]
    | false =>
      cases hp : plannedCall clients apis automationResources g with
      | none =>
        simp only [hst, Option.isSome_none, Bool.false_eq_true, if_false]
        exact ih st hst
      | some call =>
        simp only [hst, Option.isSome_none, Bool.false_eq_true, if_false]
        exact ih _ (by simpa [afterCall] using hst)

/-- Whether and how `Configs` panics depends neither on the order of the groups nor on the
adapters. -/
theorem configs_panic_perm {ω2 : Type} (ad2 : Adapters ω2) (world : ω) (world2 : ω2)
    (entries entries2 : DeleteEntries) (hperm : entries.Perm entries2) :
    (Configs ad world clients apis automationResources entries).panic
      = (Configs ad2 world2 clients apis automationResources entries2).panic := by
  have hiff : (Configs ad world clients apis automationResources entries).panic = none ↔
      (Configs ad2 world2 clients apis automationResources entries2).panic = none := by
    rw [configs_returns_iff, configs_returns_iff]
    exact ⟨fun h g hg => h g (hperm.mem_iff.2 hg), fun h g hg => h g (hperm.mem_iff.1 hg)⟩
  rcases configsLoop_panic_cases ad clients apis automationResources
    { deleteErrors := 0, trace := [], world := world, panic := none } entries rfl with h1 | h1
  · have h2 := hiff.1 h1
    rw [h2]
    exact h1
  · rcases configsLoop_panic_cases ad2 clients apis automationResources
      { deleteErrors := 0, trace := [], world := world2, panic := none } entries2 rfl
      with h2 | h2
    · have h3 := hiff.2 h2
      rw [configs_panic, h1] at h3
      cases h3
    · rw [configs_panic, configs_panic, h1, h2]

/-- When the result of an adapter call does not depend on the state of the world, two orders
of the same groups give the same number of failed calls in runs that return. -/
theorem failedCalls_perm
    (hpure : ∀ (w w2 : ω) (call : Call), (runCall ad w call).1 = (runCall ad w2 call).1)
    (world world2 : ω) (entries entries2 : DeleteEntries) (hperm : entries.Perm entries2)
    (hreturn : (Configs ad world clients apis automationResources entries).panic = none) :
    failedCalls (Configs ad world clients apis automationResources entries).trace
      = failedCalls (Configs ad world2 clients apis automationResources entries2).trace := by
  have hreturn2 : (Configs ad world2 clients apis automationResources entries2).panic
      = none := by
    rw [← configs_panic_perm ad clients apis automationResources ad world world2 entries
      entries2 hperm]
    exact hreturn
  rw [failedCalls_eq, failedCalls_eq, configs_trace, configs_trace,
    configsLoop_trace_errs ad clients apis automationResources hpure world _ _ rfl,
    configsLoop_trace_errs ad clients apis automationResources hpure world _ _ rfl,
    reachedEntries_eq_self clients apis automationResources entries
      ((configs_returns_iff ad world clients apis automationResources entries).1 hreturn),
    reachedEntries_eq_self clients apis automationResources entries2
      ((configs_returns_iff ad world2 clients apis automationResources entries2).1 hreturn2)]
  simp only [List.map_nil, List.nil_append]
  exact ((hperm.filterMap _).filter _).length_eq

end results

/-- C25: with adapters whose result depends on the call only and not on the state of the
world, `Configs` on two orders of the same delete-entries map returns the same result: nil for
both, or the error with the same count for both (and if it panics at an unset client field, it
does so for both, and nothing is returned); when the runs return, they have the same number of
failed groups. -/
theorem configs_result_independent_of_order {ω : Type} (ad : Adapters ω)
    (hpure : ∀ (w w2 : ω) (call : Call), (runCall ad w call).1 = (runCall ad w2 call).1)
    (world world2 : ω) (clients : ClientSet) (apis : api.APIs)
    (automationResources : String → Option config.AutomationResource)
    (entries entries2 : DeleteEntries) (hperm : entries.Perm entries2) :
    ((Configs ad world clients apis automationResources entries).panic = none →
      failedCalls (Configs ad world clients apis automationResources entries).trace
        = failedCalls (Configs ad world2 clients apis automationResources entries2).trace) ∧
    (Configs ad world clients apis automationResources entries).err
      = (Configs ad world2 clients apis automationResources entries2).err ∧
    (Configs ad world clients apis automationResources entries).panic
      = (Configs ad world2 clients apis automationResources entries2).panic := by
  have hpanic := configs_panic_perm ad clients apis automationResources ad world world2
    entries entries2 hperm
  have h := failedCalls_perm ad clients apis automationResources hpure world world2
    entries entries2 hperm
  refine ⟨h, ?_, hpanic⟩
  rw [configs_err_eq, configs_err_eq, ← hpanic]
  cases hp : (Configs ad world clients apis automationResources entries).panic with
  | some m => simp
  | none =>
    rw [h hp]

/-- Witness of C25: the example entries and their reverse give `encountered 2 errors` both. -/
theorem configs_result_independent_of_order_witness :
    (∀ (w w2 : Nat) (call : Call),
      (runCall examples.adapters w call).1 = (runCall examples.adapters w2 call).1) ∧
    examples.entries.Perm examples.entries.reverse ∧
    (Configs examples.adapters 0 examples.allClients examples.catalog
        examples.automationResources examples.entries).panic = none ∧
    (Configs examples.adapters 0 examples.allClients examples.catalog
        examples.automationResources examples.entries).err = some "encountered 2 errors" ∧
    (Configs examples.adapters 0 examples.allClients examples.catalog
        examples.automationResources examples.entries).err
      = (Configs examples.adapters 0 examples.allClients examples.catalog
        examples.automationResources examples.entries.reverse).err ∧
    failedCalls (Configs examples.adapters 0 examples.allClients examples.catalog
        examples.automationResources examples.entries).trace
      = failedCalls (Configs examples.adapters 0 examples.allClients examples.catalog
        examples.automationResources examples.entries.reverse).trace :=
  ⟨fun _ _ call => by cases call <;> rfl, (List.reverse_perm _).symm, rfl, by decide,
    (configs_result_independent_of_order examples.adapters
      (fun _ _ call => by cases call <;> rfl) 0 0 examples.allClients examples.catalog
      examples.automationResources examples.entries examples.entries.reverse
      (List.reverse_perm _).symm).2.1,
    (configs_result_independent_of_order examples.adapters
      (fun _ _ call => by cases call <;> rfl) 0 0 examples.allClients examples.catalog
      examples.automationResources examples.entries examples.entries.reverse
      (List.reverse_perm _).symm).1 rfl⟩

end delete
